import Mathlib

/-!
# pRSkyline-UD: the quadtree index of `quadtree.hpp`

A shallow embedding of `class QuadTree` (`BuildRecursive`, `QueryRecursive`,
`Build`, `CalProb`) and theorems about it.

Reading conventions for the C++ source:

* `object.hpp` is not part of the sources.  `HyperPlane` carries the three
  fields the index reads (`obj_id`, `ins_id`, `prob`) and an uninterpreted
  payload; the methods of `HyperPlane` and `HyperBox` and the constant `Dim`
  are the fields of `ObjectHpp`, a parameter of every definition.
* A `double` is an exact rational, or `none` when the source computes no
  finite number (a division by zero gives an infinity or a NaN, and these
  never become finite again in the expressions of this file).
* `int *sigma` of length `m` is a list of length `m`, which the `memset` sets to
  zero; object ids are indices into it.
* `void *tree_or_info` is the tagged `Payload`; reading it at the other type,
  or reading a null pointer, gives `none`.
* `Info info; node->tree_or_info = &info;` stores the summary in the leaf.
* `children.reserve(n_child); children[i] = ...` is read as filling a vector
  of `n_child` children: `Node.children` is the list of the nodes assigned.
  The vector itself, with its size and its reserved storage, is `NodeVector`.
* The branches of `QueryRecursive` that end after a recursive call are read as
  returning the value of that call, and `CalProb` as returning `results`.
* `BuildRecursive` may recurse for ever; it takes a fuel argument that every
  call decrements and returns `none` when the fuel is used up.

The definitions `AsWritten.BuildRecursive`, `AsWritten.QueryRecursive` and
`AsWritten.CalProb` read the address of the local `info`, the vector `children`
and the bodies without a `return` statement as they are written.
-/

namespace QuadTree

/-! ## External types -/

/-- Modelled from the spec: the `HyperPlane` of `object.hpp`, which is not in
the sources: the owning object, the instance, the integer weight (called
`prob` in the code), and the geometric payload `coef`, which only the external
predicates inspect. -/
structure HyperPlane (G : Type) where
  obj_id : Nat
  ins_id : Int
  prob : Int
  coef : G

/-- The interface of `object.hpp` that `quadtree.hpp` uses: the constant `Dim`,
the methods of `HyperPlane` (`Above`, `Intersect`, `RDominates`,
`GetQueryPoints`, the latter as the array it fills, indexed by level) and of
`HyperBox` (`GetSubSpace`, `PointLocation`, which returns the child number and
writes the sub-box). -/
structure ObjectHpp (G Box Point : Type) where
  Dim : Nat
  Above : HyperPlane G → Box → Bool
  Intersect : HyperPlane G → Box → Bool
  RDominates : HyperPlane G → HyperPlane G → Box → Bool
  GetQueryPoints : HyperPlane G → Box → Nat → Point
  GetSubSpace : Box → Nat → Box
  PointLocation : Box → Point → Nat × Box

/-! ## Doubles -/

/-- A `double` read exactly: `some q`, or `none` for a non-finite value. -/
abbrev Double := Option ℚ

/-- The product `a * b` of doubles. -/
def dmul (a b : Double) : Double :=
  match a, b with
  | some x, some y => some (x * y)
  | _, _ => none

/-- The quotient `a / y` of a double by a finite number. -/
def ddiv (a : Double) (y : ℚ) : Double :=
  match a with
  | some x => if y = 0 then none else some (x / y)
  | none => none

/-! ## The tree -/

/-- The `struct Info` of a level 0 leaf. -/
structure Info where
  sigma : List Int
  beta : Double
  xi : Int

mutual
/-- The `struct Node`; `n_through` is the length of `through_planes`. -/
inductive Node where
  | mk (children : List Node) (through_planes : List Nat) (tree_or_info : Payload)
/-- What `tree_or_info` points to. -/
inductive Payload where
  | null
  | info (i : Info)
  | tree (n : Node)
end

/-- The `children` of a node. -/
def Node.children : Node → List Node
  | .mk cs _ _ => cs

/-- The `through_planes` of a node. -/
def Node.through_planes : Node → List Nat
  | .mk _ t _ => t

/-- The `tree_or_info` of a node. -/
def Node.tree_or_info : Node → Payload
  | .mk _ _ p => p

/-- The members `m`, `c`, `n_child`, `root`, `planes` and `space` of the class. -/
structure Tree (G Box : Type) where
  m : Nat
  c : Int
  n_child : Nat
  root : Node
  planes : List (HyperPlane G)
  space : Box

section Defs

variable {G Box Point : Type} [Inhabited G]

instance : Inhabited (HyperPlane G) := ⟨⟨0, 0, 0, default⟩⟩

/-- The element `planes[p]`. -/
def planeAt (planes : List (HyperPlane G)) (p : Nat) : HyperPlane G :=
  planes.getD p default

/-- The element `sigma[o]`. -/
def sigmaAt (sigma : List Int) (o : Nat) : Int :=
  sigma.getD o 0

/-- The bound of `through.size() <= c`: the `int c` converted to `size_t`. -/
def threshold (c : Int) : Nat :=
  (c % 2 ^ 64).toNat

/-- The value of `pow(2, Dim - 1) - 1`, the level of the outermost tree. -/
def topLevel (Dim : Nat) : Nat :=
  2 ^ (Dim - 1) - 1

/-! ## The Leaf Summary (lines 51-64) -/

/-- The summary `Info()` after `memset`: `sigma` all zero, `beta = 1`, `xi = 0`. -/
def Info.init (m : Nat) : Info :=
  { sigma := List.replicate m 0, beta := some 1, xi := 0 }

/-- One iteration of `for (int p : above)` (lines 55-63). -/
def foldStep (planes : List (HyperPlane G)) (info : Info) (p : Nat) : Info :=
  let pl := planeAt planes p
  let s := sigmaAt info.sigma pl.obj_id
  if s + 1 = pl.prob then
    { sigma := info.sigma.set pl.obj_id (s + 1)
      beta := dmul info.beta (some (pl.prob : ℚ))
      xi := info.xi + 1 }
  else
    let delta : ℚ := (pl.prob : ℚ) - (s : ℚ)
    { sigma := info.sigma.set pl.obj_id (s + 1)
      beta := dmul info.beta (ddiv (some (delta - 1)) delta)
      xi := info.xi }

/-- The loop of lines 51-64 over the whole `above` vector. -/
def foldInfo (planes : List (HyperPlane G)) (m : Nat) (above : List Nat) : Info :=
  above.foldl (foldStep planes) (Info.init m)

/-- The object ids of the iterations that take the branch
`sigma[obj_id] + 1 == prob`, in the order of the loop. -/
def saturated (planes : List (HyperPlane G)) : Info → List Nat → List Nat
  | _, [] => []
  | info, p :: rest =>
    let pl := planeAt planes p
    if sigmaAt info.sigma pl.obj_id + 1 = pl.prob then
      pl.obj_id :: saturated planes (foldStep planes info p) rest
    else saturated planes (foldStep planes info p) rest

/-! ## BuildRecursive and Build -/

/-- All results of the children, when every call returned. -/
def collect : List (Option Node) → Option (List Node)
  | [] => some []
  | none :: _ => none
  | some x :: rest => (collect rest).map (fun xs => x :: xs)

/-- The members of `through` pushed on `above` for `subspace` (line 76). -/
def subAbove (g : ObjectHpp G Box Point) (planes : List (HyperPlane G))
    (subspace : Box) (through : List Nat) : List Nat :=
  through.filter (fun p => g.Above (planeAt planes p) subspace)

/-- The vector `subthrough` for `subspace` (line 77). -/
def subThrough (g : ObjectHpp G Box Point) (planes : List (HyperPlane G))
    (subspace : Box) (through : List Nat) : List Nat :=
  through.filter (fun p =>
    !g.Above (planeAt planes p) subspace && g.Intersect (planeAt planes p) subspace)

/-- The test of line 77 for one boundary: not above `b`, and intersecting it. -/
def crosses (g : ObjectHpp G Box Point) (planes : List (HyperPlane G)) (b : Box) (p : Nat) :
    Bool :=
  !g.Above (planeAt planes p) b && g.Intersect (planeAt planes p) b

/-- The box reached from `space` by taking `GetSubSpace` along `path`. -/
def boxAt (g : ObjectHpp G Box Point) (space : Box) (path : List Nat) : Box :=
  path.foldl g.GetSubSpace space

/-- The indices of the boundaries that cross the box `b`. -/
def crossing (g : ObjectHpp G Box Point) (planes : List (HyperPlane G)) (b : Box) : List Nat :=
  (List.range planes.length).filter (crosses g planes b)

/-- The boundary set `planes` with every weight replaced by `w`. -/
def setWeights (w : HyperPlane G → Int) (planes : List (HyperPlane G)) : List (HyperPlane G) :=
  planes.map (fun p => { p with prob := w p })

/-- The function `BuildRecursive` (lines 44-84); `root_space` is `this->space`. -/
def BuildRecursive (g : ObjectHpp G Box Point) (planes : List (HyperPlane G))
    (m : Nat) (c : Int) (n_child : Nat) (root_space : Box) :
    Nat → Box → List Nat → List Nat → Nat → Nat → Option Node
  | 0, _, _, _, _, _ => none
  | fuel + 1, space, above, through, depth, level =>
    if through.length ≤ threshold c then
      if level = 0 then
        some (Node.mk [] through (Payload.info (foldInfo planes m above)))
      else
        match BuildRecursive g planes m c n_child root_space fuel root_space [] above 1
            (level - 1) with
        | some t => some (Node.mk [] through (Payload.tree t))
        | none => none
    else
      match collect ((List.range n_child).map (fun i =>
          BuildRecursive g planes m c n_child root_space fuel (g.GetSubSpace space i)
            (above ++ subAbove g planes (g.GetSubSpace space i) through)
            (subThrough g planes (g.GetSubSpace space i) through) (depth + 1) level)) with
      | some cs => some (Node.mk cs [] Payload.null)
      | none => none

/-- The vector `above` that `Build` fills (line 153). -/
def rootAbove (g : ObjectHpp G Box Point) (planes : List (HyperPlane G)) (space : Box) :
    List Nat :=
  (List.range planes.length).filter (fun i => g.Above (planeAt planes i) space)

/-- The vector `through` that `Build` fills (line 154). -/
def rootThrough (g : ObjectHpp G Box Point) (planes : List (HyperPlane G)) (space : Box) :
    List Nat :=
  (List.range planes.length).filter (fun i =>
    !g.Above (planeAt planes i) space && g.Intersect (planeAt planes i) space)

/-- The constructor `QuadTree(m, planes, space)` followed by `Build` (lines
130-157); `c` is the value the member `c` holds, which the class never sets. -/
def Build (g : ObjectHpp G Box Point) (m : Nat) (c : Int) (fuel : Nat)
    (planes : List (HyperPlane G)) (space : Box) : Option (Tree G Box) :=
  match BuildRecursive g planes m c (2 ^ g.Dim) space fuel space
      (rootAbove g planes space) (rootThrough g planes space) 1 (topLevel g.Dim) with
  | some root =>
    some { m := m, c := c, n_child := 2 ^ g.Dim, root := root, planes := planes, space := space }
  | none => none

/-! ## QueryRecursive and CalProb -/

/-- The maps `n_obj` and `prob_obj` of lines 98-99, as association lists; `n_obj`
keeps the order of first insertion. -/
structure Tally where
  n_obj : List (Nat × Int)
  prob_obj : List (Int × ℚ)

/-- The statement `++ n_obj[o]` for a key that is present. -/
def incr (o : Nat) : List (Nat × Int) → List (Nat × Int)
  | [] => []
  | (k, n) :: rest => if k = o then (k, n + 1) :: rest else (k, n) :: incr o rest

/-- One iteration of `for (int p : through)` (lines 101-105). -/
def tallyStep (g : ObjectHpp G Box Point) (planes : List (HyperPlane G))
    (plane : HyperPlane G) (R : Box) (t : Tally) (p : Nat) : Tally :=
  let q := planeAt planes p
  if q.obj_id = plane.obj_id then t
  else if g.RDominates q plane R then
    if (t.n_obj.lookup q.obj_id).isSome then { t with n_obj := incr q.obj_id t.n_obj }
    else { n_obj := t.n_obj ++ [(q.obj_id, 1)]
           prob_obj := (q.prob, (q.prob : ℚ)) :: t.prob_obj }
  else t

/-- The value `prob_obj[o]` read at an object id (lines 109 and 111): the entry
stored under the key `o`, or `0.0` for a missing key. -/
def probObjAt (prob_obj : List (Int × ℚ)) (o : Nat) : ℚ :=
  (prob_obj.lookup (o : Int)).getD 0

/-- The loop `for (auto iter : n_obj)` and the final `return` (lines 108-115). -/
def tallyLoop (info : Info) (prob_obj : List (Int × ℚ)) (plane : HyperPlane G) :
    List (Nat × Int) → Double → Double
  | [], beta => ddiv beta (plane.prob : ℚ)
  | (o, n) :: rest, beta =>
    if ((sigmaAt info.sigma o + n : Int) : ℚ) = probObjAt prob_obj o then some 0
    else
      let delta : ℚ := probObjAt prob_obj o - (sigmaAt info.sigma o : ℚ)
      tallyLoop info prob_obj plane rest (dmul beta (ddiv (some (delta - (n : ℚ))) delta))

/-- The evaluation at a level 0 leaf (lines 96-115). -/
def evalInfo (g : ObjectHpp G Box Point) (planes : List (HyperPlane G)) (info : Info)
    (through : List Nat) (R : Box) (plane : HyperPlane G) : Double :=
  if info.xi > 1 ∨ (info.xi = 1 ∧ sigmaAt info.sigma plane.obj_id ≠ plane.prob) then some 0
  else
    let t := through.foldl (tallyStep g planes plane R) { n_obj := [], prob_obj := [] }
    let beta := ddiv (dmul info.beta (some (plane.prob : ℚ)))
      (sigmaAt info.sigma plane.obj_id : ℚ)
    tallyLoop info t.prob_obj plane t.n_obj beta

mutual
/-- The function `QueryRecursive` (lines 92-125); `root_space` is `this->space`. -/
def QueryRecursive (g : ObjectHpp G Box Point) (planes : List (HyperPlane G))
    (root_space : Box) (points : Nat → Point) (R : Box) (plane : HyperPlane G) :
    Node → Box → List Nat → Nat → Double
  | .mk [] through_planes payload, _, through, level =>
    queryLeaf g planes root_space points R plane payload through_planes through level
  | .mk (ch :: cs) _ _, space, through, level =>
    queryChild g planes root_space points R plane (ch :: cs)
      (g.PointLocation space (points level)).1 (g.PointLocation space (points level)).2
      through level
/-- The leaf branch of `QueryRecursive` (lines 95-119). -/
def queryLeaf (g : ObjectHpp G Box Point) (planes : List (HyperPlane G))
    (root_space : Box) (points : Nat → Point) (R : Box) (plane : HyperPlane G) :
    Payload → List Nat → List Nat → Nat → Double
  | .info info, _, through, 0 => evalInfo g planes info through R plane
  | .tree t, through_planes, through, level + 1 =>
    QueryRecursive g planes root_space points R plane t root_space
      (through ++ through_planes) level
  | _, _, _, _ => none
/-- The call `QueryRecursive(node->children[k], subspace, ...)` (line 123). -/
def queryChild (g : ObjectHpp G Box Point) (planes : List (HyperPlane G))
    (root_space : Box) (points : Nat → Point) (R : Box) (plane : HyperPlane G) :
    List Node → Nat → Box → List Nat → Nat → Double
  | [], _, _, _, _ => none
  | ch :: _, 0, subspace, through, level =>
    QueryRecursive g planes root_space points R plane ch subspace through level
  | _ :: cs, k + 1, subspace, through, level =>
    queryChild g planes root_space points R plane cs k subspace through level
end

/-- The assignment `results[k] = v` on a `std::map<int, double>`, kept sorted. -/
def mapSet (k : Int) (v : Double) : List (Int × Double) → List (Int × Double)
  | [] => [(k, v)]
  | (k', v') :: rest =>
    if k < k' then (k, v) :: (k', v') :: rest
    else if k = k' then (k, v) :: rest
    else (k', v') :: mapSet k v rest

/-- The value that line 166 computes for the boundary `p`. -/
def queryPlane (g : ObjectHpp G Box Point) (t : Tree G Box) (R : Box) (p : HyperPlane G) :
    Double :=
  QueryRecursive g t.planes t.space (g.GetQueryPoints p R) R p t.root t.space []
    (topLevel g.Dim)

/-- The function `CalProb` (lines 159-168). -/
def CalProb (g : ObjectHpp G Box Point) (t : Tree G Box) (R : Box) : List (Int × Double) :=
  t.planes.foldl (fun results p => mapSet p.ins_id (queryPlane g t R p) results) []

end Defs

/-! ## Concrete inputs -/

/-- A small geometry.  A box is the path of child numbers from the whole space.
The payload of a plane is its class: a plane of class 0 is above every box, a
plane of class 1 crosses the boxes whose path is all zeros and is neither above
nor crossing elsewhere, any other plane is neither above nor crossing any box.  Planes
of class 1 restricted-dominate planes of class 0, and every point lies in
child 0. -/
def pathGeom (Dim : Nat) : ObjectHpp Nat (List Nat) Unit where
  Dim := Dim
  Above := fun pl _ => pl.coef == 0
  Intersect := fun pl b => pl.coef == 1 && b.all (fun i => i == 0)
  RDominates := fun q p _ => q.coef == 1 && p.coef == 0
  GetQueryPoints := fun _ _ _ => ()
  GetSubSpace := fun b i => b ++ [i]
  PointLocation := fun b _ => (0, b ++ [0])

/-- One object with one instance of weight 1, whose plane has class `k`. -/
def planesSingle (k : Nat) : List (HyperPlane Nat) :=
  [⟨0, 0, 1, k⟩]

/-- Object 1 has one instance, above the space.  Object 0 has three instances
of weight 3: one above the space, one crossing it, one neither. -/
def planesThreeInstances : List (HyperPlane Nat) :=
  [⟨1, 0, 1, 0⟩, ⟨0, 1, 3, 0⟩, ⟨0, 2, 3, 1⟩, ⟨0, 3, 3, 2⟩]

/-- Object 1 has one instance, above the space.  Object 0 has two instances of
weight 2: one above the space, one crossing it. -/
def planesTwoInstances : List (HyperPlane Nat) :=
  [⟨1, 0, 1, 0⟩, ⟨0, 1, 2, 0⟩, ⟨0, 2, 2, 1⟩]

/-- The tree that `Build` makes from `planesTwoInstances` with `Dim = 2`, `m = 2`
and `c = 1`: a root leaf with boundary 2 in `through`, whose nested tree has
four level 0 leaves that fold boundaries 0 and 1. -/
def treeTwoInstances : Tree Nat (List Nat) where
  m := 2
  c := 1
  n_child := 4
  root := Node.mk [] [2] (Payload.tree (Node.mk
    [Node.mk [] [] (Payload.info (foldInfo planesTwoInstances 2 [0, 1])),
     Node.mk [] [] (Payload.info (foldInfo planesTwoInstances 2 [0, 1])),
     Node.mk [] [] (Payload.info (foldInfo planesTwoInstances 2 [0, 1])),
     Node.mk [] [] (Payload.info (foldInfo planesTwoInstances 2 [0, 1]))] [] Payload.null))
  planes := planesTwoInstances
  space := []

/-- Object 0 has one boundary of weight 1; object 1 has two boundaries of weight
5, above the space, and one of weight 2, crossing it. -/
def planesMixedWeights : List (HyperPlane Nat) :=
  [⟨0, 0, 1, 0⟩, ⟨1, 1, 5, 0⟩, ⟨1, 2, 5, 0⟩, ⟨1, 3, 2, 1⟩]

/-- Object 0 has one instance, crossing the space.  Object 1 has two instances
of weight 2: one above the space, one neither above nor crossing. -/
def planesCrossingQuery : List (HyperPlane Nat) :=
  [⟨0, 0, 1, 1⟩, ⟨1, 1, 2, 0⟩, ⟨1, 2, 2, 2⟩]

/-- Object 1 has one instance, above the space; object 0 has one instance,
crossing the space. -/
def planesDominated : List (HyperPlane Nat) :=
  [⟨1, 0, 1, 0⟩, ⟨0, 1, 1, 1⟩]

/-- Two coincident boundaries of one object, both crossing the space. -/
def planesCoincident : List (HyperPlane Nat) :=
  [⟨0, 0, 2, 1⟩, ⟨0, 1, 2, 1⟩]

/-- Two boundaries above the space, of weights 0 and -1. -/
def planesBadWeights : List (HyperPlane Nat) :=
  [⟨0, 0, 0, 0⟩, ⟨1, 1, -1, 0⟩]

/-- Two boundaries of object 0, both of weight 1. -/
def planesSameWeight : List (HyperPlane Nat) :=
  [⟨0, 0, 1, 0⟩, ⟨0, 1, 1, 0⟩]

/-- Two boundaries of object 0, of weights 1 and 2. -/
def planesTwoWeights : List (HyperPlane Nat) :=
  [⟨0, 0, 1, 0⟩, ⟨0, 1, 2, 0⟩]

/-- Two objects with two instances each, all of weight 2. -/
def planesTwoObjects : List (HyperPlane Nat) :=
  [⟨0, 0, 2, 0⟩, ⟨1, 1, 2, 0⟩, ⟨0, 2, 2, 0⟩, ⟨1, 3, 2, 0⟩]

/-! ## The call graph of BuildRecursive -/

section CallGraph

variable {G Box Point : Type} [Inhabited G]

/-- The arguments of one call of `BuildRecursive`. -/
structure Call (Box : Type) where
  space : Box
  above : List Nat
  through : List Nat
  depth : Nat
  level : Nat

/-- The call of `BuildRecursive` on the arguments `k`. -/
def runCall (g : ObjectHpp G Box Point) (planes : List (HyperPlane G)) (m : Nat) (c : Int)
    (n_child : Nat) (root_space : Box) (fuel : Nat) (k : Call Box) : Option Node :=
  BuildRecursive g planes m c n_child root_space fuel k.space k.above k.through k.depth k.level

/-- The arguments of the call of line 79 for child `i`. -/
def childCall (g : ObjectHpp G Box Point) (planes : List (HyperPlane G)) (k : Call Box)
    (i : Nat) : Call Box where
  space := g.GetSubSpace k.space i
  above := k.above ++ subAbove g planes (g.GetSubSpace k.space i) k.through
  through := subThrough g planes (g.GetSubSpace k.space i) k.through
  depth := k.depth + 1
  level := k.level

/-- The arguments of the call of line 67 for the nested tree. -/
def nestedCall (root_space : Box) (k : Call Box) : Call Box where
  space := root_space
  above := []
  through := k.above
  depth := 1
  level := k.level - 1

/-- The arguments of the call of line 156 in `Build`. -/
def rootCall (g : ObjectHpp G Box Point) (planes : List (HyperPlane G)) (space : Box) :
    Call Box where
  space := space
  above := rootAbove g planes space
  through := rootThrough g planes space
  depth := 1
  level := topLevel g.Dim

/-- The call `k` subdivides (line 69) and calls `BuildRecursive` on `k'` for one
of its children (line 79). -/
def ChildOf (g : ObjectHpp G Box Point) (planes : List (HyperPlane G)) (c : Int)
    (n_child : Nat) (k k' : Call Box) : Prop :=
  threshold c < k.through.length ∧ ∃ i, i < n_child ∧ k' = childCall g planes k i

/-- The call `k` makes a leaf above level 0 (line 66) and calls `BuildRecursive`
on `k'` for its nested tree (line 67). -/
def NestedOf (c : Int) (root_space : Box) (k k' : Call Box) : Prop :=
  k.through.length ≤ threshold c ∧ k.level ≠ 0 ∧ k' = nestedCall root_space k

/-- The call `k'` is made, directly or not, by `k` while it builds one tree. -/
def InTree (g : ObjectHpp G Box Point) (planes : List (HyperPlane G)) (c : Int)
    (n_child : Nat) : Call Box → Call Box → Prop :=
  Relation.ReflTransGen (ChildOf g planes c n_child)

/-- The call `k'` is made, directly or not, by `k`, nested trees included. -/
def Reach (g : ObjectHpp G Box Point) (planes : List (HyperPlane G)) (c : Int)
    (n_child : Nat) (root_space : Box) : Call Box → Call Box → Prop :=
  Relation.ReflTransGen (fun a b => ChildOf g planes c n_child a b ∨ NestedOf c root_space a b)

/-- The node `n` is a node of the tree `t`, nested trees included. -/
inductive Sub : Node → Node → Prop where
  | refl (t : Node) : Sub t t
  | child (n ch : Node) (cs : List Node) (tp : List Nat) (p : Payload) (hmem : ch ∈ cs)
    (hsub : Sub n ch) : Sub n (Node.mk cs tp p)
  | nested (n t : Node) (cs : List Node) (tp : List Nat) (hsub : Sub n t) :
    Sub n (Node.mk cs tp (Payload.tree t))

/-- The tree `t` has the shape of a tree of remaining level `L`: its leaves hold a
Leaf Summary when `L` is 0 and a nested tree of remaining level `L - 1`
otherwise, and its other nodes hold children and nothing else. -/
inductive Levelled : Nat → Node → Prop where
  | summary (tp : List Nat) (info : Info) : Levelled 0 (Node.mk [] tp (Payload.info info))
  | nested (L : Nat) (tp : List Nat) (t : Node) (h : Levelled L t) :
    Levelled (L + 1) (Node.mk [] tp (Payload.tree t))
  | internal (L : Nat) (ch : Node) (cs : List Node)
    (h : ∀ x ∈ ch :: cs, Levelled L x) : Levelled L (Node.mk (ch :: cs) [] Payload.null)

/-- There is a way from the root of `t` to a Leaf Summary that passes `j` leaves
holding a nested tree. -/
inductive PathToSummary : Node → Nat → Prop where
  | summary (tp : List Nat) (info : Info) : PathToSummary (Node.mk [] tp (Payload.info info)) 0
  | nested (j : Nat) (tp : List Nat) (t : Node) (h : PathToSummary t j) :
    PathToSummary (Node.mk [] tp (Payload.tree t)) (j + 1)
  | child (j : Nat) (ch : Node) (cs : List Node) (tp : List Nat) (p : Payload)
    (hmem : ch ∈ cs) (h : PathToSummary ch j) : PathToSummary (Node.mk cs tp p) j

end CallGraph

/-! ## The calls of QueryRecursive -/

section QueryCalls

variable {G Box Point : Type} [Inhabited G]

/-- The arguments `node`, `space`, `through` and `level` of one call of
`QueryRecursive`. -/
structure QCall (Box : Type) where
  node : Node
  space : Box
  through : List Nat
  level : Nat

mutual
/-- The calls of `QueryRecursive` that the call on `node`, `space`, `through` and
`level` leads to, itself first, in the order in which they are made. -/
def calls (g : ObjectHpp G Box Point) (root_space : Box) (points : Nat → Point) :
    Node → Box → List Nat → Nat → List (QCall Box)
  | .mk [] through_planes payload, space, through, level =>
    ⟨.mk [] through_planes payload, space, through, level⟩ ::
      callsLeaf g root_space points payload through_planes through level
  | .mk (ch :: cs) through_planes payload, space, through, level =>
    ⟨.mk (ch :: cs) through_planes payload, space, through, level⟩ ::
      callsChild g root_space points (ch :: cs)
        (g.PointLocation space (points level)).1 (g.PointLocation space (points level)).2
        through level
/-- The calls made from a leaf: none at level 0, where lines 96-115 return; the
call of line 118 otherwise, when `tree_or_info` is a node. -/
def callsLeaf (g : ObjectHpp G Box Point) (root_space : Box) (points : Nat → Point) :
    Payload → List Nat → List Nat → Nat → List (QCall Box)
  | .tree t, through_planes, through, level + 1 =>
    calls g root_space points t root_space (through ++ through_planes) level
  | _, _, _, _ => []
/-- The calls made by the call of line 123 on `children[k]`. -/
def callsChild (g : ObjectHpp G Box Point) (root_space : Box) (points : Nat → Point) :
    List Node → Nat → Box → List Nat → Nat → List (QCall Box)
  | [], _, _, _, _ => []
  | ch :: _, 0, subspace, through, level =>
    calls g root_space points ch subspace through level
  | _ :: cs, k + 1, subspace, through, level =>
    callsChild g root_space points cs k subspace through level
end

/-- What a call of `QueryRecursive` returns when it makes no further call: the
value of lines 96-115 at a leaf at level 0 that holds a Leaf Summary, and
nothing otherwise. -/
def finalValue (g : ObjectHpp G Box Point) (planes : List (HyperPlane G)) (R : Box)
    (plane : HyperPlane G) : QCall Box → Double
  | ⟨.mk [] _ (.info info), _, through, 0⟩ => evalInfo g planes info through R plane
  | _ => none

/-- The value of the last call in a list of calls. -/
def lastValue (g : ObjectHpp G Box Point) (planes : List (HyperPlane G)) (R : Box)
    (plane : HyperPlane G) : List (QCall Box) → Double
  | [] => none
  | [q] => finalValue g planes R plane q
  | _ :: q :: rest => lastValue g planes R plane (q :: rest)

end QueryCalls


/-! ## The loop over the children, with the vector `above` as state -/

section ChildrenLoop

variable {G Box Point : Type} [Inhabited G]

/-- The statement `above.pop_back()` executed `n` times (line 80). -/
def popBack : Nat → List Nat → List Nat
  | 0, above => above
  | n + 1, above => popBack n above.dropLast

/-- The loop of lines 75-78 over the rest of `through`: the vectors `above` and
`subthrough` and the counter `n_ins_above` before and after. -/
def partitionLoop (g : ObjectHpp G Box Point) (planes : List (HyperPlane G)) (subspace : Box) :
    List Nat → List Nat × List Nat × Nat → List Nat × List Nat × Nat
  | [], state => state
  | p :: rest, (above, subthrough, n_ins_above) =>
    if g.Above (planeAt planes p) subspace then
      partitionLoop g planes subspace rest (above ++ [p], subthrough, n_ins_above + 1)
    else if g.Intersect (planeAt planes p) subspace then
      partitionLoop g planes subspace rest (above, subthrough ++ [p], n_ins_above)
    else partitionLoop g planes subspace rest (above, subthrough, n_ins_above)

/-- The loop of lines 71-81 over the child numbers in `indices`, with the vector
`above` as it is before the iteration; `call` stands for the call of line 79
with the sub-box and the vectors `above` and `subthrough` as arguments. -/
def childrenLoop (g : ObjectHpp G Box Point) (planes : List (HyperPlane G)) (space : Box)
    (through : List Nat) (call : Box → List Nat → List Nat → Option Node) :
    List Nat → List Nat → Option (List Node)
  | [], _ => some []
  | i :: rest, above =>
    match call (g.GetSubSpace space i)
        (partitionLoop g planes (g.GetSubSpace space i) through (above, [], 0)).1
        (partitionLoop g planes (g.GetSubSpace space i) through (above, [], 0)).2.1 with
    | none => none
    | some ch =>
      (childrenLoop g planes space through call rest
        (popBack (partitionLoop g planes (g.GetSubSpace space i) through (above, [], 0)).2.2
          (partitionLoop g planes (g.GetSubSpace space i) through (above, [], 0)).1)).map
        (fun cs => ch :: cs)

end ChildrenLoop

/-! ## The vector `children` -/

/-- A `std::vector<Node*>`: its elements, of which `size()` is the number, and
behind them the storage that `reserve` has set aside, a slot being `none` until
something is written to it. -/
structure NodeVector where
  elems : List Node
  spare : List (Option Node)

/-- The vector of a new `Node`: no element, no storage. -/
def NodeVector.new : NodeVector :=
  { elems := [], spare := [] }

/-- The member `size()`. -/
def NodeVector.size (v : NodeVector) : Nat :=
  v.elems.length

/-- The member `empty()`. -/
def NodeVector.empty (v : NodeVector) : Bool :=
  v.elems.isEmpty

/-- The member `reserve(n)`: storage for `n` elements, the elements unchanged. -/
def NodeVector.reserve (v : NodeVector) (n : Nat) : NodeVector :=
  { v with spare := v.spare ++ List.replicate (n - (v.elems.length + v.spare.length)) none }

/-- The assignment `v[i] = x`: element `i` when there is one, and otherwise, out
of the bounds of the vector, the slot of the storage behind the elements. -/
def NodeVector.assign (v : NodeVector) (i : Nat) (x : Node) : NodeVector :=
  if i < v.elems.length then { v with elems := v.elems.set i x }
  else { v with spare := v.spare.set (i - v.elems.length) (some x) }

/-- The loop of lines 71-81 on the vector `children`: `children[i] = ...` for the
nodes that the calls of line 79 return, from child number `i` on. -/
def assignFrom : Nat → List Node → NodeVector → NodeVector
  | _, [], v => v
  | i, x :: rest, v => assignFrom (i + 1) rest (v.assign i x)

/-- The vector `children` of a node after lines 70-81, for the nodes `cs` that the
calls of line 79 return. -/
def childrenVector (cs : List Node) : NodeVector :=
  assignFrom 0 cs (NodeVector.new.reserve cs.length)


/-! ## The closed form of the Leaf Summary -/

/-- The number of members of `above` that belong to object `o`. -/
def occurrences {G : Type} [Inhabited G] (planes : List (HyperPlane G)) (above : List Nat)
    (o : Nat) : Nat :=
  above.countP (fun p => (planeAt planes p).obj_id = o)

/-- What an object of weight `w` with `k` folded boundaries contributes to `beta`:
`(w - k) / w`, and 1 when `k` is 0 or `w`. -/
def contribution (w : Int) (k : Nat) : ℚ :=
  if k = 0 then 1 else if (k : Int) = w then 1 else ((w : ℚ) - (k : ℚ)) / (w : ℚ)


/-! ## The steps of QueryRecursive -/

/-- The call `q'` is the call that the call `q` of `QueryRecursive` makes: the call
of line 123 on the child that `PointLocation` gives for the point `points[level]`
when the node has children, and the call of line 118 on `tree_or_info`, with the
`through` list of the leaf appended to `through`, at a leaf above level 0. -/
def NextCall {G Box Point : Type} (g : ObjectHpp G Box Point) (root_space : Box)
    (points : Nat → Point) (q q' : QCall Box) : Prop :=
  (q.node.children ≠ [] →
    q.node.children[(g.PointLocation q.space (points q.level)).1]? = some q'.node ∧
    q'.space = (g.PointLocation q.space (points q.level)).2 ∧
    q'.through = q.through ∧ q'.level = q.level) ∧
  (q.node.children = [] →
    q.level ≠ 0 ∧ q.node.tree_or_info = Payload.tree q'.node ∧ q'.space = root_space ∧
    q'.through = q.through ++ q.node.through_planes ∧ q'.level = q.level - 1)

/-- The call reads `tree_or_info` as a Leaf Summary: the tests of lines 94 and 95
both hold. -/
def evaluates {Box : Type} (q : QCall Box) : Bool :=
  q.node.children.isEmpty && q.level == 0


/-- No index occurs twice among the vectors `above` and `through` of a call of
`BuildRecursive` and the vector `through` of a call of `QueryRecursive`. -/
def Separated {Box : Type} (k : Call Box) (acc : List Nat) : Prop :=
  k.above.Nodup ∧ k.through.Nodup ∧ k.above.Disjoint k.through ∧ acc.Nodup ∧
    acc.Disjoint (k.above ++ k.through)


/-- Object 0 has one instance, above the space; object 1 has one instance,
crossing the space. -/
def planesLevelZero : List (HyperPlane Nat) :=
  [⟨0, 0, 1, 0⟩, ⟨1, 1, 1, 1⟩]



/-! ## The source as written

The definitions above read three places of the source by the conventions of
the header.  The definitions of this section read them as they are written:
the vector `children` keeps the size it has (lines 70, 79 and 94), the `Info`
of a leaf is a local variable of the block of lines 50-65, dead when
`BuildRecursive` returns, and a function body that ends without a `return`
statement hands no value to its caller (lines 118, 123 and 167). -/

/-- What a call of a function of the source hands to its caller: the value of
the `return` statement that ends the call, or nothing, when the end of the
body is reached without a `return` statement. -/
inductive Returned (α : Type) where
  | value (a : α)
  | missing

mutual
/-- The `struct Node` as it is in memory: the elements of the vector `children`,
of which `size()` is the number; the nodes that assignments `children[i] = ...`
wrote behind the elements, to the storage that `reserve` set aside;
`through_planes`; and `tree_or_info`. -/
inductive AsWritten.Node where
  | mk (children : List AsWritten.Node) (storage : List AsWritten.Node)
      (through_planes : List Nat) (tree_or_info : AsWritten.Pointer)
/-- The pointer `tree_or_info`: null, the address of an `Info` object that is
alive, the address of an `Info` object whose lifetime has ended, with what it
held then, or the address of a `Node`. -/
inductive AsWritten.Pointer where
  | null
  | info (i : Info)
  | dead (i : Info)
  | node (t : AsWritten.Node)
end

/-- The elements of the vector `children`. -/
def AsWritten.Node.children : AsWritten.Node → List AsWritten.Node
  | .mk cs _ _ _ => cs

/-- The nodes written to the reserved storage of the vector `children`. -/
def AsWritten.Node.storage : AsWritten.Node → List AsWritten.Node
  | .mk _ st _ _ => st

/-- The `through_planes` of a node. -/
def AsWritten.Node.through_planes : AsWritten.Node → List Nat
  | .mk _ _ t _ => t

/-- The `tree_or_info` of a node. -/
def AsWritten.Node.tree_or_info : AsWritten.Node → AsWritten.Pointer
  | .mk _ _ _ p => p

/-- The members `m`, `c`, `n_child`, `root`, `planes` and `space` of the class. -/
structure AsWritten.Tree (G Box : Type) where
  m : Nat
  c : Int
  n_child : Nat
  root : AsWritten.Node
  planes : List (HyperPlane G)
  space : Box

/-- The arguments `node`, `space`, `through` and `level` of one call of
`QueryRecursive`. -/
structure AsWritten.QCall (Box : Type) where
  node : AsWritten.Node
  space : Box
  through : List Nat
  level : Nat

/-- A call of `QueryRecursive`: the calls of `QueryRecursive` that it leads to,
in the order in which they are made, and what it hands to its caller. -/
structure AsWritten.Run (Box : Type) where
  calls : List (AsWritten.QCall Box)
  returned : Returned Double

section AsWrittenDefs

variable {G Box Point : Type} [Inhabited G]

/-- All results of the children, when every call returned. -/
def AsWritten.collect : List (Option AsWritten.Node) → Option (List AsWritten.Node)
  | [] => some []
  | none :: _ => none
  | some x :: rest => (AsWritten.collect rest).map (fun xs => x :: xs)

/-- The function `BuildRecursive` (lines 44-84); `root_space` is `this->space`.
Line 65 stores the address of the local `info`, whose lifetime ends with the
block; line 70 reserves storage and leaves the vector `children` without
elements, and line 79 writes the nodes of the children to that storage. -/
def AsWritten.BuildRecursive (g : ObjectHpp G Box Point) (planes : List (HyperPlane G))
    (m : Nat) (c : Int) (n_child : Nat) (root_space : Box) :
    Nat → Box → List Nat → List Nat → Nat → Nat → Option AsWritten.Node
  | 0, _, _, _, _, _ => none
  | fuel + 1, space, above, through, depth, level =>
    if through.length ≤ threshold c then
      if level = 0 then
        some (AsWritten.Node.mk [] [] through (AsWritten.Pointer.dead (foldInfo planes m above)))
      else
        match AsWritten.BuildRecursive g planes m c n_child root_space fuel root_space [] above 1
            (level - 1) with
        | some t => some (AsWritten.Node.mk [] [] through (AsWritten.Pointer.node t))
        | none => none
    else
      match AsWritten.collect ((List.range n_child).map (fun i =>
          AsWritten.BuildRecursive g planes m c n_child root_space fuel (g.GetSubSpace space i)
            (above ++ subAbove g planes (g.GetSubSpace space i) through)
            (subThrough g planes (g.GetSubSpace space i) through) (depth + 1) level)) with
      | some cs => some (AsWritten.Node.mk [] cs [] AsWritten.Pointer.null)
      | none => none

/-- The constructor `QuadTree(m, planes, space)` followed by `Build` (lines
130-157); `c` is the value the member `c` holds, which the class never sets. -/
def AsWritten.Build (g : ObjectHpp G Box Point) (m : Nat) (c : Int) (fuel : Nat)
    (planes : List (HyperPlane G)) (space : Box) : Option (AsWritten.Tree G Box) :=
  match AsWritten.BuildRecursive g planes m c (2 ^ g.Dim) space fuel space
      (rootAbove g planes space) (rootThrough g planes space) 1 (topLevel g.Dim) with
  | some root =>
    some { m := m, c := c, n_child := 2 ^ g.Dim, root := root, planes := planes, space := space }
  | none => none

mutual
/-- The function `QueryRecursive` (lines 92-125); `root_space` is `this->space`.
The test of line 94 is on the elements of the vector `children`.  The branch of
line 123 makes its call and ends without a `return` statement. -/
def AsWritten.QueryRecursive (g : ObjectHpp G Box Point) (planes : List (HyperPlane G))
    (root_space : Box) (points : Nat → Point) (R : Box) (plane : HyperPlane G) :
    AsWritten.Node → Box → List Nat → Nat → AsWritten.Run Box
  | .mk [] storage through_planes ptr, space, through, level =>
    { calls := ⟨.mk [] storage through_planes ptr, space, through, level⟩ ::
        (AsWritten.queryLeaf g planes root_space points R plane ptr through_planes through
          level).calls
      returned := (AsWritten.queryLeaf g planes root_space points R plane ptr through_planes
        through level).returned }
  | .mk (ch :: cs) storage through_planes ptr, space, through, level =>
    { calls := ⟨.mk (ch :: cs) storage through_planes ptr, space, through, level⟩ ::
        (AsWritten.queryChild g planes root_space points R plane (ch :: cs)
          (g.PointLocation space (points level)).1 (g.PointLocation space (points level)).2
          through level).calls
      returned := Returned.missing }
/-- The leaf branch of `QueryRecursive` (lines 95-119).  At level 0 lines 96-115
read `tree_or_info` as an `Info` and return; the value is defined when the
pointer is the address of an `Info` that is alive.  Above level 0 line 118
makes its call, when `tree_or_info` is the address of a node, and the body ends
without a `return` statement. -/
def AsWritten.queryLeaf (g : ObjectHpp G Box Point) (planes : List (HyperPlane G))
    (root_space : Box) (points : Nat → Point) (R : Box) (plane : HyperPlane G) :
    AsWritten.Pointer → List Nat → List Nat → Nat → AsWritten.Run Box
  | .info info, _, through, 0 =>
    { calls := [], returned := Returned.value (evalInfo g planes info through R plane) }
  | _, _, _, 0 => { calls := [], returned := Returned.value none }
  | .node t, through_planes, through, level + 1 =>
    { calls := (AsWritten.QueryRecursive g planes root_space points R plane t root_space
        (through ++ through_planes) level).calls
      returned := Returned.missing }
  | _, _, _, _ + 1 => { calls := [], returned := Returned.missing }
/-- The call `QueryRecursive(node->children[k], subspace, ...)` (line 123). -/
def AsWritten.queryChild (g : ObjectHpp G Box Point) (planes : List (HyperPlane G))
    (root_space : Box) (points : Nat → Point) (R : Box) (plane : HyperPlane G) :
    List AsWritten.Node → Nat → Box → List Nat → Nat → AsWritten.Run Box
  | [], _, _, _, _ => { calls := [], returned := Returned.missing }
  | ch :: _, 0, subspace, through, level =>
    AsWritten.QueryRecursive g planes root_space points R plane ch subspace through level
  | _ :: cs, k + 1, subspace, through, level =>
    AsWritten.queryChild g planes root_space points R plane cs k subspace through level
end

/-- The call of line 166 for the boundary `p`. -/
def AsWritten.queryPlane (g : ObjectHpp G Box Point) (t : AsWritten.Tree G Box) (R : Box)
    (p : HyperPlane G) : AsWritten.Run Box :=
  AsWritten.QueryRecursive g t.planes t.space (g.GetQueryPoints p R) R p t.root t.space []
    (topLevel g.Dim)

/-- The `double` that the assignment of line 166 stores: the value returned, and
no defined number when the call returned none. -/
def AsWritten.assigned : Returned Double → Double
  | .value v => v
  | .missing => none

/-- The local map `results` of `CalProb` after the loop of lines 161-167. -/
def AsWritten.results (g : ObjectHpp G Box Point) (t : AsWritten.Tree G Box) (R : Box) :
    List (Int × Double) :=
  t.planes.foldl (fun results p =>
    mapSet p.ins_id (AsWritten.assigned (AsWritten.queryPlane g t R p).returned) results) []

/-- The function `CalProb` (lines 159-168): the loop fills the local map
`results`, and the body ends at line 168 without a `return` statement. -/
def AsWritten.CalProb (g : ObjectHpp G Box Point) (t : AsWritten.Tree G Box) (R : Box) :
    Returned (List (Int × Double)) :=
  (fun (_ : List (Int × Double)) => Returned.missing) (AsWritten.results g t R)

end AsWrittenDefs

/-- The tree that `AsWritten.Build` makes from `planesTwoInstances` with `Dim = 2`,
`m = 2` and `c = 1`: a root leaf with boundary 2 in `through`, whose nested tree
is a node without elements in `children`, with four level 0 leaves in the
reserved storage and a null `tree_or_info`. -/
def treeTwoInstancesAsWritten : AsWritten.Tree Nat (List Nat) where
  m := 2
  c := 1
  n_child := 4
  root := AsWritten.Node.mk [] [] [2] (AsWritten.Pointer.node (AsWritten.Node.mk []
    [AsWritten.Node.mk [] [] [] (AsWritten.Pointer.dead (foldInfo planesTwoInstances 2 [0, 1])),
     AsWritten.Node.mk [] [] [] (AsWritten.Pointer.dead (foldInfo planesTwoInstances 2 [0, 1])),
     AsWritten.Node.mk [] [] [] (AsWritten.Pointer.dead (foldInfo planesTwoInstances 2 [0, 1])),
     AsWritten.Node.mk [] [] [] (AsWritten.Pointer.dead (foldInfo planesTwoInstances 2 [0, 1]))]
    [] AsWritten.Pointer.null))
  planes := planesTwoInstances
  space := []

/-! ## The Leaf Summary recurrence -/

section Fold

variable {G : Type} [Inhabited G]

theorem sigmaAt_set (s : List Int) (o j : Nat) (v : Int) :
    sigmaAt (s.set o v) j = if o = j ∧ o < s.length then v else sigmaAt s j := by
  unfold sigmaAt
  rw [List.getD_eq_getElem?_getD, List.getD_eq_getElem?_getD, List.getElem?_set]
  by_cases h : o = j
  · subst h
    by_cases h2 : o < s.length
    · simp [h2]
    · simp [h2, List.getElem?_eq_none (Nat.le_of_not_lt h2)]
  · simp [h]

theorem foldStep_sigma (planes : List (HyperPlane G)) (info : Info) (p : Nat) :
    (foldStep planes info p).sigma =
      info.sigma.set (planeAt planes p).obj_id
        (sigmaAt info.sigma (planeAt planes p).obj_id + 1) := by
  unfold foldStep
  by_cases h : sigmaAt info.sigma (planeAt planes p).obj_id + 1 = (planeAt planes p).prob
  · simp [h]
  · simp [h]

theorem foldStep_sigma_length (planes : List (HyperPlane G)) (info : Info) (p : Nat) :
    (foldStep planes info p).sigma.length = info.sigma.length := by
  rw [foldStep_sigma, List.length_set]

theorem foldl_sigma_length (planes : List (HyperPlane G)) (above : List Nat) (info : Info) :
    (above.foldl (foldStep planes) info).sigma.length = info.sigma.length := by
  induction above generalizing info with
  | nil => rfl
  | cons p rest ih => rw [List.foldl_cons, ih, foldStep_sigma_length]

/-- The number of members of `above` that belong to object `o`. -/
theorem foldl_sigmaAt (planes : List (HyperPlane G)) (above : List Nat) (info : Info)
    (o : Nat) (ho : o < info.sigma.length) :
    sigmaAt (above.foldl (foldStep planes) info).sigma o =
      sigmaAt info.sigma o + (above.countP (fun p => (planeAt planes p).obj_id = o) : Nat) := by
  induction above generalizing info with
  | nil => simp
  | cons p rest ih =>
    rw [List.foldl_cons, ih _ (by rw [foldStep_sigma_length]; exact ho), foldStep_sigma,
      sigmaAt_set, List.countP_cons]
    by_cases h : (planeAt planes p).obj_id = o
    · subst h
      simp [ho]
      ring
    · simp [h]

theorem sigmaAt_of_le (s : List Int) (o : Nat) (h : s.length ≤ o) : sigmaAt s o = 0 := by
  unfold sigmaAt
  rw [List.getD_eq_getElem?_getD, List.getElem?_eq_none h]
  rfl

theorem init_sigma_length (m : Nat) : (Info.init m).sigma.length = m := by
  simp [Info.init]

theorem init_sigmaAt (m o : Nat) : sigmaAt (Info.init m).sigma o = 0 := by
  unfold sigmaAt Info.init
  rw [List.getD_eq_getElem?_getD]
  by_cases h : o < m
  · simp [List.getElem?_replicate, h]
  · simp [List.getElem?_replicate, h]

/-- In `foldInfo`, `sigma[o]` is at most the number of folded members of `o`. -/
theorem foldInfo_sigmaAt_le (planes : List (HyperPlane G)) (m : Nat) (above : List Nat)
    (o : Nat) :
    sigmaAt (foldInfo planes m above).sigma o ≤
      (above.countP (fun p => (planeAt planes p).obj_id = o) : Nat) := by
  by_cases h : o < m
  · unfold foldInfo
    rw [foldl_sigmaAt planes above _ o (by rw [init_sigma_length]; exact h), init_sigmaAt]
    simp
  · rw [sigmaAt_of_le]
    · exact Int.natCast_nonneg _
    · unfold foldInfo
      rw [foldl_sigma_length, init_sigma_length]
      exact Nat.le_of_not_lt h

theorem foldStep_beta_isSome (planes : List (HyperPlane G)) (info : Info) (p : Nat)
    (hb : info.beta.isSome)
    (hd : ((planeAt planes p).prob : ℚ) - (sigmaAt info.sigma (planeAt planes p).obj_id : ℚ) ≠ 0) :
    (foldStep planes info p).beta.isSome := by
  obtain ⟨b, hb⟩ := Option.isSome_iff_exists.mp hb
  unfold foldStep
  by_cases h : sigmaAt info.sigma (planeAt planes p).obj_id + 1 = (planeAt planes p).prob
  · simp [h, hb, dmul]
  · simp [h, hb, dmul, ddiv, hd]

theorem foldl_beta_isSome (planes : List (HyperPlane G)) (rest : List Nat) (info : Info)
    (hb : info.beta.isSome)
    (hd : ∀ pre p post, rest = pre ++ p :: post →
      ((planeAt planes p).prob : ℚ) -
        (sigmaAt (pre.foldl (foldStep planes) info).sigma (planeAt planes p).obj_id : ℚ) ≠ 0) :
    (rest.foldl (foldStep planes) info).beta.isSome := by
  induction rest generalizing info with
  | nil => exact hb
  | cons p rest ih =>
    rw [List.foldl_cons]
    apply ih
    · exact foldStep_beta_isSome planes info p hb (hd [] p rest rfl)
    · intro pre q post hsplit
      have := hd (p :: pre) q post (by rw [hsplit]; rfl)
      simpa using this

theorem foldStep_xi (planes : List (HyperPlane G)) (info : Info) (p : Nat) :
    (foldStep planes info p).xi =
      info.xi + if sigmaAt info.sigma (planeAt planes p).obj_id + 1 = (planeAt planes p).prob
        then 1 else 0 := by
  unfold foldStep
  by_cases h : sigmaAt info.sigma (planeAt planes p).obj_id + 1 = (planeAt planes p).prob
  · simp [h]
  · simp [h]

theorem saturated_cons (planes : List (HyperPlane G)) (info : Info) (p : Nat) (rest : List Nat) :
    saturated planes info (p :: rest) =
      if sigmaAt info.sigma (planeAt planes p).obj_id + 1 = (planeAt planes p).prob then
        (planeAt planes p).obj_id :: saturated planes (foldStep planes info p) rest
      else saturated planes (foldStep planes info p) rest := rfl

theorem foldl_xi (planes : List (HyperPlane G)) (rest : List Nat) (info : Info) :
    (rest.foldl (foldStep planes) info).xi = info.xi + (saturated planes info rest).length := by
  induction rest generalizing info with
  | nil => simp [saturated]
  | cons p rest ih =>
    rw [List.foldl_cons, ih, foldStep_xi, saturated_cons]
    by_cases h : sigmaAt info.sigma (planeAt planes p).obj_id + 1 = (planeAt planes p).prob
    · simp [h]
      ring
    · simp [h]

theorem foldStep_sigmaAt_mono (planes : List (HyperPlane G)) (info : Info) (p o : Nat) :
    sigmaAt info.sigma o ≤ sigmaAt (foldStep planes info p).sigma o := by
  rw [foldStep_sigma, sigmaAt_set]
  by_cases h : (planeAt planes p).obj_id = o ∧ (planeAt planes p).obj_id < info.sigma.length
  · rw [if_pos h, h.1]
    omega
  · rw [if_neg h]

/-- An object whose count has reached its weight does not saturate again. -/
theorem not_mem_saturated (planes : List (HyperPlane G)) (rest : List Nat) (info : Info)
    (o : Nat) (w : Int) (hw : w ≤ sigmaAt info.sigma o)
    (hc : ∀ p ∈ rest, (planeAt planes p).obj_id = o → (planeAt planes p).prob = w) :
    o ∉ saturated planes info rest := by
  induction rest generalizing info with
  | nil => simp [saturated]
  | cons p rest ih =>
    have hrest : o ∉ saturated planes (foldStep planes info p) rest :=
      ih _ (le_trans hw (foldStep_sigmaAt_mono planes info p o))
        (fun q hq => hc q (List.mem_cons_of_mem _ hq))
    rw [saturated_cons]
    by_cases h : sigmaAt info.sigma (planeAt planes p).obj_id + 1 = (planeAt planes p).prob
    · simp only [h, if_true, List.mem_cons, not_or]
      refine ⟨?_, hrest⟩
      intro ho
      have := hc p (List.mem_cons_self _ _) ho.symm
      rw [← ho] at h
      omega
    · simpa [h] using hrest

theorem saturated_nodup (planes : List (HyperPlane G)) (rest : List Nat) (info : Info)
    (hm : ∀ p ∈ rest, (planeAt planes p).obj_id < info.sigma.length)
    (hc : ∀ p ∈ rest, ∀ q ∈ rest, (planeAt planes p).obj_id = (planeAt planes q).obj_id →
      (planeAt planes p).prob = (planeAt planes q).prob) :
    (saturated planes info rest).Nodup := by
  induction rest generalizing info with
  | nil => simp [saturated]
  | cons p rest ih =>
    have hrest : (saturated planes (foldStep planes info p) rest).Nodup :=
      ih _ (fun q hq => by
          rw [foldStep_sigma_length]
          exact hm q (List.mem_cons_of_mem _ hq))
        (fun a ha b hb => hc a (List.mem_cons_of_mem _ ha) b (List.mem_cons_of_mem _ hb))
    rw [saturated_cons]
    by_cases h : sigmaAt info.sigma (planeAt planes p).obj_id + 1 = (planeAt planes p).prob
    · simp only [h, if_true, List.nodup_cons]
      refine ⟨?_, hrest⟩
      apply not_mem_saturated planes rest _ _ (planeAt planes p).prob
      · rw [foldStep_sigma, sigmaAt_set, if_pos ⟨rfl, hm p (List.mem_cons_self _ _)⟩, h]
      · intro q hq hqo
        exact hc q (List.mem_cons_of_mem _ hq) p (List.mem_cons_self _ _) hqo
    · simpa [h] using hrest

/-- An object whose count passes from below `w` to at least `w`, all its folded
boundaries having weight `w`, takes the branch `sigma[obj_id] + 1 == prob`. -/
theorem mem_saturated_of_reach (planes : List (HyperPlane G)) (rest : List Nat) (info : Info)
    (o : Nat) (w : Int) (ho : o < info.sigma.length) (hlow : sigmaAt info.sigma o < w)
    (hhigh : w ≤ sigmaAt (rest.foldl (foldStep planes) info).sigma o)
    (hc : ∀ q ∈ rest, (planeAt planes q).obj_id = o → (planeAt planes q).prob = w) :
    o ∈ saturated planes info rest := by
  induction rest generalizing info with
  | nil =>
    simp only [List.foldl_nil] at hhigh
    omega
  | cons q rest ih =>
    rw [List.foldl_cons] at hhigh
    rw [saturated_cons]
    have hlen : o < (foldStep planes info q).sigma.length := by
      rw [foldStep_sigma_length]; exact ho
    have hc' : ∀ r ∈ rest, (planeAt planes r).obj_id = o → (planeAt planes r).prob = w :=
      fun r hr => hc r (List.mem_cons_of_mem _ hr)
    have hstep : sigmaAt (foldStep planes info q).sigma o =
        sigmaAt info.sigma o + if (planeAt planes q).obj_id = o then 1 else 0 := by
      rw [foldStep_sigma, sigmaAt_set]
      by_cases h : (planeAt planes q).obj_id = o
      · subst h
        simp [ho]
      · simp [h]
    by_cases hq : (planeAt planes q).obj_id = o
    · have hw := hc q (List.mem_cons_self _ _) hq
      rw [if_pos hq] at hstep
      by_cases hsat : sigmaAt info.sigma (planeAt planes q).obj_id + 1 = (planeAt planes q).prob
      · rw [if_pos hsat]
        exact List.mem_cons.mpr (Or.inl hq.symm)
      · have hlow' : sigmaAt (foldStep planes info q).sigma o < w := by
          rw [hq, hw] at hsat
          omega
        have := ih _ hlen hlow' hhigh hc'
        by_cases hs2 : sigmaAt info.sigma (planeAt planes q).obj_id + 1 = (planeAt planes q).prob
        · exact absurd hs2 hsat
        · rw [if_neg hs2]; exact this
    · rw [if_neg hq] at hstep
      have hlow' : sigmaAt (foldStep planes info q).sigma o < w := by omega
      have := ih _ hlen hlow' hhigh hc'
      by_cases hs2 : sigmaAt info.sigma (planeAt planes q).obj_id + 1 = (planeAt planes q).prob
      · rw [if_pos hs2]; exact List.mem_cons_of_mem _ this
      · rw [if_neg hs2]; exact this

end Fold

/-! ## The order of iteration over `n_obj` -/

theorem dmul_right_comm (a b c : Double) : dmul (dmul a b) c = dmul (dmul a c) b := by
  cases a <;> cases b <;> cases c <;> simp [dmul, mul_right_comm]

/-- The result of lines 108-115 does not depend on the order in which the
entries of `n_obj` are visited. -/
theorem tallyLoop_perm {G : Type} (info : Info) (prob_obj : List (Int × ℚ))
    (plane : HyperPlane G) (l₁ l₂ : List (Nat × Int)) (h : l₁.Perm l₂) (beta : Double) :
    tallyLoop info prob_obj plane l₁ beta = tallyLoop info prob_obj plane l₂ beta := by
  induction h generalizing beta with
  | nil => rfl
  | cons x _ ih =>
    obtain ⟨o, n⟩ := x
    simp only [tallyLoop]
    split
    · rfl
    · exact ih _
  | swap x y l =>
    obtain ⟨o, n⟩ := x
    obtain ⟨o', n'⟩ := y
    simp only [tallyLoop]
    by_cases h1 : ((sigmaAt info.sigma o + n : Int) : ℚ) = probObjAt prob_obj o <;>
      by_cases h2 : ((sigmaAt info.sigma o' + n' : Int) : ℚ) = probObjAt prob_obj o' <;>
      simp only [h1, h2, if_true, if_false]
    rw [dmul_right_comm]
  | trans _ _ ih1 ih2 => exact (ih1 beta).trans (ih2 beta)

/-! ## Termination of BuildRecursive -/

theorem boxAt_append {G Box Point : Type} (g : ObjectHpp G Box Point) (space : Box)
    (path : List Nat) (i : Nat) :
    boxAt g space (path ++ [i]) = g.GetSubSpace (boxAt g space path) i := by
  simp [boxAt, List.foldl_append]

section Termination

variable {G Box Point : Type} [Inhabited G]

theorem collect_none_of_mem (l : List (Option Node)) (h : none ∈ l) : collect l = none := by
  induction l with
  | nil => cases h
  | cons x rest ih =>
    cases x with
    | none => rfl
    | some y =>
      have hr : none ∈ rest := by
        rcases List.mem_cons.mp h with h | h
        · cases h
        · exact h
      simp [collect, ih hr]

theorem collect_isSome (l : List (Option Node)) (h : ∀ x ∈ l, x.isSome) :
    (collect l).isSome := by
  induction l with
  | nil => rfl
  | cons x rest ih =>
    cases x with
    | none =>
      have := h none (List.mem_cons_self _ _)
      cases this
    | some y =>
      have hr := ih (fun z hz => h z (List.mem_cons_of_mem _ hz))
      obtain ⟨ys, hys⟩ := Option.isSome_iff_exists.mp hr
      simp [collect, hys]

theorem BuildRecursive_zero (g : ObjectHpp G Box Point) (planes : List (HyperPlane G))
    (m : Nat) (c : Int) (n_child : Nat) (root_space space : Box) (above through : List Nat)
    (depth level : Nat) :
    BuildRecursive g planes m c n_child root_space 0 space above through depth level = none :=
  rfl

theorem BuildRecursive_succ (g : ObjectHpp G Box Point) (planes : List (HyperPlane G))
    (m : Nat) (c : Int) (n_child : Nat) (root_space space : Box) (fuel : Nat)
    (above through : List Nat) (depth level : Nat) :
    BuildRecursive g planes m c n_child root_space (fuel + 1) space above through depth level =
      if through.length ≤ threshold c then
        if level = 0 then
          some (Node.mk [] through (Payload.info (foldInfo planes m above)))
        else
          match BuildRecursive g planes m c n_child root_space fuel root_space [] above 1
              (level - 1) with
          | some t => some (Node.mk [] through (Payload.tree t))
          | none => none
      else
        match collect ((List.range n_child).map (fun i =>
            BuildRecursive g planes m c n_child root_space fuel (g.GetSubSpace space i)
              (above ++ subAbove g planes (g.GetSubSpace space i) through)
              (subThrough g planes (g.GetSubSpace space i) through) (depth + 1) level)) with
        | some cs => some (Node.mk cs [] Payload.null)
        | none => none :=
  rfl

/-- When more than `c` candidates cross a chain of sub-boxes, one below the
other without end, `BuildRecursive` returns with no amount of fuel. -/
theorem BuildRecursive_none_of_crossing (g : ObjectHpp G Box Point)
    (planes : List (HyperPlane G)) (m : Nat) (c : Int) (n_child : Nat) (root_space : Box)
    (S : Box → Prop) (through : List Nat) (hT : threshold c < through.length)
    (hS : ∀ b, S b → ∃ i, i < n_child ∧ S (g.GetSubSpace b i) ∧
      ∀ p ∈ through, crosses g planes (g.GetSubSpace b i) p = true)
    (fuel : Nat) (b : Box) (hb : S b) (above : List Nat) (depth level : Nat) :
    BuildRecursive g planes m c n_child root_space fuel b above through depth level = none := by
  induction fuel generalizing b above depth with
  | zero => rfl
  | succ fuel ih =>
    rw [BuildRecursive_succ, if_neg (Nat.not_le.mpr hT)]
    obtain ⟨i, hi, hSi, hcross⟩ := hS b hb
    have hsub : subThrough g planes (g.GetSubSpace b i) through = through :=
      List.filter_eq_self.mpr hcross
    rw [collect_none_of_mem]
    apply List.mem_map.mpr
    refine ⟨i, List.mem_range.mpr hi, ?_⟩
    rw [hsub]
    exact ih (g.GetSubSpace b i) hSi _ _

theorem length_le_crossing (g : ObjectHpp G Box Point) (planes : List (HyperPlane G)) (b : Box)
    (l : List Nat) (hnd : l.Nodup) (hlt : ∀ i ∈ l, i < planes.length)
    (hc : ∀ i ∈ l, crosses g planes b i = true) :
    l.length ≤ (crossing g planes b).length := by
  apply List.Subperm.length_le
  apply List.subperm_of_subset hnd
  intro i hi
  exact List.mem_filter.mpr ⟨List.mem_range.mpr (hlt i hi), hc i hi⟩

/-- The function `BuildRecursive` returns when the boxes `D` subdivisions below the space are
crossed by at most `c` boundaries each: a tree of level `level` started at a
box `path.length` subdivisions down needs fuel
`level * (D + 1) + (D - path.length) + 1`. -/
theorem BuildRecursive_isSome (g : ObjectHpp G Box Point) (planes : List (HyperPlane G))
    (m : Nat) (c : Int) (n_child : Nat) (root_space : Box) (D : Nat) (hD : 0 < D)
    (hshrink : ∀ path : List Nat, path.length = D → (∀ i ∈ path, i < n_child) →
      (crossing g planes (boxAt g root_space path)).length ≤ threshold c)
    (fuel : Nat) (level : Nat) (path : List Nat) (above through : List Nat) (depth : Nat)
    (hlen : path.length ≤ D) (hpath : ∀ i ∈ path, i < n_child)
    (hnt : through.Nodup) (hna : above.Nodup) (hdisj : above.Disjoint through)
    (hlt : ∀ i ∈ through, i < planes.length) (hla : ∀ i ∈ above, i < planes.length)
    (hcross : path ≠ [] → ∀ i ∈ through, crosses g planes (boxAt g root_space path) i = true)
    (hfuel : level * (D + 1) + (D - path.length) + 1 ≤ fuel) :
    (BuildRecursive g planes m c n_child root_space fuel (boxAt g root_space path) above through
      depth level).isSome := by
  induction fuel generalizing level path above through depth with
  | zero => omega
  | succ fuel ih =>
    rw [BuildRecursive_succ]
    by_cases hleaf : through.length ≤ threshold c
    · rw [if_pos hleaf]
      by_cases hl : level = 0
      · rw [if_pos hl]
        rfl
      · rw [if_neg hl]
        have hrec := ih (level - 1) [] [] above 1 (Nat.zero_le _) (by simp) hna
          List.nodup_nil (List.disjoint_nil_left _) hla (by simp) (by simp) (by
            have hmul : (level - 1) * (D + 1) + (D + 1) = level * (D + 1) := by
              rw [← Nat.succ_mul]
              congr 1
              omega
            simp only [List.length_nil, Nat.sub_zero]
            omega)
        obtain ⟨t, ht⟩ := Option.isSome_iff_exists.mp hrec
        simp only [boxAt, List.foldl_nil] at ht
        rw [ht]
        rfl
    · rw [if_neg hleaf]
      have hlt' : path.length < D := by
        rcases Nat.lt_or_ge path.length D with h | h
        · exact h
        · exfalso
          have heq : path.length = D := Nat.le_antisymm hlen h
          have hne : path ≠ [] := by
            intro h0
            rw [h0] at heq
            simp at heq
            omega
          have h1 := length_le_crossing g planes _ through hnt hlt (hcross hne)
          have h2 := hshrink path heq hpath
          exact hleaf (le_trans h1 h2)
      have hall : ∀ x ∈ (List.range n_child).map (fun i =>
          BuildRecursive g planes m c n_child root_space fuel
            (g.GetSubSpace (boxAt g root_space path) i)
            (above ++ subAbove g planes (g.GetSubSpace (boxAt g root_space path) i) through)
            (subThrough g planes (g.GetSubSpace (boxAt g root_space path) i) through)
            (depth + 1) level), x.isSome := by
        intro x hx
        obtain ⟨i, hi, rfl⟩ := List.mem_map.mp hx
        have hi' : i < n_child := List.mem_range.mp hi
        rw [← boxAt_append]
        apply ih level (path ++ [i])
        · simp; omega
        · intro j hj
          rcases List.mem_append.mp hj with hj | hj
          · exact hpath j hj
          · simp at hj
            omega
        · exact hnt.filter _
        · rw [List.nodup_append]
          refine ⟨hna, hnt.filter _, ?_⟩
          intro x hxa hxs
          exact hdisj hxa (List.mem_filter.mp hxs).1
        · intro x hxa hxs
          have hxt := List.mem_filter.mp hxs
          rcases List.mem_append.mp hxa with hxa | hxa
          · exact hdisj hxa hxt.1
          · have hxa' := (List.mem_filter.mp hxa).2
            have hxs' := hxt.2
            simp [hxa'] at hxs'
        · intro x hx
          exact hlt x (List.mem_filter.mp hx).1
        · intro x hx
          rcases List.mem_append.mp hx with hx | hx
          · exact hla x hx
          · exact hlt x (List.mem_filter.mp hx).1
        · intro _ x hx
          have := (List.mem_filter.mp hx).2
          simpa [crosses] using this
        · simp only [List.length_append, List.length_singleton]
          omega
      obtain ⟨cs, hcs⟩ := Option.isSome_iff_exists.mp (collect_isSome _ hall)
      rw [hcs]
      rfl

theorem rootThrough_nodup (g : ObjectHpp G Box Point) (planes : List (HyperPlane G))
    (space : Box) : (rootThrough g planes space).Nodup :=
  (List.nodup_range _).filter _

theorem rootAbove_nodup (g : ObjectHpp G Box Point) (planes : List (HyperPlane G))
    (space : Box) : (rootAbove g planes space).Nodup :=
  (List.nodup_range _).filter _

theorem rootAbove_disjoint (g : ObjectHpp G Box Point) (planes : List (HyperPlane G))
    (space : Box) : (rootAbove g planes space).Disjoint (rootThrough g planes space) := by
  intro x hxa hxt
  have h1 := (List.mem_filter.mp hxa).2
  have h2 := (List.mem_filter.mp hxt).2
  simp [h1] at h2

theorem rootThrough_lt (g : ObjectHpp G Box Point) (planes : List (HyperPlane G))
    (space : Box) : ∀ i ∈ rootThrough g planes space, i < planes.length :=
  fun _ hi => List.mem_range.mp (List.mem_filter.mp hi).1

theorem rootAbove_lt (g : ObjectHpp G Box Point) (planes : List (HyperPlane G))
    (space : Box) : ∀ i ∈ rootAbove g planes space, i < planes.length :=
  fun _ hi => List.mem_range.mp (List.mem_filter.mp hi).1

theorem collect_isSome_iff (l : List (Option Node)) :
    (collect l).isSome = true ↔ ∀ x ∈ l, x.isSome = true := by
  constructor
  · intro h x hx
    cases x with
    | none => rw [collect_none_of_mem l hx] at h; cases h
    | some y => rfl
  · exact collect_isSome l

theorem planeAt_setWeights (w : HyperPlane G → Int) (planes : List (HyperPlane G)) (i : Nat) :
    planeAt (setWeights w planes) i =
      if i < planes.length then { planeAt planes i with prob := w (planeAt planes i) }
      else default := by
  unfold planeAt setWeights
  rw [List.getD_eq_getElem?_getD, List.getD_eq_getElem?_getD, List.getElem?_map]
  by_cases h : i < planes.length
  · simp [h, List.getElem?_eq_getElem h]
  · simp [h, List.getElem?_eq_none (Nat.le_of_not_lt h)]

theorem planeAt_of_le (planes : List (HyperPlane G)) (i : Nat) (h : planes.length ≤ i) :
    planeAt planes i = default := by
  unfold planeAt
  rw [List.getD_eq_getElem?_getD, List.getElem?_eq_none h]
  rfl

theorem pred_setWeights (f : HyperPlane G → Box → Bool)
    (hf : ∀ (p : HyperPlane G) (x : Int) (b : Box), f { p with prob := x } b = f p b)
    (w : HyperPlane G → Int) (planes : List (HyperPlane G)) (i : Nat) (b : Box) :
    f (planeAt (setWeights w planes) i) b = f (planeAt planes i) b := by
  rw [planeAt_setWeights]
  by_cases h : i < planes.length
  · rw [if_pos h, hf]
  · rw [if_neg h, planeAt_of_le planes i (Nat.le_of_not_lt h)]

/-- Whether `BuildRecursive` returns does not depend on the weights. -/
theorem BuildRecursive_isSome_setWeights (g : ObjectHpp G Box Point)
    (hA : ∀ (p : HyperPlane G) (x : Int) (b : Box), g.Above { p with prob := x } b = g.Above p b)
    (hI : ∀ (p : HyperPlane G) (x : Int) (b : Box),
      g.Intersect { p with prob := x } b = g.Intersect p b)
    (w : HyperPlane G → Int) (planes : List (HyperPlane G)) (m : Nat) (c : Int) (n_child : Nat)
    (root_space : Box) (fuel : Nat) (space : Box) (above through : List Nat)
    (depth level : Nat) :
    (BuildRecursive g (setWeights w planes) m c n_child root_space fuel space above through
      depth level).isSome =
    (BuildRecursive g planes m c n_child root_space fuel space above through depth level).isSome
    := by
  induction fuel generalizing space above through depth level with
  | zero => rfl
  | succ fuel ih =>
    have hsa : ∀ b, subAbove g (setWeights w planes) b through = subAbove g planes b through := by
      intro b
      unfold subAbove
      congr 1
      funext p
      exact pred_setWeights g.Above hA w planes p b
    have hst : ∀ b, subThrough g (setWeights w planes) b through =
        subThrough g planes b through := by
      intro b
      unfold subThrough
      congr 1
      funext p
      rw [pred_setWeights g.Above hA w planes p b, pred_setWeights g.Intersect hI w planes p b]
    rw [BuildRecursive_succ, BuildRecursive_succ]
    by_cases hleaf : through.length ≤ threshold c
    · rw [if_pos hleaf, if_pos hleaf]
      by_cases hl : level = 0
      · rw [if_pos hl, if_pos hl]
        rfl
      · rw [if_neg hl, if_neg hl]
        have := ih root_space [] above 1 (level - 1)
        revert this
        cases BuildRecursive g (setWeights w planes) m c n_child root_space fuel root_space []
            above 1 (level - 1) <;>
          cases BuildRecursive g planes m c n_child root_space fuel root_space [] above 1
            (level - 1) <;> simp
    · rw [if_neg hleaf, if_neg hleaf]
      have hcol : (collect ((List.range n_child).map (fun i =>
          BuildRecursive g (setWeights w planes) m c n_child root_space fuel
            (g.GetSubSpace space i)
            (above ++ subAbove g (setWeights w planes) (g.GetSubSpace space i) through)
            (subThrough g (setWeights w planes) (g.GetSubSpace space i) through)
            (depth + 1) level))).isSome =
          (collect ((List.range n_child).map (fun i =>
          BuildRecursive g planes m c n_child root_space fuel (g.GetSubSpace space i)
            (above ++ subAbove g planes (g.GetSubSpace space i) through)
            (subThrough g planes (g.GetSubSpace space i) through) (depth + 1) level))).isSome := by
        rw [Bool.eq_iff_iff, collect_isSome_iff, collect_isSome_iff]
        simp only [List.mem_map, forall_exists_index, and_imp, forall_apply_eq_imp_iff₂, hsa, hst,
          ih]
      revert hcol
      generalize collect ((List.range n_child).map (fun i =>
          BuildRecursive g (setWeights w planes) m c n_child root_space fuel
            (g.GetSubSpace space i)
            (above ++ subAbove g (setWeights w planes) (g.GetSubSpace space i) through)
            (subThrough g (setWeights w planes) (g.GetSubSpace space i) through)
            (depth + 1) level)) = r1
      generalize collect ((List.range n_child).map (fun i =>
          BuildRecursive g planes m c n_child root_space fuel (g.GetSubSpace space i)
            (above ++ subAbove g planes (g.GetSubSpace space i) through)
            (subThrough g planes (g.GetSubSpace space i) through) (depth + 1) level)) = r2
      cases r1 <;> cases r2 <;> simp

end Termination

/-! ## The result map -/

section ResultMap

theorem mapSet_keys (k : Int) (v : Double) (l : List (Int × Double)) (k' : Int) :
    k' ∈ (mapSet k v l).map Prod.fst ↔ k' = k ∨ k' ∈ l.map Prod.fst := by
  induction l with
  | nil => simp [mapSet]
  | cons e rest ih =>
    obtain ⟨a, b⟩ := e
    unfold mapSet
    by_cases h1 : k < a
    · simp [h1]
    · by_cases h2 : k = a
      · subst h2
        simp
      · simp only [h1, h2, if_false, List.map_cons, List.mem_cons, ih]
        tauto

theorem lookup_mapSet_self (k : Int) (v : Double) (l : List (Int × Double)) :
    (mapSet k v l).lookup k = some v := by
  induction l with
  | nil => simp [mapSet, List.lookup]
  | cons e rest ih =>
    obtain ⟨a, b⟩ := e
    unfold mapSet
    by_cases h1 : k < a
    · simp [h1, List.lookup]
    · by_cases h2 : k = a
      · subst h2
        simp [List.lookup]
      · have h3 : (k == a) = false := by simpa using h2
        simp only [h1, h2, if_false, List.lookup, h3, ih]

theorem lookup_mapSet_ne (k k' : Int) (v : Double) (l : List (Int × Double)) (h : k' ≠ k) :
    (mapSet k v l).lookup k' = l.lookup k' := by
  have hk : (k' == k) = false := by simpa using h
  induction l with
  | nil => simp [mapSet, List.lookup, hk]
  | cons e rest ih =>
    obtain ⟨a, b⟩ := e
    unfold mapSet
    by_cases h1 : k < a
    · simp only [h1, if_true]
      rw [List.lookup_cons, hk]
    · by_cases h2 : k = a
      · subst h2
        simp only [lt_self_iff_false, if_false, if_true]
        rw [List.lookup_cons, List.lookup_cons, hk]
      · simp only [h1, h2, if_false]
        rw [List.lookup_cons, List.lookup_cons, ih]

theorem mapSet_sorted (k : Int) (v : Double) (l : List (Int × Double))
    (hs : (l.map Prod.fst).Pairwise (fun a b => a < b)) :
    ((mapSet k v l).map Prod.fst).Pairwise (fun a b => a < b) := by
  induction l with
  | nil => simp [mapSet]
  | cons e rest ih =>
    obtain ⟨a, b⟩ := e
    rw [List.map_cons, List.pairwise_cons] at hs
    unfold mapSet
    by_cases h1 : k < a
    · simp only [h1, if_true, List.map_cons, List.pairwise_cons]
      refine ⟨?_, hs⟩
      intro x hx
      rcases List.mem_cons.mp hx with hx | hx
      · rw [hx]; exact h1
      · exact lt_trans h1 (hs.1 x hx)
    · by_cases h2 : k = a
      · subst h2
        simp only [lt_self_iff_false, if_false, if_true, List.map_cons, List.pairwise_cons]
        exact hs
      · simp only [h1, h2, if_false, List.map_cons, List.pairwise_cons]
        refine ⟨?_, ih hs.2⟩
        intro x hx
        rcases (mapSet_keys k v rest x).mp hx with hx | hx
        · rw [hx]; omega
        · exact hs.1 x hx

variable {G : Type}

theorem foldl_mapSet_keys (f : HyperPlane G → Double) (ps : List (HyperPlane G))
    (acc : List (Int × Double)) (k : Int) :
    k ∈ (ps.foldl (fun results p => mapSet p.ins_id (f p) results) acc).map Prod.fst ↔
      k ∈ acc.map Prod.fst ∨ ∃ p ∈ ps, p.ins_id = k := by
  induction ps generalizing acc with
  | nil => simp
  | cons p rest ih =>
    rw [List.foldl_cons, ih, mapSet_keys]
    constructor
    · rintro ((h | h) | ⟨q, hq, h⟩)
      · exact Or.inr ⟨p, List.mem_cons_self _ _, h.symm⟩
      · exact Or.inl h
      · exact Or.inr ⟨q, List.mem_cons_of_mem _ hq, h⟩
    · rintro (h | ⟨q, hq, h⟩)
      · exact Or.inl (Or.inr h)
      · rcases List.mem_cons.mp hq with hq | hq
        · subst hq
          exact Or.inl (Or.inl h.symm)
        · exact Or.inr ⟨q, hq, h⟩

theorem foldl_mapSet_sorted (f : HyperPlane G → Double) (ps : List (HyperPlane G))
    (acc : List (Int × Double)) (hs : (acc.map Prod.fst).Pairwise (fun a b => a < b)) :
    ((ps.foldl (fun results p => mapSet p.ins_id (f p) results) acc).map Prod.fst).Pairwise
      (fun a b => a < b) := by
  induction ps generalizing acc with
  | nil => exact hs
  | cons p rest ih =>
    rw [List.foldl_cons]
    exact ih _ (mapSet_sorted _ _ _ hs)

theorem foldl_mapSet_lookup_of_not_mem (f : HyperPlane G → Double) (ps : List (HyperPlane G))
    (acc : List (Int × Double)) (k : Int) (h : ∀ q ∈ ps, q.ins_id ≠ k) :
    (ps.foldl (fun results p => mapSet p.ins_id (f p) results) acc).lookup k = acc.lookup k := by
  induction ps generalizing acc with
  | nil => rfl
  | cons p rest ih =>
    rw [List.foldl_cons, ih _ (fun q hq => h q (List.mem_cons_of_mem _ hq)),
      lookup_mapSet_ne _ _ _ _ (fun hk => h p (List.mem_cons_self _ _) hk.symm)]

theorem foldl_mapSet_lookup_last (f : HyperPlane G → Double) (pre post : List (HyperPlane G))
    (p : HyperPlane G) (acc : List (Int × Double)) (h : ∀ q ∈ post, q.ins_id ≠ p.ins_id) :
    ((pre ++ p :: post).foldl (fun results p => mapSet p.ins_id (f p) results) acc).lookup
      p.ins_id = some (f p) := by
  rw [List.foldl_append, List.foldl_cons, foldl_mapSet_lookup_of_not_mem f post _ _ h,
    lookup_mapSet_self]

end ResultMap

/-! ## Claims about the Leaf Summary -/

/-- C5: a level 0 leaf of `BuildRecursive` holds the summary of its `above`
vector, in which `sigma` starts at zero, every iteration, saturating or not,
adds one to the count of the folded boundary's object and to no other, and at
the end `sigma[o]` is the number of members of `above` of object `o`, for every
`o` in `[0, m)`. -/
theorem leaf_counts_eq_occurrences {G Box Point : Type} [Inhabited G]
    (g : ObjectHpp G Box Point) (planes : List (HyperPlane G)) (m : Nat) (c : Int)
    (n_child : Nat) (root_space space : Box) (fuel depth : Nat) (above through : List Nat)
    (hleaf : through.length ≤ threshold c) :
    BuildRecursive g planes m c n_child root_space (fuel + 1) space above through depth 0 =
        some (Node.mk [] through (Payload.info (foldInfo planes m above))) ∧
      (∀ o, o < m → sigmaAt (Info.init m).sigma o = 0) ∧
      (∀ (info : Info) (p o : Nat), o < info.sigma.length →
        sigmaAt (foldStep planes info p).sigma o =
          sigmaAt info.sigma o + if (planeAt planes p).obj_id = o then 1 else 0) ∧
      (∀ o, o < m → sigmaAt (foldInfo planes m above).sigma o =
        ((above.countP (fun p => (planeAt planes p).obj_id = o) : Nat) : Int)) := by
  refine ⟨?_, ?_, ?_, ?_⟩
  · simp [BuildRecursive, hleaf]
  · intro o _
    exact init_sigmaAt m o
  · intro info p o ho
    rw [foldStep_sigma, sigmaAt_set]
    by_cases h : (planeAt planes p).obj_id = o
    · subst h
      simp [ho]
    · simp [h]
  · intro o ho
    unfold foldInfo
    rw [foldl_sigmaAt planes above _ o (by rw [init_sigma_length]; exact ho), init_sigmaAt]
    simp

/-- C5, an instance: the fold of four boundaries of two objects; object 1 is
counted twice, and folding boundary 1 into the empty summary adds one to the
count of object 1. -/
theorem leaf_counts_eq_occurrences_witness :
    ([] : List Nat).length ≤ threshold 1 ∧
      sigmaAt (Info.init 2).sigma 1 = 0 ∧
      sigmaAt (foldStep planesTwoObjects (Info.init 2) 1).sigma 1 =
        sigmaAt (Info.init 2).sigma 1 +
          (if (planeAt planesTwoObjects 1).obj_id = 1 then 1 else 0) ∧
      sigmaAt (foldInfo planesTwoObjects 2 [0, 1, 2, 3]).sigma 1 =
        (([0, 1, 2, 3].countP (fun p => (planeAt planesTwoObjects p).obj_id = 1) : Nat) : Int) :=
  ⟨by decide,
    (leaf_counts_eq_occurrences (pathGeom 1) planesTwoObjects 2 1 2 [] [] 0 1 [0, 1, 2, 3] []
      (by decide)).2.1 1 (by decide),
    (leaf_counts_eq_occurrences (pathGeom 1) planesTwoObjects 2 1 2 [] [] 0 1 [0, 1, 2, 3] []
      (by decide)).2.2.1 (Info.init 2) 1 1 (by decide),
    (leaf_counts_eq_occurrences (pathGeom 1) planesTwoObjects 2 1 2 [] [] 0 1 [0, 1, 2, 3] []
      (by decide)).2.2.2 1 (by decide)⟩

/-- C6 as stated fails: two boundaries of one object, both of weight 1, have
positive weights, the second iteration takes the branch
`sigma[obj_id] + 1 != prob`, and its divisor `prob - sigma[obj_id]` is zero, so
that `beta` is not a finite number. -/
theorem positive_weights_divide_by_zero :
    (∀ p ∈ [0, 1], 0 < (planeAt planesSameWeight p).prob) ∧
      sigmaAt (foldInfo planesSameWeight 1 [0]).sigma (planeAt planesSameWeight 1).obj_id + 1 ≠
        (planeAt planesSameWeight 1).prob ∧
      ((planeAt planesSameWeight 1).prob : ℚ) -
        (sigmaAt (foldInfo planesSameWeight 1 [0]).sigma
          (planeAt planesSameWeight 1).obj_id : ℚ) = 0 ∧
      (foldInfo planesSameWeight 1 [0, 1]).beta = none := by
  refine ⟨?_, ?_, ?_, ?_⟩
  · decide
  · decide
  · simp [foldInfo, foldStep, Info.init, planesSameWeight, planeAt, sigmaAt]
  · simp [foldInfo, foldStep, Info.init, planesSameWeight, planeAt, sigmaAt, dmul, ddiv]

/-- C6, amended: when the weight of every member of `above` is at least the
number of members of `above` of its object, the divisor
`prob - sigma[obj_id]` of every iteration is at least 1, hence not zero, and
`beta` is a finite number at the end. -/
theorem divisor_nonzero_of_weight_ge_count {G : Type} [Inhabited G]
    (planes : List (HyperPlane G)) (m : Nat) (above : List Nat)
    (hw : ∀ p ∈ above,
      ((above.countP (fun q => (planeAt planes q).obj_id = (planeAt planes p).obj_id) : Nat) : Int)
        ≤ (planeAt planes p).prob) :
    (∀ pre p post, above = pre ++ p :: post →
      1 ≤ (planeAt planes p).prob - sigmaAt (foldInfo planes m pre).sigma (planeAt planes p).obj_id ∧
      ((planeAt planes p).prob : ℚ) -
        (sigmaAt (foldInfo planes m pre).sigma (planeAt planes p).obj_id : ℚ) ≠ 0) ∧
      (foldInfo planes m above).beta.isSome := by
  have key : ∀ pre p post, above = pre ++ p :: post →
      1 ≤ (planeAt planes p).prob -
        sigmaAt (foldInfo planes m pre).sigma (planeAt planes p).obj_id := by
    intro pre p post hsplit
    have h1 := foldInfo_sigmaAt_le planes m pre (planeAt planes p).obj_id
    have h2 := hw p (by rw [hsplit]; simp)
    rw [hsplit, List.countP_append, List.countP_cons] at h2
    simp only [decide_True, if_true] at h2
    push_cast at h2
    omega
  have key2 : ∀ pre p post, above = pre ++ p :: post →
      ((planeAt planes p).prob : ℚ) -
        (sigmaAt (foldInfo planes m pre).sigma (planeAt planes p).obj_id : ℚ) ≠ 0 := by
    intro pre p post hsplit
    have h := key pre p post hsplit
    have h' : ((1 : Int) : ℚ) ≤ (((planeAt planes p).prob -
        sigmaAt (foldInfo planes m pre).sigma (planeAt planes p).obj_id : Int) : ℚ) :=
      Int.cast_le.mpr h
    push_cast at h'
    intro h0
    rw [h0] at h'
    norm_num at h'
  refine ⟨fun pre p post hsplit => ⟨key pre p post hsplit, key2 pre p post hsplit⟩, ?_⟩
  exact foldl_beta_isSome planes above (Info.init m) rfl key2

/-- C6, amended, an instance: two objects of weight 2 with two members each. -/
theorem divisor_nonzero_of_weight_ge_count_witness :
    (∀ p ∈ [0, 1, 2, 3],
      (([0, 1, 2, 3].countP (fun q =>
        (planeAt planesTwoObjects q).obj_id = (planeAt planesTwoObjects p).obj_id) : Nat) : Int)
        ≤ (planeAt planesTwoObjects p).prob) ∧
      (foldInfo planesTwoObjects 2 [0, 1, 2, 3]).beta.isSome :=
  ⟨by decide, (divisor_nonzero_of_weight_ge_count planesTwoObjects 2 [0, 1, 2, 3] (by decide)).2⟩

/-- C7 as stated fails: for two boundaries of object 0 with weights 1 and 2 both
iterations take the branch `sigma[obj_id] + 1 == prob`, so `xi` is 2, and one
object id took that branch. -/
theorem xi_counts_steps_not_objects :
    (foldInfo planesTwoWeights 1 [0, 1]).xi = 2 ∧
      saturated planesTwoWeights (Info.init 1) [0, 1] = [0, 0] ∧
      (saturated planesTwoWeights (Info.init 1) [0, 1]).dedup.length = 1 := by
  refine ⟨?_, ?_, ?_⟩
  · decide
  · decide
  · decide

/-- C7, amended: `xi` is the number of iterations that took the branch
`sigma[obj_id] + 1 == prob`; when the object ids are below `m` and the members
of one object have one weight, no object takes that branch twice, and `xi` is
the number of distinct objects that took it. -/
theorem xi_eq_saturating_steps {G : Type} [Inhabited G]
    (planes : List (HyperPlane G)) (m : Nat) (above : List Nat) :
    (foldInfo planes m above).xi = ((saturated planes (Info.init m) above).length : Int) ∧
      ((∀ p ∈ above, (planeAt planes p).obj_id < m) →
        (∀ p ∈ above, ∀ q ∈ above, (planeAt planes p).obj_id = (planeAt planes q).obj_id →
          (planeAt planes p).prob = (planeAt planes q).prob) →
        (saturated planes (Info.init m) above).Nodup ∧
        (foldInfo planes m above).xi =
          ((saturated planes (Info.init m) above).dedup.length : Int)) := by
  have hxi : (foldInfo planes m above).xi =
      ((saturated planes (Info.init m) above).length : Int) := by
    unfold foldInfo
    rw [foldl_xi]
    simp [Info.init]
  refine ⟨hxi, fun hm hc => ?_⟩
  have hnd : (saturated planes (Info.init m) above).Nodup :=
    saturated_nodup planes above (Info.init m)
      (fun p hp => by rw [init_sigma_length]; exact hm p hp) hc
  exact ⟨hnd, by rw [hxi, hnd.dedup]⟩

/-- C7, amended, an instance: two objects of weight 2, both saturating once. -/
theorem xi_eq_saturating_steps_witness :
    (∀ p ∈ [0, 1, 2, 3], (planeAt planesTwoObjects p).obj_id < 2) ∧
      (∀ p ∈ [0, 1, 2, 3], ∀ q ∈ [0, 1, 2, 3],
        (planeAt planesTwoObjects p).obj_id = (planeAt planesTwoObjects q).obj_id →
          (planeAt planesTwoObjects p).prob = (planeAt planesTwoObjects q).prob) ∧
      (foldInfo planesTwoObjects 2 [0, 1, 2, 3]).xi =
        ((saturated planesTwoObjects (Info.init 2) [0, 1, 2, 3]).dedup.length : Int) :=
  ⟨by decide, by decide,
    ((xi_eq_saturating_steps planesTwoObjects 2 [0, 1, 2, 3]).2 (by decide) (by decide)).2⟩

/-! ## Claims about the query -/

/-- C1: on `planesThreeInstances` with `Dim = 2` and `c = 1`, `CalProb` reports
4/3 for instance 0.  The root is a leaf with `through = [2]`, its nested tree
folds `above = [0, 1]` into `beta = 2/3`, `sigma = [1, 1]`, `xi = 1`; boundary 2
is tallied for object 0, `prob_obj` gets the key 3 (its weight), the read
`prob_obj[0]` gives 0, `delta = 0 - 1`, and `beta` is multiplied by 2.
On `planesCrossingQuery` with `Dim = 1` and `c = 1` the tree is one leaf that folds
`above = [1]`; for instance 0 `sigma[0]` is 0, line 107 divides by it, and the
value reported is not a finite number. -/
theorem probability_above_one :
    ((Build (pathGeom 2) 2 1 3 planesThreeInstances []).map
        (fun t => CalProb (pathGeom 2) t []) =
      some [(0, some (4 / 3)), (1, some 0), (2, some 0), (3, some 0)] ∧
      ¬ ((4 / 3 : ℚ) ≤ 1)) ∧
    ((Build (pathGeom 1) 2 1 1 planesCrossingQuery []).map Tree.root =
        some (Node.mk [] [0] (Payload.info (foldInfo planesCrossingQuery 2 [1]))) ∧
      (Build (pathGeom 1) 2 1 1 planesCrossingQuery []).map
        (fun t => CalProb (pathGeom 1) t []) =
      some [(0, none), (1, some (1 / 2)), (2, some (1 / 2))]) := by
  refine ⟨⟨?_, ?_⟩, ?_, ?_⟩
  · simp [Build, BuildRecursive, pathGeom, planesThreeInstances, CalProb, mapSet, queryPlane,
      QueryRecursive, queryLeaf, queryChild, evalInfo, tallyLoop, tallyStep, foldInfo, foldStep,
      Info.init, rootAbove, rootThrough, threshold, topLevel, collect, subAbove, subThrough,
      planeAt, sigmaAt, dmul, ddiv, probObjAt, incr, List.range, List.range.loop, List.lookup]
    norm_num
  · norm_num
  · simp [Build, BuildRecursive, pathGeom, planesCrossingQuery, rootAbove, rootThrough,
      threshold, topLevel, planeAt, List.range, List.range.loop]
  · simp [Build, BuildRecursive, pathGeom, planesCrossingQuery, CalProb, mapSet, queryPlane,
      QueryRecursive, queryLeaf, queryChild, evalInfo, tallyLoop, tallyStep, foldInfo, foldStep,
      Info.init, rootAbove, rootThrough, threshold, topLevel, collect, subAbove, subThrough,
      planeAt, sigmaAt, dmul, ddiv, probObjAt, incr, List.range, List.range.loop, List.lookup]
    norm_num

/-- C2: for one object with one instance of weight 1, `Dim = 1` and `c = 1`,
`CalProb` reports 1 when the boundary is above the space, and no finite number
when it crosses the space or is neither above nor crossing: `sigma[0]` is 0
and line 107 divides by it.  With `Dim = 2` the same happens for the boundary
above the space, which stays in the `through` vector of the nested tree. -/
theorem single_instance_query :
    (Build (pathGeom 1) 1 1 1 (planesSingle 0) []).map (fun t => CalProb (pathGeom 1) t []) =
        some [(0, some 1)] ∧
      (Build (pathGeom 1) 1 1 1 (planesSingle 1) []).map (fun t => CalProb (pathGeom 1) t []) =
        some [(0, none)] ∧
      (Build (pathGeom 1) 1 1 1 (planesSingle 2) []).map (fun t => CalProb (pathGeom 1) t []) =
        some [(0, none)] ∧
      (Build (pathGeom 2) 1 1 2 (planesSingle 0) []).map (fun t => CalProb (pathGeom 2) t []) =
        some [(0, none)] := by
  refine ⟨?_, ?_, ?_, ?_⟩ <;>
  simp [Build, BuildRecursive, pathGeom, planesSingle, CalProb, mapSet, queryPlane,
    QueryRecursive, queryLeaf, queryChild, evalInfo, tallyLoop, tallyStep, foldInfo, foldStep,
    Info.init, rootAbove, rootThrough, threshold, topLevel, collect, subAbove, subThrough,
    planeAt, sigmaAt, dmul, ddiv, probObjAt, incr, List.range, List.range.loop, List.lookup]

/-- C3 as stated fails: on `planesMixedWeights` with `Dim = 1` the root is a
level 0 leaf whose summary folds `above = [0, 1, 2]`; `xi` is 1, the object
that saturated is object 0, its count 1 differs from the weight 2 of boundary
3, and the result for boundary 3 is 3/10, not 0. -/
theorem saturated_count_is_not_checked :
    (Build (pathGeom 1) 2 1 1 planesMixedWeights []).map Tree.root =
        some (Node.mk [] [3] (Payload.info (foldInfo planesMixedWeights 2 [0, 1, 2]))) ∧
      (foldInfo planesMixedWeights 2 [0, 1, 2]).xi = 1 ∧
      saturated planesMixedWeights (Info.init 2) [0, 1, 2] = [0] ∧
      sigmaAt (foldInfo planesMixedWeights 2 [0, 1, 2]).sigma 0 ≠
        (planeAt planesMixedWeights 3).prob ∧
      (Build (pathGeom 1) 2 1 1 planesMixedWeights []).map
          (fun t => queryPlane (pathGeom 1) t [] (planeAt planesMixedWeights 3)) =
        some (some (3 / 10)) := by
  refine ⟨?_, ?_, ?_, ?_, ?_⟩
  · simp [Build, BuildRecursive, pathGeom, rootAbove, rootThrough, threshold, topLevel,
      planesMixedWeights, planeAt, List.range, List.range.loop]
  · decide
  · decide
  · decide
  · simp [Build, BuildRecursive, pathGeom, planesMixedWeights, queryPlane,
      QueryRecursive, queryLeaf, queryChild, evalInfo, tallyLoop, tallyStep, foldInfo, foldStep,
      Info.init, rootAbove, rootThrough, threshold, topLevel, collect, subAbove, subThrough,
      planeAt, sigmaAt, dmul, ddiv, probObjAt, incr, List.range, List.range.loop, List.lookup]
    norm_num

/-- C3, amended: at a level 0 leaf, if `xi > 1`, or if `xi == 1` and
`sigma[plane.obj_id]`, the folded count of the object of the queried boundary,
differs from `plane.prob`, then `QueryRecursive` returns 0.  When the weight of
the queried boundary is positive and is the weight of every folded boundary of
its object, and its object id is below `m`, this covers the case that `xi == 1`
and the folded count of the object that saturated differs from `plane.prob`. -/
theorem zero_of_xi_check {G Box Point : Type} [Inhabited G]
    (g : ObjectHpp G Box Point) (planes : List (HyperPlane G)) (root_space : Box)
    (points : Nat → Point) (R : Box) (plane : HyperPlane G)
    (through_planes : List Nat) (space : Box) (through : List Nat) :
    (∀ info : Info,
      (info.xi > 1 ∨ (info.xi = 1 ∧ sigmaAt info.sigma plane.obj_id ≠ plane.prob)) →
      QueryRecursive g planes root_space points R plane
        (Node.mk [] through_planes (Payload.info info)) space through 0 = some 0) ∧
    (∀ (m : Nat) (above : List Nat), plane.obj_id < m → 0 < plane.prob →
      (∀ q ∈ above, (planeAt planes q).obj_id = plane.obj_id →
        (planeAt planes q).prob = plane.prob) →
      (foldInfo planes m above).xi = 1 →
      (∃ o ∈ saturated planes (Info.init m) above,
        sigmaAt (foldInfo planes m above).sigma o ≠ plane.prob) →
      QueryRecursive g planes root_space points R plane
        (Node.mk [] through_planes (Payload.info (foldInfo planes m above))) space through 0 =
          some 0) := by
  have h1 : ∀ info : Info,
      (info.xi > 1 ∨ (info.xi = 1 ∧ sigmaAt info.sigma plane.obj_id ≠ plane.prob)) →
      QueryRecursive g planes root_space points R plane
        (Node.mk [] through_planes (Payload.info info)) space through 0 = some 0 := by
    intro info h
    simp only [QueryRecursive, queryLeaf, evalInfo]
    rw [if_pos h]
  refine ⟨h1, ?_⟩
  intro m above hm hpos hc hxi ⟨o, ho, hne⟩
  apply h1
  refine Or.inr ⟨hxi, ?_⟩
  intro heq
  have hmem : plane.obj_id ∈ saturated planes (Info.init m) above := by
    apply mem_saturated_of_reach planes above (Info.init m) plane.obj_id plane.prob
    · rw [init_sigma_length]; exact hm
    · rw [init_sigmaAt]; exact hpos
    · exact le_of_eq heq.symm
    · exact hc
  have hlen : (saturated planes (Info.init m) above).length = 1 := by
    have h := foldl_xi planes above (Info.init m)
    change (foldInfo planes m above).xi = (Info.init m).xi + _ at h
    have h0 : (Info.init m).xi = 0 := rfl
    rw [hxi, h0] at h
    omega
  obtain ⟨a, ha⟩ := List.length_eq_one.mp hlen
  rw [ha] at ho hmem
  have e1 : o = a := by simpa using ho
  have e2 : plane.obj_id = a := by simpa using hmem
  rw [e1, ← e2] at hne
  exact hne heq

/-- C3, amended, instances: boundary 0 of `planesMixedWeights`, of object 0 and
weight 1, at a leaf that folded boundaries 1 and 3 of object 1, where `xi` is 1;
and boundary 1 of `planesThreeInstances`, of weight 3, at a leaf that folded
boundary 0, where object 1 saturated with count 1. -/
theorem zero_of_xi_check_witness :
    (((foldInfo planesMixedWeights 2 [1, 3]).xi > 1 ∨
        ((foldInfo planesMixedWeights 2 [1, 3]).xi = 1 ∧
          sigmaAt (foldInfo planesMixedWeights 2 [1, 3]).sigma
            (planeAt planesMixedWeights 0).obj_id ≠ (planeAt planesMixedWeights 0).prob)) ∧
      QueryRecursive (pathGeom 1) planesMixedWeights [] (fun _ => ()) []
        (planeAt planesMixedWeights 0)
        (Node.mk [] [] (Payload.info (foldInfo planesMixedWeights 2 [1, 3]))) [] [] 0 =
          some 0) ∧
    ((foldInfo planesThreeInstances 2 [0]).xi = 1 ∧
      (∃ o ∈ saturated planesThreeInstances (Info.init 2) [0],
        sigmaAt (foldInfo planesThreeInstances 2 [0]).sigma o ≠
          (planeAt planesThreeInstances 1).prob) ∧
      QueryRecursive (pathGeom 1) planesThreeInstances [] (fun _ => ()) []
        (planeAt planesThreeInstances 1)
        (Node.mk [] [] (Payload.info (foldInfo planesThreeInstances 2 [0]))) [] [] 0 =
          some 0) :=
  ⟨⟨by decide,
    (zero_of_xi_check (pathGeom 1) planesMixedWeights [] (fun _ => ()) []
      (planeAt planesMixedWeights 0) [] [] []).1 (foldInfo planesMixedWeights 2 [1, 3])
      (by decide)⟩,
   ⟨by decide, ⟨1, by decide, by decide⟩,
    (zero_of_xi_check (pathGeom 1) planesThreeInstances [] (fun _ => ()) []
      (planeAt planesThreeInstances 1) [] [] []).2 2 [0] (by decide) (by decide) (by decide)
      (by decide) ⟨1, by decide, by decide⟩⟩⟩

/-- C4: on `planesDominated` with `Dim = 2` and `c = 1` the tree is a root leaf
with `through = [1]` whose nested tree is one leaf with an empty summary.  For
boundary 0, boundary 1 is tallied: `n_obj` is `{0: 1}` and `prob_obj` is
`{1: 1}`, keyed by the weight.  `sigma[0] + 1` equals the weight 1 of boundary 1,
but the read `prob_obj[0]` gives 0, the test of line 109 fails, `delta` is 0 and
the value returned is not a finite number.
On `planesTwoInstances`, where the nested tree subdivides, `n_obj` is `{0: 1}`,
`prob_obj` is `{2: 2}`, `sigma[0] + 1` equals the weight 2 of boundary 2, and the
value returned for boundary 0 is 1. -/
theorem tally_weight_read_by_object_id :
    ((Build (pathGeom 2) 2 1 2 planesDominated []).map Tree.root =
        some (Node.mk [] [1] (Payload.tree
          (Node.mk [] [0] (Payload.info (foldInfo planesDominated 2 []))))) ∧
      ([1].foldl (tallyStep (pathGeom 2) planesDominated (planeAt planesDominated 0) [])
        { n_obj := [], prob_obj := [] }).n_obj = [(0, 1)] ∧
      ([1].foldl (tallyStep (pathGeom 2) planesDominated (planeAt planesDominated 0) [])
        { n_obj := [], prob_obj := [] }).prob_obj = [(1, 1)] ∧
      sigmaAt (foldInfo planesDominated 2 []).sigma 0 + 1 = (planeAt planesDominated 1).prob ∧
      (Build (pathGeom 2) 2 1 2 planesDominated []).map
          (fun t => queryPlane (pathGeom 2) t [] (planeAt planesDominated 0)) = some none) ∧
    (([2].foldl (tallyStep (pathGeom 2) planesTwoInstances (planeAt planesTwoInstances 0) [])
        { n_obj := [], prob_obj := [] }).n_obj = [(0, 1)] ∧
      ([2].foldl (tallyStep (pathGeom 2) planesTwoInstances (planeAt planesTwoInstances 0) [])
        { n_obj := [], prob_obj := [] }).prob_obj = [(2, 2)] ∧
      sigmaAt (foldInfo planesTwoInstances 2 [0, 1]).sigma 0 + 1 =
        (planeAt planesTwoInstances 2).prob ∧
      (Build (pathGeom 2) 2 1 3 planesTwoInstances []).map
          (fun t => queryPlane (pathGeom 2) t [] (planeAt planesTwoInstances 0)) =
        some (some 1)) := by
  refine ⟨⟨?_, ?_, ?_, ?_, ?_⟩, ?_, ?_, ?_, ?_⟩
  · simp [Build, BuildRecursive, pathGeom, planesDominated, rootAbove, rootThrough,
      threshold, topLevel, planeAt, List.range, List.range.loop]
  · simp [tallyStep, pathGeom, planesDominated, planeAt]
  · simp [tallyStep, pathGeom, planesDominated, planeAt]
  · decide
  · simp [Build, BuildRecursive, pathGeom, planesDominated, queryPlane,
      QueryRecursive, queryLeaf, queryChild, evalInfo, tallyLoop, tallyStep, foldInfo, foldStep,
      Info.init, rootAbove, rootThrough, threshold, topLevel, collect, subAbove, subThrough,
      planeAt, sigmaAt, dmul, ddiv, probObjAt, incr, List.range, List.range.loop, List.lookup]
  · simp [tallyStep, pathGeom, planesTwoInstances, planeAt]
  · simp [tallyStep, pathGeom, planesTwoInstances, planeAt]
  · decide
  · simp [Build, BuildRecursive, pathGeom, planesTwoInstances, queryPlane,
      QueryRecursive, queryLeaf, queryChild, evalInfo, tallyLoop, tallyStep, foldInfo, foldStep,
      Info.init, rootAbove, rootThrough, threshold, topLevel, collect, subAbove, subThrough,
      planeAt, sigmaAt, dmul, ddiv, probObjAt, incr, List.range, List.range.loop, List.lookup]
    norm_num

theorem Build_fields {G Box Point : Type} [Inhabited G] (g : ObjectHpp G Box Point) (m : Nat)
    (c : Int) (fuel : Nat) (planes : List (HyperPlane G)) (space : Box) (t : Tree G Box)
    (hb : Build g m c fuel planes space = some t) :
    t.planes = planes ∧ t.space = space ∧ t.m = m ∧ t.c = c ∧ t.n_child = 2 ^ g.Dim ∧
      BuildRecursive g planes m c (2 ^ g.Dim) space fuel space (rootAbove g planes space)
        (rootThrough g planes space) 1 (topLevel g.Dim) = some t.root := by
  unfold Build at hb
  split at hb
  · next root hroot =>
    cases hb
    exact ⟨rfl, rfl, rfl, rfl, rfl, hroot⟩
  · cases hb

/-- In the reading of the header, in which `CalProb` returns the map `results`:
for a tree that `Build` made from `planes`, the keys of the map of
`CalProb(R)` are the instance ids of all members of `planes`, each once and in
increasing order; the value under the id of a boundary that no later boundary
shares is what `QueryRecursive` returns for that boundary from the root, with
an empty `through` and level `pow(2, Dim - 1) - 1`; and when the instance ids are
pairwise distinct the map has as many entries as there are boundaries. -/
theorem CalProb_keys_and_values {G Box Point : Type} [Inhabited G]
    (g : ObjectHpp G Box Point) (m : Nat) (c : Int) (fuel : Nat)
    (planes : List (HyperPlane G)) (space : Box) (t : Tree G Box) (R : Box)
    (hb : Build g m c fuel planes space = some t) :
    (∀ k, k ∈ (CalProb g t R).map Prod.fst ↔ ∃ p ∈ planes, p.ins_id = k) ∧
      ((CalProb g t R).map Prod.fst).Pairwise (fun a b => a < b) ∧
      (∀ pre p post, planes = pre ++ p :: post → (∀ q ∈ post, q.ins_id ≠ p.ins_id) →
        (CalProb g t R).lookup p.ins_id =
          some (QueryRecursive g planes space (g.GetQueryPoints p R) R p t.root space []
            (topLevel g.Dim))) ∧
      ((planes.map (fun p => p.ins_id)).Nodup → (CalProb g t R).length = planes.length) := by
  obtain ⟨hp, hsp, -, -, -, -⟩ := Build_fields g m c fuel planes space t hb
  have hkeys : ∀ k, k ∈ (CalProb g t R).map Prod.fst ↔ ∃ p ∈ planes, p.ins_id = k := by
    intro k
    unfold CalProb
    rw [foldl_mapSet_keys, hp]
    simp
  have hsorted : ((CalProb g t R).map Prod.fst).Pairwise (fun a b => a < b) := by
    unfold CalProb
    exact foldl_mapSet_sorted _ _ _ (by simp)
  refine ⟨hkeys, hsorted, ?_, ?_⟩
  · intro pre p post hsplit hlast
    unfold CalProb
    rw [hp, hsplit, foldl_mapSet_lookup_last _ pre post p [] hlast]
    simp only [queryPlane, hp, hsp, hsplit]
  · intro hnd
    have hnd2 : ((CalProb g t R).map Prod.fst).Nodup :=
      hsorted.imp (fun h => ne_of_lt h)
    have hperm : ((CalProb g t R).map Prod.fst).Perm (planes.map (fun p => p.ins_id)) := by
      rw [List.perm_ext_iff_of_nodup hnd2 hnd]
      intro k
      rw [hkeys k]
      simp
    have := hperm.length_eq
    simpa using this

/-- An instance of `CalProb_keys_and_values`: the index of `planesTwoInstances`. -/
theorem CalProb_keys_and_values_witness :
    Build (pathGeom 2) 2 1 3 planesTwoInstances [] = some treeTwoInstances ∧
      (planesTwoInstances.map (fun p => p.ins_id)).Nodup ∧
      (CalProb (pathGeom 2) treeTwoInstances []).lookup 0 =
        some (QueryRecursive (pathGeom 2) planesTwoInstances []
          ((pathGeom 2).GetQueryPoints (planeAt planesTwoInstances 0) [])
          [] (planeAt planesTwoInstances 0) treeTwoInstances.root [] [] (topLevel 2)) ∧
      (CalProb (pathGeom 2) treeTwoInstances []).length = planesTwoInstances.length :=
  have hb : Build (pathGeom 2) 2 1 3 planesTwoInstances [] = some treeTwoInstances := by
    simp [Build, BuildRecursive, pathGeom, planesTwoInstances, rootAbove, rootThrough,
      threshold, topLevel, collect, subAbove, subThrough, planeAt, List.range, List.range.loop,
      treeTwoInstances]
  ⟨hb, by decide,
    (CalProb_keys_and_values (pathGeom 2) 2 1 3 planesTwoInstances [] treeTwoInstances [] hb).2.2.1
      [] (planeAt planesTwoInstances 0) _ rfl (by decide),
    (CalProb_keys_and_values (pathGeom 2) 2 1 3 planesTwoInstances [] treeTwoInstances [] hb).2.2.2
      (by decide)⟩

/-! ## Claims about Build -/

/-- C8 as stated fails: for two coincident boundaries that cross the space and
the first child of every box they cross, with `c = 1`, `Build` returns with no
amount of fuel. -/
theorem build_never_returns :
    ¬ ∃ fuel, (Build (pathGeom 1) 1 1 fuel planesCoincident []).isSome = true := by
  rintro ⟨fuel, h⟩
  have hroot : rootThrough (pathGeom 1) planesCoincident [] = [0, 1] := by
    simp [rootThrough, pathGeom, planesCoincident, planeAt, List.range, List.range.loop]
  have hnone := BuildRecursive_none_of_crossing (pathGeom 1) planesCoincident 1 1
    (2 ^ (pathGeom 1).Dim) [] (fun b => b.all (fun i => i == 0) = true) [0, 1] (by decide)
    (by
      intro b hb
      refine ⟨0, by decide, ?_, ?_⟩
      · simpa [pathGeom] using hb
      · intro p hp
        have hb' : (b.all fun i => i == 0) = true := hb
        have hp' : p = 0 ∨ p = 1 := by simpa using hp
        rcases hp' with rfl | rfl <;>
          simp [crosses, pathGeom, planesCoincident, planeAt, hb'])
    fuel [] (by simp) (rootAbove (pathGeom 1) planesCoincident []) 1 (topLevel (pathGeom 1).Dim)
  unfold Build at h
  rw [hroot, hnone] at h
  cases h

/-- C8, amended: `Build` returns when, for some `D > 0`, every box `D`
subdivisions below the space is crossed by at most `c` boundaries, and fuel
`(pow(2, Dim - 1)) * (D + 1)` is enough.  `BuildRecursive` has no maximum depth:
when more than `c` candidates cross a chain of sub-boxes, one below the other
without end, it returns with no amount of fuel. -/
theorem Build_termination {G Box Point : Type} [Inhabited G]
    (g : ObjectHpp G Box Point) (m : Nat) (c : Int) (planes : List (HyperPlane G))
    (space : Box) :
    (∀ D, 0 < D →
      (∀ path : List Nat, path.length = D → (∀ i ∈ path, i < 2 ^ g.Dim) →
        (crossing g planes (boxAt g space path)).length ≤ threshold c) →
      (Build g m c ((topLevel g.Dim + 1) * (D + 1)) planes space).isSome = true) ∧
    (∀ (S : Box → Prop) (through : List Nat), threshold c < through.length →
      (∀ b, S b → ∃ i, i < 2 ^ g.Dim ∧ S (g.GetSubSpace b i) ∧
        ∀ p ∈ through, crosses g planes (g.GetSubSpace b i) p = true) →
      ∀ (fuel : Nat) (b : Box), S b → ∀ (above : List Nat) (depth level : Nat),
        BuildRecursive g planes m c (2 ^ g.Dim) space fuel b above through depth level = none) := by
  constructor
  · intro D hD hshrink
    have h := BuildRecursive_isSome g planes m c (2 ^ g.Dim) space D hD hshrink
      ((topLevel g.Dim + 1) * (D + 1)) (topLevel g.Dim) [] (rootAbove g planes space)
      (rootThrough g planes space) 1 (Nat.zero_le _) (by simp) (rootThrough_nodup g planes space)
      (rootAbove_nodup g planes space) (rootAbove_disjoint g planes space)
      (rootThrough_lt g planes space) (rootAbove_lt g planes space) (by simp) (by
        simp only [List.length_nil, Nat.sub_zero]
        have : (topLevel g.Dim + 1) * (D + 1) = topLevel g.Dim * (D + 1) + (D + 1) := by ring
        omega)
    obtain ⟨t, ht⟩ := Option.isSome_iff_exists.mp h
    simp only [boxAt, List.foldl_nil] at ht
    unfold Build
    rw [ht]
    rfl
  · intro S through hT hS fuel b hb above depth level
    exact BuildRecursive_none_of_crossing g planes m c (2 ^ g.Dim) space S through hT hS fuel b hb
      above depth level

/-- C8, amended, instances: on `planesTwoInstances` with `c = 1` one boundary
crosses a box one subdivision down, and `Build` returns with fuel 4; on
`planesCoincident` with `c = 1` two boundaries cross every box whose path is all
zeros, and `BuildRecursive` does not return with fuel 7. -/
theorem Build_termination_witness :
    (0 < 1 ∧
      (∀ path : List Nat, path.length = 1 → (∀ i ∈ path, i < 2 ^ (pathGeom 2).Dim) →
        (crossing (pathGeom 2) planesTwoInstances (boxAt (pathGeom 2) [] path)).length
          ≤ threshold 1) ∧
      (Build (pathGeom 2) 2 1 ((topLevel (pathGeom 2).Dim + 1) * (1 + 1)) planesTwoInstances
        []).isSome = true) ∧
    (threshold 1 < [0, 1].length ∧
      (∀ b : List Nat, b.all (fun i => i == 0) = true →
        ∃ i, i < 2 ^ (pathGeom 1).Dim ∧
          ((pathGeom 1).GetSubSpace b i).all (fun i => i == 0) = true ∧
          ∀ p ∈ [0, 1], crosses (pathGeom 1) planesCoincident ((pathGeom 1).GetSubSpace b i) p
            = true) ∧
      BuildRecursive (pathGeom 1) planesCoincident 1 1 (2 ^ (pathGeom 1).Dim) [] 7 [] []
        [0, 1] 1 0 = none) :=
  have hshrink : ∀ path : List Nat, path.length = 1 → (∀ i ∈ path, i < 2 ^ (pathGeom 2).Dim) →
      (crossing (pathGeom 2) planesTwoInstances (boxAt (pathGeom 2) [] path)).length
        ≤ threshold 1 := by
    intro path _ _
    have h1 : threshold 1 = 1 := by decide
    rw [h1]
    generalize boxAt (pathGeom 2) [] path = b
    by_cases hb : b.all (fun i => i == 0) = true
    · simp [crossing, crosses, pathGeom, planesTwoInstances, planeAt, List.range,
        List.range.loop, List.filter, hb]
    · simp [crossing, crosses, pathGeom, planesTwoInstances, planeAt, List.range,
        List.range.loop, List.filter, hb]
  have hchain : ∀ b : List Nat, b.all (fun i => i == 0) = true →
      ∃ i, i < 2 ^ (pathGeom 1).Dim ∧
        ((pathGeom 1).GetSubSpace b i).all (fun i => i == 0) = true ∧
        ∀ p ∈ [0, 1], crosses (pathGeom 1) planesCoincident ((pathGeom 1).GetSubSpace b i) p
          = true := by
    intro b hb
    refine ⟨0, by decide, ?_, ?_⟩
    · simpa [pathGeom] using hb
    · intro p hp
      have hp' : p = 0 ∨ p = 1 := by simpa using hp
      rcases hp' with rfl | rfl <;>
        simp [crosses, pathGeom, planesCoincident, planeAt, hb]
  ⟨⟨by decide, hshrink,
    (Build_termination (pathGeom 2) 2 1 planesTwoInstances []).1 1 (by decide) hshrink⟩,
   ⟨by decide, hchain,
    (Build_termination (pathGeom 1) 1 1 planesCoincident []).2
      (fun b => b.all (fun i => i == 0) = true) [0, 1] (by decide) hchain 7 [] (by simp) [] 1 0⟩⟩

/-- C9 as stated fails: `Build` returns an index for a boundary set with a
weight 0 and a weight -1. -/
theorem build_accepts_bad_weights :
    (planeAt planesBadWeights 0).prob = 0 ∧ (planeAt planesBadWeights 1).prob < 0 ∧
      (Build (pathGeom 1) 2 1 1 planesBadWeights []).isSome = true := by
  refine ⟨by decide, by decide, ?_⟩
  simp [Build, BuildRecursive, pathGeom, planesBadWeights, rootAbove, rootThrough, threshold,
    topLevel, planeAt, List.range, List.range.loop]

/-- C9, amended: `Build` does not look at the weights.  When `Above` and
`Intersect` do not depend on the weight of a boundary, `Build` returns an index
for a boundary set exactly when it returns one for the same set with the
weights replaced by any others, positive or not. -/
theorem Build_ignores_weights {G Box Point : Type} [Inhabited G]
    (g : ObjectHpp G Box Point)
    (hA : ∀ (p : HyperPlane G) (x : Int) (b : Box), g.Above { p with prob := x } b = g.Above p b)
    (hI : ∀ (p : HyperPlane G) (x : Int) (b : Box),
      g.Intersect { p with prob := x } b = g.Intersect p b)
    (w : HyperPlane G → Int) (m : Nat) (c : Int) (fuel : Nat) (planes : List (HyperPlane G))
    (space : Box) :
    (Build g m c fuel (setWeights w planes) space).isSome =
      (Build g m c fuel planes space).isSome := by
  have hra : rootAbove g (setWeights w planes) space = rootAbove g planes space := by
    unfold rootAbove
    rw [show (setWeights w planes).length = planes.length by simp [setWeights]]
    congr 1
    funext p
    exact pred_setWeights g.Above hA w planes p space
  have hrt : rootThrough g (setWeights w planes) space = rootThrough g planes space := by
    unfold rootThrough
    rw [show (setWeights w planes).length = planes.length by simp [setWeights]]
    congr 1
    funext p
    rw [pred_setWeights g.Above hA w planes p space,
      pred_setWeights g.Intersect hI w planes p space]
  have h := BuildRecursive_isSome_setWeights g hA hI w planes m c (2 ^ g.Dim) space fuel space
    (rootAbove g planes space) (rootThrough g planes space) 1 (topLevel g.Dim)
  unfold Build
  rw [hra, hrt]
  revert h
  cases BuildRecursive g (setWeights w planes) m c (2 ^ g.Dim) space fuel space
      (rootAbove g planes space) (rootThrough g planes space) 1 (topLevel g.Dim) <;>
    cases BuildRecursive g planes m c (2 ^ g.Dim) space fuel space
      (rootAbove g planes space) (rootThrough g planes space) 1 (topLevel g.Dim) <;> simp

/-- C9, amended, an instance: `planesTwoInstances` with every weight set to 0. -/
theorem Build_ignores_weights_witness :
    (∀ (p : HyperPlane Nat) (x : Int) (b : List Nat),
        (pathGeom 2).Above { p with prob := x } b = (pathGeom 2).Above p b) ∧
      (∀ (p : HyperPlane Nat) (x : Int) (b : List Nat),
        (pathGeom 2).Intersect { p with prob := x } b = (pathGeom 2).Intersect p b) ∧
      (Build (pathGeom 2) 2 1 3 (setWeights (fun _ => 0) planesTwoInstances) []).isSome =
        (Build (pathGeom 2) 2 1 3 planesTwoInstances []).isSome :=
  ⟨fun _ _ _ => rfl, fun _ _ _ => rfl,
    Build_ignores_weights (pathGeom 2) (fun _ _ _ => rfl) (fun _ _ _ => rfl) (fun _ => 0) 2 1 3
      planesTwoInstances []⟩

/-! ## The value of QueryRecursive along its calls -/

section QueryCallsLemmas

variable {G Box Point : Type} [Inhabited G]

mutual
theorem QueryRecursive_eq_lastValue (g : ObjectHpp G Box Point) (planes : List (HyperPlane G))
    (root_space : Box) (points : Nat → Point) (R : Box) (plane : HyperPlane G) :
    ∀ (node : Node) (space : Box) (through : List Nat) (level : Nat),
      QueryRecursive g planes root_space points R plane node space through level =
        lastValue g planes R plane (calls g root_space points node space through level)
  | .mk [] tp payload, space, through, level => by
    have h := queryLeaf_eq g planes root_space points R plane payload tp space through level
    simp only [QueryRecursive, calls]
    exact h
  | .mk (ch :: cs) tp payload, space, through, level => by
    have h := queryChild_eq g planes root_space points R plane (ch :: cs)
      (g.PointLocation space (points level)).1 (Node.mk (ch :: cs) tp payload) space
      (g.PointLocation space (points level)).2 through level (by simp [Node.children])
    simp only [QueryRecursive, calls]
    exact h
theorem queryLeaf_eq (g : ObjectHpp G Box Point) (planes : List (HyperPlane G))
    (root_space : Box) (points : Nat → Point) (R : Box) (plane : HyperPlane G) :
    ∀ (payload : Payload) (tp : List Nat) (space : Box) (through : List Nat) (level : Nat),
      queryLeaf g planes root_space points R plane payload tp through level =
        lastValue g planes R plane (⟨.mk [] tp payload, space, through, level⟩ ::
          callsLeaf g root_space points payload tp through level)
  | .info info, tp, space, through, 0 => by
    simp [queryLeaf, callsLeaf, lastValue, finalValue]
  | .info info, tp, space, through, level + 1 => by
    simp [queryLeaf, callsLeaf, lastValue, finalValue]
  | .null, tp, space, through, level => by
    cases level <;> simp [queryLeaf, callsLeaf, lastValue, finalValue]
  | .tree t, tp, space, through, 0 => by
    simp [queryLeaf, callsLeaf, lastValue, finalValue]
  | .tree t, tp, space, through, level + 1 => by
    have h := QueryRecursive_eq_lastValue g planes root_space points R plane t root_space
      (through ++ tp) level
    simp only [queryLeaf, callsLeaf]
    rw [h]
    cases t with
    | mk cs tp' p' => cases cs <;> simp [calls, lastValue]
theorem queryChild_eq (g : ObjectHpp G Box Point) (planes : List (HyperPlane G))
    (root_space : Box) (points : Nat → Point) (R : Box) (plane : HyperPlane G) :
    ∀ (cs : List Node) (k : Nat) (node : Node) (space subspace : Box) (through : List Nat)
      (level : Nat), node.children ≠ [] →
      queryChild g planes root_space points R plane cs k subspace through level =
        lastValue g planes R plane (⟨node, space, through, level⟩ ::
          callsChild g root_space points cs k subspace through level)
  | [], k, node, space, subspace, through, level, hne => by
    cases node with
    | mk cs' tp' p' =>
      cases cs' with
      | nil => exact absurd rfl hne
      | cons a b => simp [queryChild, callsChild, lastValue, finalValue]
  | ch :: cs, 0, node, space, subspace, through, level, hne => by
    have h := QueryRecursive_eq_lastValue g planes root_space points R plane ch subspace
      through level
    simp only [queryChild, callsChild]
    rw [h]
    cases ch with
    | mk cs' tp' p' => cases cs' <;> simp [calls, lastValue]
  | ch :: cs, k + 1, node, space, subspace, through, level, hne => by
    have h := queryChild_eq g planes root_space points R plane cs k node space subspace
      through level hne
    simp only [queryChild, callsChild]
    exact h
end
end QueryCallsLemmas

/-! ## The calls of BuildRecursive and the tree -/

section CallGraphLemmas

variable {G Box Point : Type} [Inhabited G]

theorem collect_eq_some (l : List (Option Node)) (cs : List Node) :
    collect l = some cs ↔ l = cs.map some := by
  induction l generalizing cs with
  | nil =>
    cases cs with
    | nil => simp [collect]
    | cons a b => simp [collect]
  | cons x rest ih =>
    cases x with
    | none =>
      cases cs with
      | nil => simp [collect]
      | cons a b => simp [collect]
    | some y =>
      cases hr : collect rest with
      | none =>
        have hne : ∀ cs' : List Node, rest ≠ cs'.map some := by
          intro cs' h
          have := (ih cs').mpr h
          rw [hr] at this
          cases this
        cases cs with
        | nil => simp [collect, hr]
        | cons a b =>
          simp only [collect, hr, Option.map_none', List.map_cons, List.cons.injEq,
            Option.some.injEq]
          constructor
          · intro h
            cases h
          · rintro ⟨_, h⟩
            exact absurd h (hne b)
      | some ys =>
        have hrest := (ih ys).mp hr
        cases cs with
        | nil => simp [collect, hr]
        | cons a b =>
          simp only [collect, hr, Option.map_some', Option.some.injEq, List.cons.injEq,
            List.map_cons]
          constructor
          · rintro ⟨rfl, rfl⟩
            exact ⟨rfl, hrest⟩
          · rintro ⟨rfl, h⟩
            refine ⟨rfl, ?_⟩
            have := (ih b).mpr h
            rw [hr] at this
            exact Option.some.inj this

theorem map_range_eq_map_some (n : Nat) (f : Nat → Option Node) (cs : List Node)
    (h : (List.range n).map f = cs.map some) :
    cs.length = n ∧ ∀ i, i < n → f i = cs[i]? := by
  have hlen : cs.length = n := by
    have := congrArg List.length h
    simpa using this.symm
  refine ⟨hlen, ?_⟩
  intro i hi
  have h1 : ((List.range n).map f)[i]? = (cs.map some)[i]? := by rw [h]
  rw [List.getElem?_map, List.getElem?_map, List.getElem?_range hi] at h1
  have hi' : i < cs.length := by omega
  rw [List.getElem?_eq_getElem hi'] at h1 ⊢
  simpa using h1

theorem runCall_zero (g : ObjectHpp G Box Point) (planes : List (HyperPlane G)) (m : Nat)
    (c : Int) (n_child : Nat) (root_space : Box) (k : Call Box) :
    runCall g planes m c n_child root_space 0 k = none :=
  rfl

theorem runCall_summary (g : ObjectHpp G Box Point) (planes : List (HyperPlane G)) (m : Nat)
    (c : Int) (n_child : Nat) (root_space : Box) (fuel : Nat) (k : Call Box)
    (hleaf : k.through.length ≤ threshold c) (hlevel : k.level = 0) :
    runCall g planes m c n_child root_space (fuel + 1) k =
      some (Node.mk [] k.through (Payload.info (foldInfo planes m k.above))) := by
  unfold runCall
  rw [BuildRecursive_succ, if_pos hleaf, if_pos hlevel]

theorem runCall_nested (g : ObjectHpp G Box Point) (planes : List (HyperPlane G)) (m : Nat)
    (c : Int) (n_child : Nat) (root_space : Box) (fuel : Nat) (k : Call Box)
    (hleaf : k.through.length ≤ threshold c) (hlevel : k.level ≠ 0) :
    runCall g planes m c n_child root_space (fuel + 1) k =
      (runCall g planes m c n_child root_space fuel (nestedCall root_space k)).map
        (fun t => Node.mk [] k.through (Payload.tree t)) := by
  unfold runCall
  rw [BuildRecursive_succ, if_pos hleaf, if_neg hlevel]
  simp only [nestedCall]
  cases BuildRecursive g planes m c n_child root_space fuel root_space [] k.above 1
    (k.level - 1) <;> rfl

theorem runCall_internal (g : ObjectHpp G Box Point) (planes : List (HyperPlane G)) (m : Nat)
    (c : Int) (n_child : Nat) (root_space : Box) (fuel : Nat) (k : Call Box)
    (hsub : threshold c < k.through.length) :
    runCall g planes m c n_child root_space (fuel + 1) k =
      (collect ((List.range n_child).map (fun i =>
        runCall g planes m c n_child root_space fuel (childCall g planes k i)))).map
        (fun cs => Node.mk cs [] Payload.null) := by
  unfold runCall
  rw [BuildRecursive_succ, if_neg (Nat.not_le.mpr hsub)]
  simp only [childCall]
  cases collect ((List.range n_child).map (fun i =>
    BuildRecursive g planes m c n_child root_space fuel (g.GetSubSpace k.space i)
      (k.above ++ subAbove g planes (g.GetSubSpace k.space i) k.through)
      (subThrough g planes (g.GetSubSpace k.space i) k.through) (k.depth + 1) k.level)) <;> rfl

/-- The three ways in which a call of `BuildRecursive` returns a node. -/
theorem runCall_cases (g : ObjectHpp G Box Point) (planes : List (HyperPlane G)) (m : Nat)
    (c : Int) (n_child : Nat) (root_space : Box) (fuel : Nat) (k : Call Box) (t : Node)
    (h : runCall g planes m c n_child root_space (fuel + 1) k = some t) :
    (k.through.length ≤ threshold c ∧ k.level = 0 ∧
      t = Node.mk [] k.through (Payload.info (foldInfo planes m k.above))) ∨
    (k.through.length ≤ threshold c ∧ k.level ≠ 0 ∧ ∃ t',
      runCall g planes m c n_child root_space fuel (nestedCall root_space k) = some t' ∧
      t = Node.mk [] k.through (Payload.tree t')) ∨
    (threshold c < k.through.length ∧ ∃ cs, t = Node.mk cs [] Payload.null ∧
      cs.length = n_child ∧ ∀ i, i < n_child →
        runCall g planes m c n_child root_space fuel (childCall g planes k i) = cs[i]?) := by
  by_cases hleaf : k.through.length ≤ threshold c
  · by_cases hlevel : k.level = 0
    · rw [runCall_summary g planes m c n_child root_space fuel k hleaf hlevel] at h
      exact Or.inl ⟨hleaf, hlevel, (Option.some.inj h).symm⟩
    · rw [runCall_nested g planes m c n_child root_space fuel k hleaf hlevel] at h
      cases hn : runCall g planes m c n_child root_space fuel (nestedCall root_space k) with
      | none => rw [hn] at h; cases h
      | some t' =>
        rw [hn] at h
        exact Or.inr (Or.inl ⟨hleaf, hlevel, t', rfl, (Option.some.inj h).symm⟩)
  · have hsub : threshold c < k.through.length := Nat.lt_of_not_le hleaf
    rw [runCall_internal g planes m c n_child root_space fuel k hsub] at h
    cases hc : collect ((List.range n_child).map (fun i =>
        runCall g planes m c n_child root_space fuel (childCall g planes k i))) with
    | none => rw [hc] at h; cases h
    | some cs =>
      rw [hc] at h
      obtain ⟨hlen, hget⟩ := map_range_eq_map_some n_child _ cs ((collect_eq_some _ cs).mp hc)
      exact Or.inr (Or.inr ⟨hsub, cs, (Option.some.inj h).symm, hlen, hget⟩)

end CallGraphLemmas

section CallGraphLemmas2

variable {G Box Point : Type} [Inhabited G]

theorem map_range_eq_of_getElem? (n : Nat) (f : Nat → Option Node) (cs : List Node)
    (hlen : cs.length = n) (hget : ∀ i, i < n → f i = cs[i]?) :
    (List.range n).map f = cs.map some := by
  apply List.ext_getElem?
  intro i
  rw [List.getElem?_map, List.getElem?_map]
  by_cases hi : i < n
  · rw [List.getElem?_range hi]
    have hi' : i < cs.length := by omega
    simp only [Option.map_some', hget i hi, List.getElem?_eq_getElem hi']
  · have h1 : (List.range n)[i]? = none := List.getElem?_eq_none (by simp; omega)
    have h2 : cs[i]? = none := List.getElem?_eq_none (by omega)
    rw [h1, h2]
    rfl

/-- More fuel does not change what a call of `BuildRecursive` returns. -/
theorem runCall_mono (g : ObjectHpp G Box Point) (planes : List (HyperPlane G)) (m : Nat)
    (c : Int) (n_child : Nat) (root_space : Box) (fuel : Nat) (k : Call Box) (t : Node)
    (h : runCall g planes m c n_child root_space fuel k = some t) :
    runCall g planes m c n_child root_space (fuel + 1) k = some t := by
  induction fuel generalizing k t with
  | zero => rw [runCall_zero] at h; cases h
  | succ fuel ih =>
    rcases runCall_cases g planes m c n_child root_space fuel k t h with
      ⟨hleaf, hlevel, rfl⟩ | ⟨hleaf, hlevel, t', ht', rfl⟩ | ⟨hsub, cs, rfl, hlen, hget⟩
    · exact runCall_summary g planes m c n_child root_space (fuel + 1) k hleaf hlevel
    · rw [runCall_nested g planes m c n_child root_space (fuel + 1) k hleaf hlevel,
        ih _ _ ht']
      rfl
    · rw [runCall_internal g planes m c n_child root_space (fuel + 1) k hsub]
      have hlist : (List.range n_child).map (fun i =>
          runCall g planes m c n_child root_space (fuel + 1) (childCall g planes k i)) =
          cs.map some := by
        apply map_range_eq_of_getElem? n_child _ cs hlen
        intro i hi
        have h1 := hget i hi
        have hi' : i < cs.length := by omega
        rw [List.getElem?_eq_getElem hi'] at h1 ⊢
        exact ih _ _ h1
      rw [(collect_eq_some _ cs).mpr hlist]
      rfl

theorem runCall_mono_le (g : ObjectHpp G Box Point) (planes : List (HyperPlane G)) (m : Nat)
    (c : Int) (n_child : Nat) (root_space : Box) (fuel fuel' : Nat) (hle : fuel ≤ fuel')
    (k : Call Box) (t : Node)
    (h : runCall g planes m c n_child root_space fuel k = some t) :
    runCall g planes m c n_child root_space fuel' k = some t := by
  induction hle with
  | refl => exact h
  | step _ ih => exact runCall_mono g planes m c n_child root_space _ k t ih

/-- A call of line 79 returns the child that the node of the calling call
holds. -/
theorem runCall_child (g : ObjectHpp G Box Point) (planes : List (HyperPlane G)) (m : Nat)
    (c : Int) (n_child : Nat) (root_space : Box) (fuel : Nat) (k : Call Box) (t : Node)
    (h : runCall g planes m c n_child root_space (fuel + 1) k = some t)
    (hsub : threshold c < k.through.length) (i : Nat) (hi : i < n_child) :
    ∃ ch, runCall g planes m c n_child root_space fuel (childCall g planes k i) = some ch ∧
      t.children[i]? = some ch ∧ t.children.length = n_child ∧ t.through_planes = [] ∧
      t.tree_or_info = Payload.null := by
  rcases runCall_cases g planes m c n_child root_space fuel k t h with
    ⟨hleaf, _, _⟩ | ⟨hleaf, _, _⟩ | ⟨_, cs, rfl, hlen, hget⟩
  · omega
  · omega
  · have hi' : i < cs.length := by omega
    refine ⟨cs[i], ?_, ?_, hlen, rfl, rfl⟩
    · rw [hget i hi, List.getElem?_eq_getElem hi']
    · simp only [Node.children]
      exact List.getElem?_eq_getElem hi'

/-- The call of line 67 returns the nested tree that the leaf of the calling
call holds. -/
theorem runCall_nested_tree (g : ObjectHpp G Box Point) (planes : List (HyperPlane G)) (m : Nat)
    (c : Int) (n_child : Nat) (root_space : Box) (fuel : Nat) (k : Call Box) (t : Node)
    (h : runCall g planes m c n_child root_space (fuel + 1) k = some t)
    (hleaf : k.through.length ≤ threshold c) (hlevel : k.level ≠ 0) :
    ∃ t', runCall g planes m c n_child root_space fuel (nestedCall root_space k) = some t' ∧
      t = Node.mk [] k.through (Payload.tree t') := by
  rcases runCall_cases g planes m c n_child root_space fuel k t h with
    ⟨_, h0, _⟩ | ⟨_, _, t', ht', rfl⟩ | ⟨hsub, _⟩
  · exact absurd h0 hlevel
  · exact ⟨t', ht', rfl⟩
  · omega

theorem mem_of_getElem? {α : Type} (l : List α) (i : Nat) (a : α) (h : l[i]? = some a) :
    a ∈ l := by
  obtain ⟨hi, rfl⟩ := List.getElem?_eq_some.mp h
  exact List.getElem_mem _

theorem sub_mk_iff (n : Node) (cs : List Node) (tp : List Nat) (p : Payload) :
    Sub n (Node.mk cs tp p) ↔
      n = Node.mk cs tp p ∨ (∃ ch, ch ∈ cs ∧ Sub n ch) ∨ (∃ t, p = Payload.tree t ∧ Sub n t) := by
  constructor
  · intro h
    cases h with
    | refl => exact Or.inl rfl
    | child ch _ _ _ hmem hs => exact Or.inr (Or.inl ⟨ch, hmem, hs⟩)
    | nested t _ _ hs => exact Or.inr (Or.inr ⟨t, rfl, hs⟩)
  · rintro (rfl | ⟨ch, hmem, hs⟩ | ⟨t, rfl, hs⟩)
    · exact Sub.refl _
    · exact Sub.child n ch cs tp p hmem hs
    · exact Sub.nested n t cs tp hs

/-- Every call that a returning call of `BuildRecursive` leads to returns a
node of the tree. -/
theorem reach_returns (g : ObjectHpp G Box Point) (planes : List (HyperPlane G)) (m : Nat)
    (c : Int) (n_child : Nat) (root_space : Box) (k k' : Call Box)
    (hreach : Reach g planes c n_child root_space k k') :
    ∀ (fuel : Nat) (t : Node), runCall g planes m c n_child root_space fuel k = some t →
      ∃ fuel' t', fuel' ≤ fuel ∧
        runCall g planes m c n_child root_space fuel' k' = some t' ∧ Sub t' t := by
  induction hreach using Relation.ReflTransGen.head_induction_on with
  | refl =>
    intro fuel t h
    exact ⟨fuel, t, le_refl _, h, Sub.refl t⟩
  | @head a b hstep _ ih =>
    intro fuel t h
    cases fuel with
    | zero => rw [runCall_zero] at h; cases h
    | succ fuel =>
      rcases hstep with ⟨hsub, i, hi, rfl⟩ | ⟨hleaf, hlevel, rfl⟩
      · obtain ⟨ch, hch, hget, _, _, _⟩ :=
          runCall_child g planes m c n_child root_space fuel a t h hsub i hi
        obtain ⟨fuel', t', hle, hrun, hsubt⟩ := ih fuel ch hch
        refine ⟨fuel', t', by omega, hrun, ?_⟩
        cases t with
        | mk cs tp p =>
          exact Sub.child t' ch cs tp p (mem_of_getElem? cs i ch hget) hsubt
      · obtain ⟨tn, htn, rfl⟩ :=
          runCall_nested_tree g planes m c n_child root_space fuel a t h hleaf hlevel
        obtain ⟨fuel', t', hle, hrun, hsubt⟩ := ih fuel tn htn
        exact ⟨fuel', t', by omega, hrun, Sub.nested t' tn [] a.through hsubt⟩

/-- Every node of the tree that a call of `BuildRecursive` returns is returned
by a call that it leads to. -/
theorem sub_called (g : ObjectHpp G Box Point) (planes : List (HyperPlane G)) (m : Nat)
    (c : Int) (n_child : Nat) (root_space : Box) (fuel : Nat) (k : Call Box) (t t' : Node)
    (h : runCall g planes m c n_child root_space fuel k = some t) (hsubt : Sub t' t) :
    ∃ k' fuel', fuel' ≤ fuel ∧ Reach g planes c n_child root_space k k' ∧
      runCall g planes m c n_child root_space fuel' k' = some t' := by
  induction fuel generalizing k t with
  | zero => rw [runCall_zero] at h; cases h
  | succ fuel ih =>
    rcases runCall_cases g planes m c n_child root_space fuel k t h with
      ⟨hleaf, hlevel, rfl⟩ | ⟨hleaf, hlevel, tn, htn, rfl⟩ | ⟨hsub, cs, rfl, hlen, hget⟩
    · rcases (sub_mk_iff _ _ _ _).mp hsubt with rfl | ⟨ch, hmem, _⟩ | ⟨x, hx, _⟩
      · exact ⟨k, fuel + 1, le_refl _, Relation.ReflTransGen.refl, h⟩
      · cases hmem
      · cases hx
    · rcases (sub_mk_iff _ _ _ _).mp hsubt with rfl | ⟨ch, hmem, _⟩ | ⟨x, hx, hs⟩
      · exact ⟨k, fuel + 1, le_refl _, Relation.ReflTransGen.refl, h⟩
      · cases hmem
      · cases hx
        obtain ⟨k', fuel', hle, hreach, hrun⟩ := ih _ _ htn hs
        refine ⟨k', fuel', by omega, ?_, hrun⟩
        exact Relation.ReflTransGen.head (Or.inr ⟨hleaf, hlevel, rfl⟩) hreach
    · rcases (sub_mk_iff _ _ _ _).mp hsubt with rfl | ⟨ch, hmem, hs⟩ | ⟨x, hx, _⟩
      · exact ⟨k, fuel + 1, le_refl _, Relation.ReflTransGen.refl, h⟩
      · obtain ⟨i, hi, rfl⟩ := List.getElem_of_mem hmem
        have hi' : i < n_child := by omega
        have hrun := hget i hi'
        rw [List.getElem?_eq_getElem hi] at hrun
        obtain ⟨k', fuel', hle, hreach, hrun'⟩ := ih _ _ hrun hs
        refine ⟨k', fuel', by omega, ?_, hrun'⟩
        exact Relation.ReflTransGen.head (Or.inl ⟨hsub, i, hi', rfl⟩) hreach
      · cases hx

end CallGraphLemmas2

section Levels

variable {G Box Point : Type} [Inhabited G]

theorem runCall_levelled (g : ObjectHpp G Box Point) (planes : List (HyperPlane G)) (m : Nat)
    (c : Int) (n_child : Nat) (hn : 0 < n_child) (root_space : Box) (fuel : Nat) (k : Call Box)
    (t : Node) (h : runCall g planes m c n_child root_space fuel k = some t) :
    Levelled k.level t := by
  induction fuel generalizing k t with
  | zero => rw [runCall_zero] at h; cases h
  | succ fuel ih =>
    rcases runCall_cases g planes m c n_child root_space fuel k t h with
      ⟨_, hlevel, rfl⟩ | ⟨_, hlevel, tn, htn, rfl⟩ | ⟨_, cs, rfl, hlen, hget⟩
    · rw [hlevel]
      exact Levelled.summary _ _
    · have hl : k.level = (k.level - 1) + 1 := by omega
      rw [hl]
      exact Levelled.nested _ _ _ (ih (nestedCall root_space k) _ htn)
    · cases cs with
      | nil => simp at hlen; omega
      | cons ch cs =>
        apply Levelled.internal
        intro x hx
        obtain ⟨i, hi, rfl⟩ := List.getElem_of_mem hx
        have hrun := hget i (by omega)
        rw [List.getElem?_eq_getElem hi] at hrun
        exact ih (childCall g planes k i) _ hrun

theorem levelled_path (L : Nat) (t : Node) (h : Levelled L t) :
    ∀ j, PathToSummary t j → j = L := by
  induction h with
  | summary tp info =>
    intro j hp
    cases hp with
    | summary => rfl
    | child _ _ _ _ _ hmem _ => cases hmem
  | nested L tp t _ ih =>
    intro j hp
    cases hp with
    | nested j' _ _ hp' => rw [ih j' hp']
    | child _ _ _ _ _ hmem _ => cases hmem
  | internal L ch cs _ ih =>
    intro j hp
    cases hp with
    | child _ x _ _ _ hmem hp' => exact ih x hmem j hp'

theorem levelled_leaf (L : Nat) (t : Node) (h : Levelled L t) (hleaf : t.children = []) :
    (L = 0 → ∃ info, t.tree_or_info = Payload.info info) ∧
      (L ≠ 0 → ∃ t', t.tree_or_info = Payload.tree t' ∧ Levelled (L - 1) t') := by
  cases h with
  | summary tp info => exact ⟨fun _ => ⟨info, rfl⟩, fun h => absurd rfl h⟩
  | nested L tp t' h' =>
    exact ⟨fun h => by omega, fun _ => ⟨t', rfl, by simpa using h'⟩⟩
  | internal L ch cs _ => simp [Node.children] at hleaf

theorem runCall_leaf_iff (g : ObjectHpp G Box Point) (planes : List (HyperPlane G)) (m : Nat)
    (c : Int) (n_child : Nat) (hn : 0 < n_child) (root_space : Box) (fuel : Nat) (k : Call Box)
    (t : Node) (h : runCall g planes m c n_child root_space fuel k = some t) :
    (t.children = [] ↔ k.through.length ≤ threshold c) ∧
      (k.through.length ≤ threshold c → t.through_planes = k.through) ∧
      (threshold c < k.through.length → t.children.length = n_child ∧
        t.through_planes = [] ∧ t.tree_or_info = Payload.null) := by
  cases fuel with
  | zero => rw [runCall_zero] at h; cases h
  | succ fuel =>
    rcases runCall_cases g planes m c n_child root_space fuel k t h with
      ⟨hleaf, _, rfl⟩ | ⟨hleaf, _, tn, _, rfl⟩ | ⟨hsub, cs, rfl, hlen, _⟩
    · exact ⟨⟨fun _ => hleaf, fun _ => rfl⟩, fun _ => rfl, fun h => by omega⟩
    · exact ⟨⟨fun _ => hleaf, fun _ => rfl⟩, fun _ => rfl, fun h => by omega⟩
    · refine ⟨⟨fun h0 => ?_, fun h0 => by omega⟩, fun h0 => by omega, fun _ => ⟨hlen, rfl, rfl⟩⟩
      simp only [Node.children] at h0
      rw [h0] at hlen
      simp at hlen
      omega

theorem Build_runCall (g : ObjectHpp G Box Point) (m : Nat) (c : Int) (fuel : Nat)
    (planes : List (HyperPlane G)) (space : Box) (tree : Tree G Box)
    (hb : Build g m c fuel planes space = some tree) :
    runCall g planes m c (2 ^ g.Dim) space fuel (rootCall g planes space) = some tree.root := by
  unfold Build at hb
  unfold runCall rootCall
  split at hb
  · next root hroot =>
    cases hb
    exact hroot
  · cases hb

end Levels

section TreeOfCalls

variable {G Box Point : Type} [Inhabited G]

theorem partitionLoop_eq (g : ObjectHpp G Box Point) (planes : List (HyperPlane G))
    (subspace : Box) (through above subthrough : List Nat) (n : Nat) :
    partitionLoop g planes subspace through (above, subthrough, n) =
      (above ++ subAbove g planes subspace through,
        subthrough ++ subThrough g planes subspace through,
        n + (subAbove g planes subspace through).length) := by
  induction through generalizing above subthrough n with
  | nil => simp [partitionLoop, subAbove, subThrough]
  | cons p rest ih =>
    unfold partitionLoop
    by_cases hA : g.Above (planeAt planes p) subspace = true
    · rw [if_pos hA, ih]
      simp [subAbove, subThrough, hA, List.filter_cons]
      omega
    · by_cases hI : g.Intersect (planeAt planes p) subspace = true
      · rw [if_neg hA, if_pos hI, ih]
        simp [subAbove, subThrough, hA, hI, List.filter_cons]
      · rw [if_neg hA, if_neg hI, ih]
        simp [subAbove, subThrough, hA, hI, List.filter_cons]

theorem popBack_append (above pushed : List Nat) :
    popBack pushed.length (above ++ pushed) = above := by
  generalize hn : pushed.length = n
  induction n generalizing pushed with
  | zero =>
    have : pushed = [] := List.length_eq_zero.mp hn
    subst this
    simp [popBack]
  | succ n ih =>
    have hne : pushed ≠ [] := by
      intro h
      rw [h] at hn
      simp at hn
    unfold popBack
    rw [List.dropLast_append_of_ne_nil _ hne]
    apply ih
    simp [List.length_dropLast, hn]

/-- The vector `above` is the same before every iteration of the loop of lines
71-81: child `i` is called with `above` followed by the members of `through`
above its sub-box, and with the members of `through` that are not above its
sub-box and intersect it. -/
theorem childrenLoop_eq (g : ObjectHpp G Box Point) (planes : List (HyperPlane G)) (space : Box)
    (through : List Nat) (call : Box → List Nat → List Nat → Option Node)
    (indices above : List Nat) :
    childrenLoop g planes space through call indices above =
      collect (indices.map (fun i => call (g.GetSubSpace space i)
        (above ++ subAbove g planes (g.GetSubSpace space i) through)
        (subThrough g planes (g.GetSubSpace space i) through))) := by
  induction indices with
  | nil => rfl
  | cons i rest ih =>
    unfold childrenLoop
    simp only [partitionLoop_eq, List.nil_append, Nat.zero_add, popBack_append, List.map_cons]
    cases call (g.GetSubSpace space i)
        (above ++ subAbove g planes (g.GetSubSpace space i) through)
        (subThrough g planes (g.GetSubSpace space i) through) with
    | none => rfl
    | some ch =>
      simp only [collect]
      rw [ih]

theorem childOf_through (g : ObjectHpp G Box Point) (planes : List (HyperPlane G)) (c : Int)
    (n_child : Nat) (b a : Call Box) (h : ChildOf g planes c n_child b a) (p : Nat)
    (hp : p ∈ a.through) :
    p ∈ b.through ∧ g.Above (planeAt planes p) a.space = false ∧
      g.Intersect (planeAt planes p) a.space = true := by
  obtain ⟨_, i, _, rfl⟩ := h
  simp only [childCall, subThrough, List.mem_filter, Bool.and_eq_true, Bool.not_eq_true'] at hp
  exact ⟨hp.1, hp.2.1, hp.2.2⟩

theorem childOf_above (g : ObjectHpp G Box Point) (planes : List (HyperPlane G)) (c : Int)
    (n_child : Nat) (b a : Call Box) (h : ChildOf g planes c n_child b a) (p : Nat)
    (hp : p ∈ a.above) :
    p ∈ b.above ∨ (p ∈ b.through ∧ g.Above (planeAt planes p) a.space = true) := by
  obtain ⟨_, i, _, rfl⟩ := h
  simp only [childCall, subAbove, List.mem_append, List.mem_filter] at hp
  exact hp

theorem inTree_through (g : ObjectHpp G Box Point) (planes : List (HyperPlane G)) (c : Int)
    (n_child : Nat) (a k : Call Box) (h : InTree g planes c n_child a k) (p : Nat)
    (hp : p ∈ k.through) : p ∈ a.through := by
  induction h with
  | refl => exact hp
  | tail _ hstep ih => exact ih (childOf_through g planes c n_child _ _ hstep p hp).1

theorem inTree_level (g : ObjectHpp G Box Point) (planes : List (HyperPlane G)) (c : Int)
    (n_child : Nat) (a k : Call Box) (h : InTree g planes c n_child a k) :
    k.level = a.level := by
  induction h with
  | refl => rfl
  | tail _ hstep ih =>
    obtain ⟨_, i, _, rfl⟩ := hstep
    exact ih

theorem inTree_reach (g : ObjectHpp G Box Point) (planes : List (HyperPlane G)) (c : Int)
    (n_child : Nat) (root_space : Box) (a k : Call Box) (h : InTree g planes c n_child a k) :
    Reach g planes c n_child root_space a k :=
  Relation.ReflTransGen.mono (fun _ _ hab => Or.inl hab) h

/-- A boundary in the `above` vector of a call was in the `above` vector at the
root of its tree, or is above the box of a call on the way from the root. -/
theorem inTree_above (g : ObjectHpp G Box Point) (planes : List (HyperPlane G)) (c : Int)
    (n_child : Nat) (r k : Call Box) (h : InTree g planes c n_child r k) (p : Nat)
    (hp : p ∈ k.above) :
    p ∈ r.above ∨ ∃ b a, InTree g planes c n_child r b ∧ ChildOf g planes c n_child b a ∧
      InTree g planes c n_child a k ∧ p ∈ b.through ∧
      g.Above (planeAt planes p) a.space = true := by
  induction h with
  | refl => exact Or.inl hp
  | @tail b k hrb hstep ih =>
    rcases childOf_above g planes c n_child b k hstep p hp with hb | ⟨hbt, habove⟩
    · rcases ih hb with h0 | ⟨b', a', h1, h2, h3, h4, h5⟩
      · exact Or.inl h0
      · exact Or.inr ⟨b', a', h1, h2, Relation.ReflTransGen.tail h3 hstep, h4, h5⟩
    · exact Or.inr ⟨b, k, hrb, hstep, Relation.ReflTransGen.refl, hbt, habove⟩

/-- A call that a call leads to is in the tree of that call or in a nested
tree. -/
theorem reach_decompose (g : ObjectHpp G Box Point) (planes : List (HyperPlane G)) (c : Int)
    (n_child : Nat) (root_space : Box) (r k : Call Box)
    (h : Reach g planes c n_child root_space r k) :
    InTree g planes c n_child r k ∨ ∃ b r', Reach g planes c n_child root_space r b ∧
      NestedOf c root_space b r' ∧ InTree g planes c n_child r' k := by
  induction h with
  | refl => exact Or.inl Relation.ReflTransGen.refl
  | @tail b k hrb hstep ih =>
    rcases hstep with hchild | hnested
    · rcases ih with h0 | ⟨b', r', h1, h2, h3⟩
      · exact Or.inl (Relation.ReflTransGen.tail h0 hchild)
      · exact Or.inr ⟨b', r', h1, h2, Relation.ReflTransGen.tail h3 hchild⟩
    · exact Or.inr ⟨b, k, hrb, hnested, Relation.ReflTransGen.refl⟩

end TreeOfCalls

/-! ## Claims about the shape of the tree -/

/-- In the reading of the header, in which a leaf at level 0 stores its `Info`:
in the tree that a call of `BuildRecursive` with remaining level `L` returns, every leaf is returned by a call that the first call leads to; when
that call has remaining level 0 the leaf holds the Leaf Summary of its `above`
vector and no nested tree, and otherwise it holds the tree that
`BuildRecursive` returns for the whole space, an empty `above`, the `above`
vector of the leaf as `through` and one level less, and no Leaf Summary.  Every
way from the root to a Leaf Summary passes exactly `L` leaves that hold a
nested tree, and `L` is `2 ^ (Dim - 1) - 1` for the tree of `Build`. -/
theorem leaf_payload_by_level {G Box Point : Type} [Inhabited G]
    (g : ObjectHpp G Box Point) (planes : List (HyperPlane G)) (m : Nat) (c : Int) :
    (∀ (n_child : Nat) (root_space : Box) (fuel : Nat) (k : Call Box) (t : Node),
      0 < n_child → runCall g planes m c n_child root_space fuel k = some t →
      Levelled k.level t ∧
      (∀ j, PathToSummary t j → j = k.level) ∧
      (∀ n, Sub n t → n.children = [] →
        ∃ k' fuel', Reach g planes c n_child root_space k k' ∧
          runCall g planes m c n_child root_space fuel' k' = some n ∧
          (k'.level = 0 →
            n = Node.mk [] k'.through (Payload.info (foldInfo planes m k'.above))) ∧
          (k'.level ≠ 0 → ∃ t' fuel'',
            n = Node.mk [] k'.through (Payload.tree t') ∧
            BuildRecursive g planes m c n_child root_space fuel'' root_space [] k'.above 1
              (k'.level - 1) = some t'))) ∧
    (∀ (fuel : Nat) (space : Box) (tree : Tree G Box),
      Build g m c fuel planes space = some tree →
      Levelled (2 ^ (g.Dim - 1) - 1) tree.root ∧
      ∀ j, PathToSummary tree.root j → j = 2 ^ (g.Dim - 1) - 1) := by
  constructor
  · intro n_child root_space fuel k t hn h
    have hlev := runCall_levelled g planes m c n_child hn root_space fuel k t h
    refine ⟨hlev, levelled_path _ _ hlev, ?_⟩
    intro n hsub hleaf
    obtain ⟨k', fuel', _, hreach, hrun⟩ :=
      sub_called g planes m c n_child root_space fuel k t n h hsub
    refine ⟨k', fuel', hreach, hrun, ?_⟩
    have hthr := (runCall_leaf_iff g planes m c n_child hn root_space fuel' k' n hrun).1.mp hleaf
    cases fuel' with
    | zero => rw [runCall_zero] at hrun; cases hrun
    | succ fuel' =>
      rcases runCall_cases g planes m c n_child root_space fuel' k' n hrun with
        ⟨_, hlevel, rfl⟩ | ⟨_, hlevel, tn, htn, rfl⟩ | ⟨hs, _⟩
      · exact ⟨fun _ => rfl, fun h0 => absurd hlevel h0⟩
      · exact ⟨fun h0 => absurd h0 hlevel, fun _ => ⟨tn, fuel', rfl, htn⟩⟩
      · omega
  · intro fuel space tree hb
    have hrun := Build_runCall g m c fuel planes space tree hb
    have hlev := runCall_levelled g planes m c (2 ^ g.Dim) (Nat.pow_pos (by decide)) space fuel
      (rootCall g planes space) tree.root hrun
    exact ⟨hlev, levelled_path _ _ hlev⟩


/-- C13 as stated fails: for one boundary above the space, with `Dim = 2` and
`c = 1`, the root leaf of the nested tree has that boundary in its `through`
list, and the boundary is above the box of that leaf, the whole space, and does
not cross it. -/
theorem nested_root_through_is_above :
    (Build (pathGeom 2) 1 1 2 (planesSingle 0) []).map Tree.root =
        some (Node.mk [] [] (Payload.tree
          (Node.mk [] [0] (Payload.info (foldInfo (planesSingle 0) 1 []))))) ∧
      runCall (pathGeom 2) (planesSingle 0) 1 1 4 [] 1
          (nestedCall [] (rootCall (pathGeom 2) (planesSingle 0) [])) =
        some (Node.mk [] [0] (Payload.info (foldInfo (planesSingle 0) 1 []))) ∧
      (nestedCall ([] : List Nat) (rootCall (pathGeom 2) (planesSingle 0) [])).space = [] ∧
      (pathGeom 2).Above (planeAt (planesSingle 0) 0) [] = true ∧
      crosses (pathGeom 2) (planesSingle 0) [] 0 = false := by
  refine ⟨?_, ?_, ?_, ?_, ?_⟩
  · simp [Build, BuildRecursive, pathGeom, planesSingle, rootAbove, rootThrough, threshold,
      topLevel, planeAt, List.range, List.range.loop]
  · simp [runCall, nestedCall, rootCall, BuildRecursive, pathGeom, planesSingle, rootAbove,
      rootThrough, threshold, topLevel, planeAt, List.range, List.range.loop]
  · rfl
  · decide
  · decide

/-- C13, amended: a boundary in the `through` vector of a call was in the
`through` vector of every call above it in its tree, and is not above and
intersects the box of every such call other than the root of the tree, the box
of the call itself included.  The boundaries in the `through` vector of the call
of `Build` are not above the space and intersect it.  The `through` vector at
the root of a nested tree is the `above` vector of the leaf that holds the
tree, taken without a test against the space.  Every leaf of the tree of
`Build` is returned by a call in the outer tree or in a nested tree, with the
`through` vector of that call as its `through` list. -/
theorem leaf_through_crosses {G Box Point : Type} [Inhabited G]
    (g : ObjectHpp G Box Point) (planes : List (HyperPlane G)) (m : Nat) (c : Int) :
    (∀ (n_child : Nat) (b a k : Call Box), ChildOf g planes c n_child b a →
      InTree g planes c n_child a k → ∀ p ∈ k.through,
        p ∈ b.through ∧ g.Above (planeAt planes p) a.space = false ∧
          g.Intersect (planeAt planes p) a.space = true) ∧
    (∀ (space : Box), ∀ p ∈ (rootCall g planes space).through,
      g.Above (planeAt planes p) space = false ∧ g.Intersect (planeAt planes p) space = true) ∧
    (∀ (root_space : Box) (b r : Call Box), NestedOf c root_space b r →
      r.space = root_space ∧ r.through = b.above ∧ r.above = []) ∧
    (∀ (fuel : Nat) (space : Box) (tree : Tree G Box),
      Build g m c fuel planes space = some tree →
      ∀ n, Sub n tree.root → n.children = [] →
        ∃ r k fuel', (r = rootCall g planes space ∨
            ∃ b, Reach g planes c (2 ^ g.Dim) space (rootCall g planes space) b ∧
              NestedOf c space b r) ∧
          InTree g planes c (2 ^ g.Dim) r k ∧
          runCall g planes m c (2 ^ g.Dim) space fuel' k = some n ∧
          n.through_planes = k.through) := by
  refine ⟨?_, ?_, ?_, ?_⟩
  · intro n_child b a k hchild htree p hp
    exact childOf_through g planes c n_child b a hchild p
      (inTree_through g planes c n_child a k htree p hp)
  · intro space p hp
    simp only [rootCall, rootThrough, List.mem_filter, Bool.and_eq_true,
      Bool.not_eq_true'] at hp
    exact hp.2
  · rintro root_space b r ⟨_, _, rfl⟩
    exact ⟨rfl, rfl, rfl⟩
  · intro fuel space tree hb n hsub hleaf
    have hrun := Build_runCall g m c fuel planes space tree hb
    obtain ⟨k, fuel', _, hreach, hk⟩ :=
      sub_called g planes m c (2 ^ g.Dim) space fuel _ _ n hrun hsub
    have hthr := runCall_leaf_iff g planes m c (2 ^ g.Dim) (Nat.pow_pos (by decide)) space
      fuel' k n hk
    have htp := hthr.2.1 (hthr.1.mp hleaf)
    rcases reach_decompose g planes c (2 ^ g.Dim) space _ _ hreach with h0 | ⟨b, r, h1, h2, h3⟩
    · exact ⟨rootCall g planes space, k, fuel', Or.inl rfl, h0, hk, htp⟩
    · exact ⟨r, k, fuel', Or.inr ⟨b, h1, h2⟩, h3, hk, htp⟩

/-- C14: the loop of lines 71-81 calls `BuildRecursive` for child `i` with the
`above` vector of the node followed by the members of `through` that are above
sub-box `i`, in the order of `through`, and with the members of `through` that
are not above sub-box `i` and intersect it; what is pushed for one child is
popped before the next.  Hence a boundary in the `above` vector of a call was
in the `above` vector at the root of its tree or was, at a call on the way from
the root, a member of `through` above the box of the next call. -/
theorem child_call_arguments {G Box Point : Type} [Inhabited G]
    (g : ObjectHpp G Box Point) (planes : List (HyperPlane G)) (m : Nat) (c : Int)
    (n_child : Nat) (root_space : Box) :
    (∀ (space : Box) (through : List Nat) (call : Box → List Nat → List Nat → Option Node)
      (above : List Nat),
      childrenLoop g planes space through call (List.range n_child) above =
        collect ((List.range n_child).map (fun i => call (g.GetSubSpace space i)
          (above ++ through.filter (fun p => g.Above (planeAt planes p) (g.GetSubSpace space i)))
          (through.filter (fun p => !g.Above (planeAt planes p) (g.GetSubSpace space i) &&
            g.Intersect (planeAt planes p) (g.GetSubSpace space i)))))) ∧
    (∀ (fuel : Nat) (space : Box) (above through : List Nat) (depth level : Nat),
      threshold c < through.length →
      BuildRecursive g planes m c n_child root_space (fuel + 1) space above through depth level =
        (childrenLoop g planes space through
          (fun b a t => BuildRecursive g planes m c n_child root_space fuel b a t (depth + 1) level)
          (List.range n_child) above).map (fun cs => Node.mk cs [] Payload.null)) ∧
    (∀ (r k : Call Box), InTree g planes c n_child r k → ∀ p ∈ k.above,
      p ∈ r.above ∨ ∃ b a, InTree g planes c n_child r b ∧ ChildOf g planes c n_child b a ∧
        InTree g planes c n_child a k ∧ p ∈ b.through ∧
        g.Above (planeAt planes p) a.space = true) := by
  refine ⟨?_, ?_, ?_⟩
  · intro space through call above
    exact childrenLoop_eq g planes space through call (List.range n_child) above
  · intro fuel space above through depth level hsub
    rw [BuildRecursive_succ, if_neg (Nat.not_le.mpr hsub), childrenLoop_eq]
    cases collect ((List.range n_child).map (fun i =>
      BuildRecursive g planes m c n_child root_space fuel (g.GetSubSpace space i)
        (above ++ subAbove g planes (g.GetSubSpace space i) through)
        (subThrough g planes (g.GetSubSpace space i) through) (depth + 1) level)) <;> rfl
  · intro r k h p hp
    exact inTree_above g planes c n_child r k h p hp

section LeafThreshold

variable {G Box Point : Type} [Inhabited G]

end LeafThreshold

section ClosedForm

variable {G : Type} [Inhabited G]

theorem Info.eq_of_fields (a b : Info) (h1 : a.sigma = b.sigma) (h2 : a.beta = b.beta)
    (h3 : a.xi = b.xi) : a = b := by
  cases a
  cases b
  simp only at h1 h2 h3
  rw [h1, h2, h3]

theorem dmul_some_comm (a : Double) (x y : ℚ) :
    dmul (dmul a (some x)) (some y) = dmul (dmul a (some y)) (some x) :=
  dmul_right_comm a (some x) (some y)

/-- Two iterations of the loop of lines 54-64 can be exchanged when the two
boundaries belong to different objects or have the same object and weight. -/
theorem foldStep_comm (planes : List (HyperPlane G)) (info : Info) (p q : Nat)
    (h : (planeAt planes p).obj_id = (planeAt planes q).obj_id →
      (planeAt planes p).prob = (planeAt planes q).prob) :
    foldStep planes (foldStep planes info p) q = foldStep planes (foldStep planes info q) p := by
  by_cases ho : (planeAt planes p).obj_id = (planeAt planes q).obj_id
  · have hw := h ho
    have hstep : ∀ i : Info, foldStep planes i p = foldStep planes i q := by
      intro i
      unfold foldStep
      simp only [ho, hw]
    rw [hstep, hstep]
  · have hpq : sigmaAt (foldStep planes info p).sigma (planeAt planes q).obj_id =
        sigmaAt info.sigma (planeAt planes q).obj_id := by
      rw [foldStep_sigma, sigmaAt_set, if_neg (fun hc => ho hc.1)]
    have hqp : sigmaAt (foldStep planes info q).sigma (planeAt planes p).obj_id =
        sigmaAt info.sigma (planeAt planes p).obj_id := by
      rw [foldStep_sigma, sigmaAt_set, if_neg (fun hc => ho hc.1.symm)]
    apply Info.eq_of_fields
    · rw [foldStep_sigma planes (foldStep planes info p) q, hpq,
        foldStep_sigma planes (foldStep planes info q) p, hqp, foldStep_sigma, foldStep_sigma]
      exact List.set_comm _ _ _ ho
    · have hb : ∀ (i : Info) (r : Nat), (foldStep planes i r).beta =
          dmul i.beta (if sigmaAt i.sigma (planeAt planes r).obj_id + 1 = (planeAt planes r).prob
            then some ((planeAt planes r).prob : ℚ)
            else ddiv (some (((planeAt planes r).prob : ℚ) -
              (sigmaAt i.sigma (planeAt planes r).obj_id : ℚ) - 1))
              (((planeAt planes r).prob : ℚ) -
                (sigmaAt i.sigma (planeAt planes r).obj_id : ℚ))) := by
        intro i r
        unfold foldStep
        by_cases hc : sigmaAt i.sigma (planeAt planes r).obj_id + 1 = (planeAt planes r).prob
        · simp [hc]
        · simp [hc]
      rw [hb (foldStep planes info p) q, hpq, hb (foldStep planes info q) p, hqp, hb, hb]
      exact dmul_right_comm _ _ _
    · rw [foldStep_xi planes (foldStep planes info p) q, hpq,
        foldStep_xi planes (foldStep planes info q) p, hqp, foldStep_xi, foldStep_xi]
      ring

/-- The Leaf Summary does not depend on the order of `above` when the members
of one object have one weight. -/
theorem foldInfo_perm (planes : List (HyperPlane G)) (m : Nat) (above above' : List Nat)
    (hperm : above'.Perm above)
    (hW : ∀ p ∈ above, ∀ q ∈ above, (planeAt planes p).obj_id = (planeAt planes q).obj_id →
      (planeAt planes p).prob = (planeAt planes q).prob) :
    foldInfo planes m above' = foldInfo planes m above := by
  unfold foldInfo
  apply List.Perm.foldl_eq' hperm
  intro x hx y hy z
  exact foldStep_comm planes z x y (hW x (hperm.subset hx) y (hperm.subset hy))

theorem occurrences_append_singleton (planes : List (HyperPlane G)) (pre : List Nat) (p o : Nat) :
    occurrences planes (pre ++ [p]) o =
      occurrences planes pre o + if (planeAt planes p).obj_id = o then 1 else 0 := by
  unfold occurrences
  rw [List.countP_append, List.countP_singleton]
  simp

theorem foldInfo_append_singleton (planes : List (HyperPlane G)) (m : Nat) (pre : List Nat)
    (p : Nat) :
    foldInfo planes m (pre ++ [p]) = foldStep planes (foldInfo planes m pre) p := by
  unfold foldInfo
  rw [List.foldl_append]
  rfl

theorem foldInfo_sigmaAt (planes : List (HyperPlane G)) (m : Nat) (above : List Nat) (o : Nat)
    (ho : o < m) :
    sigmaAt (foldInfo planes m above).sigma o = (occurrences planes above o : Int) := by
  unfold foldInfo occurrences
  rw [foldl_sigmaAt planes above _ o (by rw [init_sigma_length]; exact ho), init_sigmaAt]
  simp

theorem contribution_ne_zero (w : Int) (k : Nat) (h : (k : Int) < w) : contribution w k ≠ 0 := by
  unfold contribution
  by_cases h0 : k = 0
  · simp [h0]
  · have hk : (k : Int) ≠ w := ne_of_lt h
    rw [if_neg h0, if_neg hk]
    have hw : (w : ℚ) ≠ 0 := by
      have : (0 : Int) < w := lt_of_le_of_lt (Int.natCast_nonneg k) h
      exact_mod_cast ne_of_gt this
    have hd : (w : ℚ) - (k : ℚ) ≠ 0 := by
      have : ((k : Int) : ℚ) < (w : ℚ) := by exact_mod_cast h
      have h2 : ((k : Int) : ℚ) = (k : ℚ) := by norm_cast
      rw [h2] at this
      exact sub_ne_zero.mpr (ne_of_gt this)
    exact div_ne_zero hd hw

/-- One iteration multiplies `beta` by the quotient of the contributions of the
object of the folded boundary after and before. -/
theorem contribution_step (w : Int) (s : Nat) (hs : (s : Int) + 1 ≤ w) :
    (if (s : Int) + 1 = w then contribution w s * (w : ℚ)
      else contribution w s * (((w : ℚ) - (s : ℚ) - 1) / ((w : ℚ) - (s : ℚ)))) =
      contribution w (s + 1) := by
  have hw : (w : ℚ) ≠ 0 := by
    have : (0 : Int) < w := by omega
    exact_mod_cast ne_of_gt this
  have hd : (w : ℚ) - (s : ℚ) ≠ 0 := by
    have : ((s : Int) : ℚ) < (w : ℚ) := by exact_mod_cast (by omega : (s : Int) < w)
    have h2 : ((s : Int) : ℚ) = (s : ℚ) := by norm_cast
    rw [h2] at this
    exact sub_ne_zero.mpr (ne_of_gt this)
  have hsw : (s : Int) ≠ w := by omega
  by_cases hsat : (s : Int) + 1 = w
  · rw [if_pos hsat]
    have h1 : contribution w (s + 1) = 1 := by
      unfold contribution
      rw [if_neg (Nat.succ_ne_zero s), if_pos (by push_cast; exact hsat)]
    rw [h1]
    unfold contribution
    by_cases h0 : s = 0
    · subst h0
      simp at hsat
      rw [if_pos rfl, ← hsat]
      norm_num
    · rw [if_neg h0, if_neg hsw]
      have hws : (w : ℚ) - (s : ℚ) = 1 := by
        have : (w : ℚ) = (s : ℚ) + 1 := by
          rw [← hsat]
          push_cast
          ring
        rw [this]
        ring
      rw [hws]
      field_simp
  · rw [if_neg hsat]
    have h1 : contribution w (s + 1) = ((w : ℚ) - ((s : ℚ) + 1)) / (w : ℚ) := by
      unfold contribution
      rw [if_neg (Nat.succ_ne_zero s), if_neg (by push_cast; exact hsat)]
      push_cast
      rfl
    rw [h1]
    unfold contribution
    by_cases h0 : s = 0
    · subst h0
      rw [if_pos rfl]
      simp
    · rw [if_neg h0, if_neg hsw]
      field_simp
      ring

end ClosedForm

section ClosedForm2

variable {G : Type} [Inhabited G]

theorem foldStep_beta (planes : List (HyperPlane G)) (info : Info) (p : Nat) :
    (foldStep planes info p).beta =
      dmul info.beta (if sigmaAt info.sigma (planeAt planes p).obj_id + 1 = (planeAt planes p).prob
        then some ((planeAt planes p).prob : ℚ)
        else ddiv (some (((planeAt planes p).prob : ℚ) -
          (sigmaAt info.sigma (planeAt planes p).obj_id : ℚ) - 1))
          (((planeAt planes p).prob : ℚ) -
            (sigmaAt info.sigma (planeAt planes p).obj_id : ℚ))) := by
  unfold foldStep
  by_cases hc : sigmaAt info.sigma (planeAt planes p).obj_id + 1 = (planeAt planes p).prob
  · simp [hc]
  · simp [hc]

theorem contribution_zero (w : Int) : contribution w 0 = 1 := by
  simp [contribution]

/-- The closed form of `beta` and `xi` after the loop of lines 54-64. -/
theorem foldInfo_closed (planes : List (HyperPlane G)) (m : Nat) (W : Nat → Int)
    (l : List Nat)
    (hm : ∀ p ∈ l, (planeAt planes p).obj_id < m)
    (hW : ∀ p ∈ l, (planeAt planes p).prob = W (planeAt planes p).obj_id)
    (hk : ∀ p ∈ l, (occurrences planes l (planeAt planes p).obj_id : Int) ≤
      W (planeAt planes p).obj_id) :
    (foldInfo planes m l).beta =
        some (∏ o ∈ Finset.range m, contribution (W o) (occurrences planes l o)) ∧
      (foldInfo planes m l).xi =
        ∑ o ∈ Finset.range m,
          if 0 < occurrences planes l o ∧ (occurrences planes l o : Int) = W o then (1 : Int)
          else 0 := by
  induction l using List.reverseRecOn with
  | nil =>
    constructor
    · simp [foldInfo, Info.init, occurrences, contribution_zero]
    · simp [foldInfo, Info.init, occurrences]
  | append_singleton pre p ih =>
    have hocc : ∀ o, occurrences planes (pre ++ [p]) o =
        occurrences planes pre o + if (planeAt planes p).obj_id = o then 1 else 0 :=
      occurrences_append_singleton planes pre p
    have hpre := ih (fun q hq => hm q (List.mem_append_left _ hq))
      (fun q hq => hW q (List.mem_append_left _ hq))
      (fun q hq => by
        have h1 := hk q (List.mem_append_left _ hq)
        rw [hocc] at h1
        push_cast at h1
        have : (0 : Int) ≤ ((if (planeAt planes p).obj_id = (planeAt planes q).obj_id
            then (1 : Nat) else 0 : Nat) : Int) := Int.natCast_nonneg _
        push_cast at this
        omega)
    have hp_mem : p ∈ pre ++ [p] := by simp
    have ho : (planeAt planes p).obj_id < m := hm p hp_mem
    have hw : (planeAt planes p).prob = W (planeAt planes p).obj_id := hW p hp_mem
    have hs : (occurrences planes pre (planeAt planes p).obj_id : Int) + 1 ≤
        W (planeAt planes p).obj_id := by
      have h1 := hk p hp_mem
      rw [hocc, if_pos rfl] at h1
      push_cast at h1
      exact h1
    have hsig := foldInfo_sigmaAt planes m pre (planeAt planes p).obj_id ho
    have hmem : (planeAt planes p).obj_id ∈ Finset.range m := Finset.mem_range.mpr ho
    rw [foldInfo_append_singleton]
    constructor
    · rw [foldStep_beta, hpre.1, hsig, hw,
        ← Finset.mul_prod_erase (Finset.range m) _ hmem,
        ← Finset.mul_prod_erase (Finset.range m)
          (fun o => contribution (W o) (occurrences planes (pre ++ [p]) o)) hmem]
      have hQ : ∏ x ∈ (Finset.range m).erase (planeAt planes p).obj_id,
            contribution (W x) (occurrences planes (pre ++ [p]) x) =
          ∏ x ∈ (Finset.range m).erase (planeAt planes p).obj_id,
            contribution (W x) (occurrences planes pre x) := by
        apply Finset.prod_congr rfl
        intro x hx
        have hne : (planeAt planes p).obj_id ≠ x := fun h => (Finset.mem_erase.mp hx).1 h.symm
        rw [hocc, if_neg hne, Nat.add_zero]
      rw [hQ, hocc, if_pos rfl]
      have hstep := contribution_step (W (planeAt planes p).obj_id)
        (occurrences planes pre (planeAt planes p).obj_id) hs
      have hd : (W (planeAt planes p).obj_id : ℚ) -
          ((occurrences planes pre (planeAt planes p).obj_id : Int) : ℚ) ≠ 0 := by
        have h1 : ((occurrences planes pre (planeAt planes p).obj_id : Int) : ℚ) <
            (W (planeAt planes p).obj_id : ℚ) := by
          exact_mod_cast (by omega :
            (occurrences planes pre (planeAt planes p).obj_id : Int) <
              W (planeAt planes p).obj_id)
        exact sub_ne_zero.mpr (ne_of_gt h1)
      by_cases hsat : (occurrences planes pre (planeAt planes p).obj_id : Int) + 1 =
          W (planeAt planes p).obj_id
      · rw [if_pos hsat] at hstep ⊢
        simp only [dmul]
        rw [← hstep]
        congr 1
        ring
      · rw [if_neg hsat] at hstep ⊢
        simp only [dmul, ddiv, if_neg hd]
        rw [← hstep]
        congr 1
        push_cast
        ring
    · rw [foldStep_xi, hpre.2, hsig, hw,
        ← Finset.add_sum_erase (Finset.range m) _ hmem,
        ← Finset.add_sum_erase (Finset.range m)
          (fun o => if 0 < occurrences planes (pre ++ [p]) o ∧
            (occurrences planes (pre ++ [p]) o : Int) = W o then (1 : Int) else 0) hmem]
      have hQ : ∑ x ∈ (Finset.range m).erase (planeAt planes p).obj_id,
            (if 0 < occurrences planes (pre ++ [p]) x ∧
              (occurrences planes (pre ++ [p]) x : Int) = W x then (1 : Int) else 0) =
          ∑ x ∈ (Finset.range m).erase (planeAt planes p).obj_id,
            (if 0 < occurrences planes pre x ∧
              (occurrences planes pre x : Int) = W x then (1 : Int) else 0) := by
        apply Finset.sum_congr rfl
        intro x hx
        have hne : (planeAt planes p).obj_id ≠ x := fun h => (Finset.mem_erase.mp hx).1 h.symm
        rw [hocc, if_neg hne, Nat.add_zero]
      rw [hQ, hocc, if_pos rfl]
      have h0 : ¬ (0 < occurrences planes pre (planeAt planes p).obj_id ∧
          (occurrences planes pre (planeAt planes p).obj_id : Int) =
            W (planeAt planes p).obj_id) := by
        rintro ⟨_, h⟩
        omega
      rw [if_neg h0]
      by_cases hsat : (occurrences planes pre (planeAt planes p).obj_id : Int) + 1 =
          W (planeAt planes p).obj_id
      · have h1 : 0 < occurrences planes pre (planeAt planes p).obj_id + 1 ∧
            ((occurrences planes pre (planeAt planes p).obj_id + 1 : Nat) : Int) =
              W (planeAt planes p).obj_id := ⟨Nat.succ_pos _, by push_cast; exact hsat⟩
        rw [if_pos hsat, if_pos h1]
        ring
      · have h1 : ¬ (0 < occurrences planes pre (planeAt planes p).obj_id + 1 ∧
            ((occurrences planes pre (planeAt planes p).obj_id + 1 : Nat) : Int) =
              W (planeAt planes p).obj_id) := by
          rintro ⟨_, h⟩
          push_cast at h
          exact hsat h
        rw [if_neg hsat, if_neg h1]
        ring

end ClosedForm2

/-- C18: for an `above` sequence in which the object ids are below `m`, the
boundaries of an object `o` all have the weight `W o`, and `o` occurs at most
`W o` times, no iteration of the loop of lines 54-64 divides by zero, `beta`
ends as the product of `(W o - k) / W o` over the objects that occur `k` times
with `0 < k < W o`, `xi` as the number of objects that occur exactly `W o`
times, `sigma[o]` as the number of occurrences of `o`, and the summary is the
same for every order of the sequence. -/
theorem leaf_summary_closed_form {G : Type} [Inhabited G]
    (planes : List (HyperPlane G)) (m : Nat) (W : Nat → Int) (above : List Nat)
    (hm : ∀ p ∈ above, (planeAt planes p).obj_id < m)
    (hW : ∀ p ∈ above, (planeAt planes p).prob = W (planeAt planes p).obj_id)
    (hk : ∀ p ∈ above, (occurrences planes above (planeAt planes p).obj_id : Int) ≤
      W (planeAt planes p).obj_id) :
    (∀ pre p post, above = pre ++ p :: post →
      ((planeAt planes p).prob : ℚ) -
        (sigmaAt (foldInfo planes m pre).sigma (planeAt planes p).obj_id : ℚ) ≠ 0) ∧
    (foldInfo planes m above).beta =
      some (∏ o ∈ (Finset.range m).filter (fun o => 0 < occurrences planes above o ∧
          (occurrences planes above o : Int) < W o),
        ((W o : ℚ) - (occurrences planes above o : ℚ)) / (W o : ℚ)) ∧
    (foldInfo planes m above).xi =
      (((Finset.range m).filter (fun o => 0 < occurrences planes above o ∧
        (occurrences planes above o : Int) = W o)).card : Int) ∧
    (∀ o, o < m → sigmaAt (foldInfo planes m above).sigma o =
      (occurrences planes above o : Int)) ∧
    (∀ above' : List Nat, above'.Perm above →
      foldInfo planes m above' = foldInfo planes m above) := by
  have hclosed := foldInfo_closed planes m W above hm hW hk
  have hle : ∀ o, 0 < occurrences planes above o → (occurrences planes above o : Int) ≤ W o := by
    intro o ho
    obtain ⟨p, hp, hpo⟩ := List.countP_pos_iff.mp ho
    have hpo' : (planeAt planes p).obj_id = o := by simpa using hpo
    have := hk p hp
    rw [hpo'] at this
    exact this
  refine ⟨?_, ?_, ?_, ?_, ?_⟩
  · intro pre p post hsplit
    have h1 := foldInfo_sigmaAt_le planes m pre (planeAt planes p).obj_id
    have h2 := hk p (by rw [hsplit]; simp)
    rw [hW p (by rw [hsplit]; simp)]
    unfold occurrences at h2
    rw [hsplit, List.countP_append, List.countP_cons] at h2
    simp only [decide_True, if_true] at h2
    push_cast at h2
    have h3 : sigmaAt (foldInfo planes m pre).sigma (planeAt planes p).obj_id <
        W (planeAt planes p).obj_id := by omega
    have h4 : ((sigmaAt (foldInfo planes m pre).sigma (planeAt planes p).obj_id : Int) : ℚ) <
        (W (planeAt planes p).obj_id : ℚ) := by exact_mod_cast h3
    exact sub_ne_zero.mpr (ne_of_gt h4)
  · rw [hclosed.1, Finset.prod_filter]
    congr 1
    apply Finset.prod_congr rfl
    intro o _
    unfold contribution
    by_cases h0 : occurrences planes above o = 0
    · rw [if_pos h0, if_neg (by omega)]
    · have hpos : 0 < occurrences planes above o := Nat.pos_of_ne_zero h0
      rw [if_neg h0]
      by_cases heq : (occurrences planes above o : Int) = W o
      · rw [if_pos heq, if_neg (by omega)]
      · have hlt : (occurrences planes above o : Int) < W o :=
          lt_of_le_of_ne (hle o hpos) heq
        rw [if_neg heq, if_pos ⟨hpos, hlt⟩]
  · rw [hclosed.2, Finset.card_filter]
    push_cast
    rfl
  · intro o ho
    exact foldInfo_sigmaAt planes m above o ho
  · intro above' hperm
    apply foldInfo_perm planes m above above' hperm
    intro p hp q hq hpq
    rw [hW p hp, hW q hq, hpq]

/-- C18, an instance: two objects of weight 2 that occur twice each. -/
theorem leaf_summary_closed_form_witness :
    (∀ p ∈ [0, 1, 2, 3], (planeAt planesTwoObjects p).obj_id < 2) ∧
      (∀ p ∈ [0, 1, 2, 3],
        (planeAt planesTwoObjects p).prob = (fun _ => 2) (planeAt planesTwoObjects p).obj_id) ∧
      (∀ p ∈ [0, 1, 2, 3],
        (occurrences planesTwoObjects [0, 1, 2, 3] (planeAt planesTwoObjects p).obj_id : Int) ≤
          (fun _ => 2) (planeAt planesTwoObjects p).obj_id) ∧
      (foldInfo planesTwoObjects 2 [0, 1, 2, 3]).xi =
        (((Finset.range 2).filter (fun o => 0 < occurrences planesTwoObjects [0, 1, 2, 3] o ∧
          (occurrences planesTwoObjects [0, 1, 2, 3] o : Int) = (fun _ => 2) o)).card : Int) ∧
      foldInfo planesTwoObjects 2 [3, 2, 1, 0] = foldInfo planesTwoObjects 2 [0, 1, 2, 3] :=
  ⟨by decide, by decide, by decide,
    (leaf_summary_closed_form planesTwoObjects 2 (fun _ => 2) [0, 1, 2, 3] (by decide) (by decide)
      (by decide)).2.2.1,
    (leaf_summary_closed_form planesTwoObjects 2 (fun _ => 2) [0, 1, 2, 3] (by decide) (by decide)
      (by decide)).2.2.2.2 [3, 2, 1, 0] (by decide)⟩


section WalkBasic

variable {G Box Point : Type}

theorem callsChild_eq (g : ObjectHpp G Box Point) (root_space : Box) (points : Nat → Point)
    (cs : List Node) (k : Nat) (subspace : Box) (through : List Nat) (level : Nat) :
    callsChild g root_space points cs k subspace through level =
      match cs[k]? with
      | some ch => calls g root_space points ch subspace through level
      | none => [] := by
  induction cs generalizing k with
  | nil => simp [callsChild]
  | cons ch cs ih =>
    cases k with
    | zero => simp [callsChild]
    | succ k => simp [callsChild, ih]

theorem calls_leaf (g : ObjectHpp G Box Point) (root_space : Box) (points : Nat → Point)
    (tp : List Nat) (p : Payload) (space : Box) (through : List Nat) (level : Nat) :
    calls g root_space points (Node.mk [] tp p) space through level =
      ⟨Node.mk [] tp p, space, through, level⟩ ::
        callsLeaf g root_space points p tp through level := by
  simp [calls]

theorem calls_internal (g : ObjectHpp G Box Point) (root_space : Box) (points : Nat → Point)
    (cs : List Node) (hcs : cs ≠ []) (tp : List Nat) (p : Payload) (space : Box)
    (through : List Nat) (level : Nat) :
    calls g root_space points (Node.mk cs tp p) space through level =
      ⟨Node.mk cs tp p, space, through, level⟩ ::
        callsChild g root_space points cs (g.PointLocation space (points level)).1
          (g.PointLocation space (points level)).2 through level := by
  cases cs with
  | nil => exact absurd rfl hcs
  | cons ch cs => simp [calls]

theorem calls_head (g : ObjectHpp G Box Point) (root_space : Box) (points : Nat → Point)
    (node : Node) (space : Box) (through : List Nat) (level : Nat) :
    (calls g root_space points node space through level).head? =
      some ⟨node, space, through, level⟩ := by
  cases node with
  | mk cs tp p =>
    cases cs with
    | nil => simp [calls]
    | cons ch cs => simp [calls]

theorem calls_summary (g : ObjectHpp G Box Point) (root_space : Box) (points : Nat → Point)
    (tp : List Nat) (info : Info) (space : Box) (through : List Nat) (level : Nat) :
    calls g root_space points (Node.mk [] tp (Payload.info info)) space through level =
      [⟨Node.mk [] tp (Payload.info info), space, through, level⟩] := by
  cases level <;> simp [calls, callsLeaf]

theorem calls_nested (g : ObjectHpp G Box Point) (root_space : Box) (points : Nat → Point)
    (tp : List Nat) (t : Node) (space : Box) (through : List Nat) (level : Nat)
    (hlevel : level ≠ 0) :
    calls g root_space points (Node.mk [] tp (Payload.tree t)) space through level =
      ⟨Node.mk [] tp (Payload.tree t), space, through, level⟩ ::
        calls g root_space points t root_space (through ++ tp) (level - 1) := by
  cases level with
  | zero => exact absurd rfl hlevel
  | succ j => simp [calls, callsLeaf]

end WalkBasic

section Walk

variable {G Box Point : Type} [Inhabited G]

/-- Every call of `QueryRecursive` on a tree that `BuildRecursive` returned is on
a node returned by a call of `BuildRecursive`, with the level of that call;
a property of the call and the vector `through` that holds at the root, is kept
by the call of line 79, and is kept by the call of line 67 when the `through`
list of the leaf is appended, holds at every call. -/
theorem calls_invariant (g : ObjectHpp G Box Point) (planes : List (HyperPlane G)) (m : Nat)
    (c : Int) (n_child : Nat) (root_space : Box) (points : Nat → Point)
    (I : Call Box → List Nat → Prop)
    (hchild : ∀ k k' acc, I k acc → ChildOf g planes c n_child k k' → I k' acc)
    (hnested : ∀ k k' acc, I k acc → NestedOf c root_space k k' → I k' (acc ++ k.through))
    (fuel : Nat) (k : Call Box) (t : Node)
    (h : runCall g planes m c n_child root_space fuel k = some t)
    (qspace : Box) (acc : List Nat) (hI : I k acc) :
    ∀ q ∈ calls g root_space points t qspace acc k.level,
      ∃ k' fuel', Reach g planes c n_child root_space k k' ∧
        runCall g planes m c n_child root_space fuel' k' = some q.node ∧
        q.level = k'.level ∧ I k' q.through := by
  induction fuel generalizing k t qspace acc with
  | zero => rw [runCall_zero] at h; cases h
  | succ fuel ih =>
    have hself : ∃ k' fuel', Reach g planes c n_child root_space k k' ∧
        runCall g planes m c n_child root_space fuel' k' = some t ∧
        k.level = k'.level ∧ I k' acc :=
      ⟨k, fuel + 1, Relation.ReflTransGen.refl, h, rfl, hI⟩
    rcases runCall_cases g planes m c n_child root_space fuel k t h with
      ⟨hleaf, hlevel, rfl⟩ | ⟨hleaf, hlevel, tn, htn, rfl⟩ | ⟨hsub, cs, rfl, hlen, hget⟩
    · intro q hq
      rw [calls_summary] at hq
      simp only [List.mem_singleton] at hq
      subst hq
      exact hself
    · intro q hq
      rw [calls_nested _ _ _ _ _ _ _ _ hlevel] at hq
      rcases List.mem_cons.mp hq with rfl | hq
      · exact hself
      · have hI' := hnested k _ acc hI ⟨hleaf, hlevel, rfl⟩
        obtain ⟨k', fuel', hreach, hrun, hlev, hIk⟩ :=
          ih (nestedCall root_space k) tn htn root_space (acc ++ k.through) hI' q hq
        exact ⟨k', fuel', Relation.ReflTransGen.head (Or.inr ⟨hleaf, hlevel, rfl⟩) hreach,
          hrun, hlev, hIk⟩
    · intro q hq
      by_cases hcs : cs = []
      · subst hcs
        rw [calls_leaf] at hq
        simp only [callsLeaf, List.mem_singleton] at hq
        subst hq
        exact hself
      · rw [calls_internal _ _ _ _ hcs, callsChild_eq] at hq
        rcases List.mem_cons.mp hq with rfl | hq
        · exact hself
        · generalize hidx : (g.PointLocation qspace (points k.level)).1 = idx at hq
          cases hch : cs[idx]? with
          | none => rw [hch] at hq; cases hq
          | some ch =>
            rw [hch] at hq
            have hi : idx < cs.length := (List.getElem?_eq_some.mp hch).1
            have hi' : idx < n_child := by omega
            have hrun := hget idx hi'
            rw [hch] at hrun
            have hI' := hchild k _ acc hI ⟨hsub, idx, hi', rfl⟩
            obtain ⟨k', fuel', hreach, hrun', hlev, hIk⟩ :=
              ih (childCall g planes k idx) ch hrun _ acc hI' q hq
            exact ⟨k', fuel', Relation.ReflTransGen.head (Or.inl ⟨hsub, idx, hi', rfl⟩) hreach,
              hrun', hlev, hIk⟩

end Walk

section WalkStructure

variable {G Box Point : Type}

theorem sizeOf_child (ch : Node) (cs : List Node) (tp : List Nat) (p : Payload) (h : ch ∈ cs) :
    sizeOf ch < sizeOf (Node.mk cs tp p) := by
  have := List.sizeOf_lt_of_mem h
  simp only [Node.mk.sizeOf_spec]
  omega

theorem sizeOf_nested (t : Node) (cs : List Node) (tp : List Nat) :
    sizeOf t < sizeOf (Node.mk cs tp (Payload.tree t)) := by
  simp only [Node.mk.sizeOf_spec, Payload.tree.sizeOf_spec]
  omega

/-- The calls of `QueryRecursive` form a chain in which each call makes the
next, and go to ever smaller parts of the tree. -/
theorem calls_structure (g : ObjectHpp G Box Point) (root_space : Box) (points : Nat → Point)
    (n : Nat) : ∀ (node : Node), sizeOf node = n → ∀ (space : Box) (through : List Nat)
      (level : Nat),
      List.Chain' (NextCall g root_space points)
          (calls g root_space points node space through level) ∧
        (∀ q ∈ calls g root_space points node space through level,
          sizeOf q.node ≤ sizeOf node) ∧
        (calls g root_space points node space through level).Pairwise
          (fun a b => sizeOf b.node < sizeOf a.node) := by
  induction n using Nat.strong_induction_on with
  | _ n ih =>
    intro node hn space through level
    cases node with
    | mk cs tp p =>
      have hcons : ∀ (t : Node) (sp : Box) (th : List Nat) (lv : Nat),
          sizeOf t < sizeOf (Node.mk cs tp p) →
          NextCall g root_space points ⟨Node.mk cs tp p, space, through, level⟩
            ⟨t, sp, th, lv⟩ →
          List.Chain' (NextCall g root_space points)
              (⟨Node.mk cs tp p, space, through, level⟩ ::
                calls g root_space points t sp th lv) ∧
            (∀ q ∈ (⟨Node.mk cs tp p, space, through, level⟩ : QCall Box) ::
                calls g root_space points t sp th lv,
              sizeOf q.node ≤ sizeOf (Node.mk cs tp p)) ∧
            ((⟨Node.mk cs tp p, space, through, level⟩ : QCall Box) ::
              calls g root_space points t sp th lv).Pairwise
              (fun a b => sizeOf b.node < sizeOf a.node) := by
        intro t sp th lv hlt hnext
        obtain ⟨h1, h2, h3⟩ := ih (sizeOf t) (by rw [← hn]; exact hlt) t rfl sp th lv
        refine ⟨?_, ?_, ?_⟩
        · rw [List.chain'_cons']
          refine ⟨?_, h1⟩
          intro x hx
          rw [calls_head] at hx
          cases hx
          exact hnext
        · intro q hq
          rcases List.mem_cons.mp hq with rfl | hq
          · exact le_refl _
          · exact le_of_lt (lt_of_le_of_lt (h2 q hq) hlt)
        · rw [List.pairwise_cons]
          refine ⟨?_, h3⟩
          intro q hq
          exact lt_of_le_of_lt (h2 q hq) hlt
      by_cases hcs : cs = []
      · subst hcs
        rw [calls_leaf]
        cases p with
        | null => cases level <;> simp [callsLeaf]
        | info i => cases level <;> simp [callsLeaf]
        | tree t =>
          cases level with
          | zero => simp [callsLeaf]
          | succ j =>
            simp only [callsLeaf]
            apply hcons t root_space (through ++ tp) j (sizeOf_nested t [] tp)
            constructor
            · intro hne
              exact absurd rfl hne
            · intro _
              exact ⟨Nat.succ_ne_zero j, rfl, rfl, rfl, rfl⟩
      · rw [calls_internal _ _ _ _ hcs, callsChild_eq]
        cases hch : cs[(g.PointLocation space (points level)).1]? with
        | none => simp
        | some ch =>
          simp only
          apply hcons ch _ through level
            (sizeOf_child ch cs tp p (mem_of_getElem? cs _ ch hch))
          constructor
          · intro _
            exact ⟨hch, rfl, rfl, rfl⟩
          · intro he
            exact absurd he hcs

end WalkStructure

section WalkOnce

variable {G Box Point : Type} [Inhabited G]

theorem getLast?_cons_of_some {α : Type} (a x : α) (l : List α) (h : l.getLast? = some x) :
    (a :: l).getLast? = some x := by
  cases l with
  | nil => simp at h
  | cons b l => rw [List.getLast?_cons_cons]; exact h

/-- On a tree that `BuildRecursive` returned, when `PointLocation` gives child
numbers below `n_child`, exactly one call of `QueryRecursive` reads a Leaf
Summary, the last one, at a leaf at level 0 that holds one. -/
theorem calls_evaluate_once (g : ObjectHpp G Box Point) (planes : List (HyperPlane G)) (m : Nat)
    (c : Int) (n_child : Nat) (hn : 0 < n_child) (root_space : Box) (points : Nat → Point)
    (hloc : ∀ b pt, (g.PointLocation b pt).1 < n_child)
    (fuel : Nat) (k : Call Box) (t : Node)
    (h : runCall g planes m c n_child root_space fuel k = some t)
    (qspace : Box) (acc : List Nat) :
    (calls g root_space points t qspace acc k.level).countP evaluates = 1 ∧
      ∃ tp info sp th, (calls g root_space points t qspace acc k.level).getLast? =
        some ⟨Node.mk [] tp (Payload.info info), sp, th, 0⟩ := by
  induction fuel generalizing k t qspace acc with
  | zero => rw [runCall_zero] at h; cases h
  | succ fuel ih =>
    rcases runCall_cases g planes m c n_child root_space fuel k t h with
      ⟨hleaf, hlevel, rfl⟩ | ⟨hleaf, hlevel, tn, htn, rfl⟩ | ⟨hsub, cs, rfl, hlen, hget⟩
    · rw [calls_summary, hlevel]
      refine ⟨?_, k.through, _, qspace, acc, rfl⟩
      simp [evaluates, Node.children]
    · rw [calls_nested _ _ _ _ _ _ _ _ hlevel]
      obtain ⟨h1, tp, info, sp, th, h2⟩ :=
        ih (nestedCall root_space k) tn htn root_space (acc ++ k.through)
      have hlv : (nestedCall root_space k).level = k.level - 1 := rfl
      rw [hlv] at h1 h2
      refine ⟨?_, tp, info, sp, th, getLast?_cons_of_some _ _ _ h2⟩
      rw [List.countP_cons, h1]
      have : evaluates (⟨Node.mk [] k.through (Payload.tree tn), qspace, acc, k.level⟩ :
          QCall Box) = false := by
        simp [evaluates, hlevel]
      rw [this]
      rfl
    · have hcs : cs ≠ [] := by
        intro h0
        rw [h0] at hlen
        simp at hlen
        omega
      rw [calls_internal _ _ _ _ hcs, callsChild_eq]
      have hidx := hloc qspace (points k.level)
      have hi : (g.PointLocation qspace (points k.level)).1 < cs.length := by omega
      have hrun := hget _ hidx
      rw [List.getElem?_eq_getElem hi] at hrun ⊢
      simp only
      obtain ⟨h1, tp, info, sp, th, h2⟩ :=
        ih (childCall g planes k (g.PointLocation qspace (points k.level)).1) _ hrun
          (g.PointLocation qspace (points k.level)).2 acc
      have hlv : (childCall g planes k (g.PointLocation qspace (points k.level)).1).level =
          k.level := rfl
      rw [hlv] at h1 h2
      refine ⟨?_, tp, info, sp, th, getLast?_cons_of_some _ _ _ h2⟩
      rw [List.countP_cons, h1]
      have : evaluates (⟨Node.mk cs [] Payload.null, qspace, acc, k.level⟩ : QCall Box) =
          false := by
        cases cs with
        | nil => exact absurd rfl hcs
        | cons a b => simp [evaluates, Node.children]
      rw [this]
      rfl

end WalkOnce

/-! ## Claims about the walk of the query -/

/-- In the reading of the header, in which lines 70-81 fill the vector
`children`: on the tree of `Build`, the value of `QueryRecursive` from the root with
level `pow(2, Dim - 1) - 1` is the value of the last of its calls.  The calls form
a chain from the root: at a node with children the next call is on the child
that `PointLocation` gives for the point `points[level]`, at a leaf above
level 0 it is on `tree_or_info`.  Every call is on a node that a call of
`BuildRecursive` returned with the same level, so that a leaf reached at level
0 holds a Leaf Summary and a leaf reached above level 0 holds a nested tree.
The nodes of the calls get strictly smaller, so that no node is visited twice.
When `PointLocation` gives child numbers below `pow(2, Dim)`, exactly one call
reads a Leaf Summary: the last one. -/
theorem query_walk {G Box Point : Type} [Inhabited G]
    (g : ObjectHpp G Box Point) (m : Nat) (c : Int) (fuel : Nat)
    (planes : List (HyperPlane G)) (space : Box) (tree : Tree G Box)
    (hb : Build g m c fuel planes space = some tree) (R : Box) (plane : HyperPlane G) :
    QueryRecursive g planes space (g.GetQueryPoints plane R) R plane tree.root space []
        (topLevel g.Dim) =
      lastValue g planes R plane
        (calls g space (g.GetQueryPoints plane R) tree.root space [] (topLevel g.Dim)) ∧
    (calls g space (g.GetQueryPoints plane R) tree.root space [] (topLevel g.Dim)).head? =
      some ⟨tree.root, space, [], topLevel g.Dim⟩ ∧
    List.Chain' (NextCall g space (g.GetQueryPoints plane R))
      (calls g space (g.GetQueryPoints plane R) tree.root space [] (topLevel g.Dim)) ∧
    (∀ q ∈ calls g space (g.GetQueryPoints plane R) tree.root space [] (topLevel g.Dim),
      (∃ k fuel', Reach g planes c (2 ^ g.Dim) space (rootCall g planes space) k ∧
        runCall g planes m c (2 ^ g.Dim) space fuel' k = some q.node ∧ q.level = k.level) ∧
      (q.node.children = [] →
        (q.level = 0 → ∃ info, q.node.tree_or_info = Payload.info info) ∧
        (q.level ≠ 0 → ∃ t, q.node.tree_or_info = Payload.tree t))) ∧
    (calls g space (g.GetQueryPoints plane R) tree.root space [] (topLevel g.Dim)).Pairwise
      (fun a b => sizeOf b.node < sizeOf a.node) ∧
    ((calls g space (g.GetQueryPoints plane R) tree.root space [] (topLevel g.Dim)).map
      (fun q => q.node)).Nodup ∧
    ((∀ b pt, (g.PointLocation b pt).1 < 2 ^ g.Dim) →
      (calls g space (g.GetQueryPoints plane R) tree.root space []
        (topLevel g.Dim)).countP evaluates = 1 ∧
      ∃ tp info sp th,
        (calls g space (g.GetQueryPoints plane R) tree.root space []
          (topLevel g.Dim)).getLast? =
          some ⟨Node.mk [] tp (Payload.info info), sp, th, 0⟩) := by
  have hrun := Build_runCall g m c fuel planes space tree hb
  have hpos : 0 < 2 ^ g.Dim := Nat.pow_pos (by decide)
  obtain ⟨hchain, _, hpair⟩ := calls_structure g space (g.GetQueryPoints plane R)
    (sizeOf tree.root) tree.root rfl space [] (topLevel g.Dim)
  refine ⟨?_, calls_head _ _ _ _ _ _ _, hchain, ?_, hpair, ?_, ?_⟩
  · exact QueryRecursive_eq_lastValue g planes space (g.GetQueryPoints plane R) R plane
      tree.root space [] (topLevel g.Dim)
  · intro q hq
    obtain ⟨k, fuel', hreach, hk, hlev, _⟩ :=
      calls_invariant g planes m c (2 ^ g.Dim) space (g.GetQueryPoints plane R)
        (fun _ _ => True) (fun _ _ _ _ _ => trivial) (fun _ _ _ _ _ => trivial)
        fuel (rootCall g planes space) tree.root hrun space [] trivial q hq
    refine ⟨⟨k, fuel', hreach, hk, hlev⟩, ?_⟩
    intro hleaf
    have hlevelled := runCall_levelled g planes m c (2 ^ g.Dim) hpos space fuel' k q.node hk
    rw [← hlev] at hlevelled
    obtain ⟨h0, h1⟩ := levelled_leaf q.level q.node hlevelled hleaf
    exact ⟨h0, fun hne => by
      obtain ⟨t, ht, _⟩ := h1 hne
      exact ⟨t, ht⟩⟩
  · rw [List.Nodup, List.pairwise_map]
    apply hpair.imp
    intro a b hab heq
    rw [heq] at hab
    exact lt_irrefl _ hab
  · intro hloc
    exact calls_evaluate_once g planes m c (2 ^ g.Dim) hpos space (g.GetQueryPoints plane R)
      hloc fuel (rootCall g planes space) tree.root hrun space []


section NoDoubleCounting

variable {G Box Point : Type} [Inhabited G]

theorem separated_child (g : ObjectHpp G Box Point) (planes : List (HyperPlane G)) (c : Int)
    (n_child : Nat) (k k' : Call Box) (acc : List Nat) (h : Separated k acc)
    (hstep : ChildOf g planes c n_child k k') : Separated k' acc := by
  obtain ⟨hna, hnt, hdisj, hacc, haccd⟩ := h
  obtain ⟨_, i, _, rfl⟩ := hstep
  refine ⟨?_, ?_, ?_, hacc, ?_⟩
  · simp only [childCall]
    rw [List.nodup_append]
    refine ⟨hna, hnt.filter _, ?_⟩
    intro x hxa hxs
    exact hdisj hxa (List.mem_filter.mp hxs).1
  · exact hnt.filter _
  · intro x hxa hxs
    simp only [childCall] at hxa hxs
    have hxt := List.mem_filter.mp hxs
    rcases List.mem_append.mp hxa with hxa | hxa
    · exact hdisj hxa hxt.1
    · have hxa' := (List.mem_filter.mp hxa).2
      have hxs' := hxt.2
      simp [hxa'] at hxs'
  · intro x hx hx'
    apply haccd hx
    simp only [childCall] at hx'
    rcases List.mem_append.mp hx' with hx' | hx'
    · rcases List.mem_append.mp hx' with hx' | hx'
      · exact List.mem_append_left _ hx'
      · exact List.mem_append_right _ (List.mem_filter.mp hx').1
    · exact List.mem_append_right _ (List.mem_filter.mp hx').1

theorem separated_nested (c : Int) (root_space : Box) (k k' : Call Box) (acc : List Nat)
    (h : Separated k acc) (hstep : NestedOf c root_space k k') :
    Separated k' (acc ++ k.through) := by
  obtain ⟨hna, hnt, hdisj, hacc, haccd⟩ := h
  obtain ⟨_, _, rfl⟩ := hstep
  refine ⟨List.nodup_nil, hna, List.disjoint_nil_left _, ?_, ?_⟩
  · rw [List.nodup_append]
    refine ⟨hacc, hnt, ?_⟩
    intro x hx hx'
    exact haccd hx (List.mem_append_right _ hx')
  · intro x hx hx'
    simp only [nestedCall, List.nil_append] at hx'
    rcases List.mem_append.mp hx with hx | hx
    · exact haccd hx (List.mem_append_left _ hx')
    · exact hdisj hx' hx

theorem separated_root (g : ObjectHpp G Box Point) (planes : List (HyperPlane G))
    (space : Box) : Separated (rootCall g planes space) [] :=
  ⟨rootAbove_nodup g planes space, rootThrough_nodup g planes space,
    rootAbove_disjoint g planes space, List.nodup_nil, List.disjoint_nil_left _⟩

/-- At every call that the call of `Build` leads to, the vectors `above` and
`through` have no index twice and none in common. -/
theorem reach_separated (g : ObjectHpp G Box Point) (planes : List (HyperPlane G)) (c : Int)
    (n_child : Nat) (root_space : Box) (k₀ k : Call Box)
    (h₀ : k₀.above.Nodup ∧ k₀.through.Nodup ∧ k₀.above.Disjoint k₀.through)
    (h : Reach g planes c n_child root_space k₀ k) :
    k.above.Nodup ∧ k.through.Nodup ∧ k.above.Disjoint k.through := by
  induction h with
  | refl => exact h₀
  | tail _ hstep ih =>
    have hsep : Separated _ [] := ⟨ih.1, ih.2.1, ih.2.2, List.nodup_nil, List.disjoint_nil_left _⟩
    rcases hstep with hchild | hnested
    · have := separated_child g planes c n_child _ _ [] hsep hchild
      exact ⟨this.1, this.2.1, this.2.2.1⟩
    · have := separated_nested c root_space _ _ [] hsep hnested
      exact ⟨this.1, this.2.1, this.2.2.1⟩

/-- The vectors `above` and `through` of a call hold only indices that the
vectors at the root of its tree hold. -/
theorem inTree_subset (g : ObjectHpp G Box Point) (planes : List (HyperPlane G)) (c : Int)
    (n_child : Nat) (r k : Call Box) (h : InTree g planes c n_child r k) (p : Nat)
    (hp : p ∈ k.above ∨ p ∈ k.through) : p ∈ r.above ∨ p ∈ r.through := by
  induction h with
  | refl => exact hp
  | tail _ hstep ih =>
    apply ih
    rcases hp with hp | hp
    · rcases childOf_above g planes c n_child _ _ hstep p hp with h1 | ⟨h1, _⟩
      · exact Or.inl h1
      · exact Or.inr h1
    · exact Or.inr (childOf_through g planes c n_child _ _ hstep p hp).1

end NoDoubleCounting

/-- C19: on the tree of `Build`, at every call of `BuildRecursive` the vectors
`above` and `through` have no index twice and none in common, and the calls
for a nested tree hold only indices from the `above` vector of the leaf that
holds it.  At every call of `QueryRecursive` the vector `through` has no index
twice and none that is in `above` or `through` of the call of `BuildRecursive`
that returned the node; at the call that reads the Leaf Summary, the summary is
the fold of that `above` vector, so that no index is both folded into it and in
the vector `through`. -/
theorem no_double_counting {G Box Point : Type} [Inhabited G]
    (g : ObjectHpp G Box Point) (m : Nat) (c : Int) (fuel : Nat)
    (planes : List (HyperPlane G)) (space : Box) (tree : Tree G Box)
    (hb : Build g m c fuel planes space = some tree) (R : Box) (plane : HyperPlane G) :
    (∀ k, Reach g planes c (2 ^ g.Dim) space (rootCall g planes space) k →
      k.above.Nodup ∧ k.through.Nodup ∧ k.above.Disjoint k.through) ∧
    (∀ b r k, Reach g planes c (2 ^ g.Dim) space (rootCall g planes space) b →
      NestedOf c space b r → InTree g planes c (2 ^ g.Dim) r k →
      ∀ p, p ∈ k.above ∨ p ∈ k.through → p ∈ b.above) ∧
    (∀ q ∈ calls g space (g.GetQueryPoints plane R) tree.root space [] (topLevel g.Dim),
      ∃ k fuel', Reach g planes c (2 ^ g.Dim) space (rootCall g planes space) k ∧
        runCall g planes m c (2 ^ g.Dim) space fuel' k = some q.node ∧
        q.through.Nodup ∧ q.through.Disjoint (k.above ++ k.through) ∧
        (q.node.children = [] → q.level = 0 →
          q.node = Node.mk [] k.through (Payload.info (foldInfo planes m k.above)) ∧
          ∀ p, p ∈ k.above → p ∉ q.through)) := by
  have hrun := Build_runCall g m c fuel planes space tree hb
  have hpos : 0 < 2 ^ g.Dim := Nat.pow_pos (by decide)
  refine ⟨?_, ?_, ?_⟩
  · intro k hk
    exact reach_separated g planes c (2 ^ g.Dim) space _ k
      ⟨rootAbove_nodup g planes space, rootThrough_nodup g planes space,
        rootAbove_disjoint g planes space⟩ hk
  · rintro b r k _ ⟨_, _, rfl⟩ htree p hp
    rcases inTree_subset g planes c (2 ^ g.Dim) _ k htree p hp with h | h
    · cases h
    · exact h
  · intro q hq
    obtain ⟨k, fuel', hreach, hk, hlev, hsep⟩ :=
      calls_invariant g planes m c (2 ^ g.Dim) space (g.GetQueryPoints plane R)
        Separated (fun k k' acc h hs => separated_child g planes c (2 ^ g.Dim) k k' acc h hs)
        (fun k k' acc h hs => separated_nested c space k k' acc h hs)
        fuel (rootCall g planes space) tree.root hrun space [] (separated_root g planes space)
        q hq
    refine ⟨k, fuel', hreach, hk, hsep.2.2.2.1, hsep.2.2.2.2, ?_⟩
    intro hleaf hlevel
    have hthr := (runCall_leaf_iff g planes m c (2 ^ g.Dim) hpos space fuel' k q.node hk).1.mp hleaf
    constructor
    · cases fuel' with
      | zero => rw [runCall_zero] at hk; cases hk
      | succ fuel' =>
        rw [runCall_summary g planes m c (2 ^ g.Dim) space fuel' k hthr
          (by rw [← hlev]; exact hlevel)] at hk
        exact (Option.some.inj hk).symm
    · intro p hp hpq
      exact hsep.2.2.2.2 hpq (List.mem_append_left _ hp)

/-! ## Claims about the vector `through` of the walk and the vector `children` -/

/-- C16: on `planesLevelZero` with `Dim = 1` and `c = 1` the tree is one leaf at
level 0 with `through = [1]` that folds `above = [0]`.  The query for boundary 0
makes one call, with an empty vector `through`: boundary 1 is in the `through`
list of the leaf whose summary is read and not in the vector over which lines
100-106 run.  The value returned is 1; with boundary 1 in the vector, lines
96-115 give 0.  On `planesDominated` with `Dim = 2` and `c = 1` the query for
boundary 0 makes two calls; the second reads the summary with the vector
`through = [1]`, the `through` list of the leaf at level 1, without the
`through` list `[0]` of the leaf at level 0. -/
theorem level_zero_through_not_accumulated :
    ((Build (pathGeom 1) 2 1 1 planesLevelZero []).map Tree.root =
        some (Node.mk [] [1] (Payload.info (foldInfo planesLevelZero 2 [0]))) ∧
      calls (pathGeom 1) [] ((pathGeom 1).GetQueryPoints (planeAt planesLevelZero 0) [])
          (Node.mk [] [1] (Payload.info (foldInfo planesLevelZero 2 [0]))) [] [] (topLevel 1) =
        [⟨Node.mk [] [1] (Payload.info (foldInfo planesLevelZero 2 [0])), [], [], 0⟩] ∧
      (Build (pathGeom 1) 2 1 1 planesLevelZero []).map
          (fun t => queryPlane (pathGeom 1) t [] (planeAt planesLevelZero 0)) =
        some (some 1) ∧
      evalInfo (pathGeom 1) planesLevelZero (foldInfo planesLevelZero 2 [0]) [1] []
          (planeAt planesLevelZero 0) = some 0) ∧
    ((Build (pathGeom 2) 2 1 2 planesDominated []).map Tree.root =
        some (Node.mk [] [1] (Payload.tree
          (Node.mk [] [0] (Payload.info (foldInfo planesDominated 2 []))))) ∧
      calls (pathGeom 2) [] ((pathGeom 2).GetQueryPoints (planeAt planesDominated 0) [])
          (Node.mk [] [1] (Payload.tree
            (Node.mk [] [0] (Payload.info (foldInfo planesDominated 2 []))))) [] []
          (topLevel 2) =
        [⟨Node.mk [] [1] (Payload.tree
            (Node.mk [] [0] (Payload.info (foldInfo planesDominated 2 [])))), [], [], 1⟩,
          ⟨Node.mk [] [0] (Payload.info (foldInfo planesDominated 2 [])), [], [1], 0⟩]) := by
  refine ⟨⟨?_, ?_, ?_, ?_⟩, ?_, ?_⟩
  · simp [Build, BuildRecursive, pathGeom, planesLevelZero, rootAbove, rootThrough, threshold,
      topLevel, planeAt, List.range, List.range.loop]
  · simp [calls, callsLeaf, topLevel]
  · simp [Build, BuildRecursive, pathGeom, planesLevelZero, queryPlane,
      QueryRecursive, queryLeaf, queryChild, evalInfo, tallyLoop, tallyStep, foldInfo, foldStep,
      Info.init, rootAbove, rootThrough, threshold, topLevel, collect, subAbove, subThrough,
      planeAt, sigmaAt, dmul, ddiv, probObjAt, incr, List.range, List.range.loop, List.lookup]
  · simp [pathGeom, planesLevelZero, evalInfo, tallyLoop, tallyStep, foldInfo, foldStep,
      Info.init, planeAt, sigmaAt, dmul, ddiv, probObjAt, incr, List.lookup]
  · simp [Build, BuildRecursive, pathGeom, planesDominated, rootAbove, rootThrough, threshold,
      topLevel, planeAt, List.range, List.range.loop]
  · simp [calls, callsLeaf, topLevel]

section ChildrenVector

theorem assignFrom_spare (pre cs : List Node) :
    assignFrom pre.length cs
        { elems := [], spare := pre.map some ++ List.replicate cs.length none } =
      { elems := [], spare := (pre ++ cs).map some } := by
  induction cs generalizing pre with
  | nil => simp [assignFrom]
  | cons x rest ih =>
    have hstep : ({ elems := [], spare := pre.map some ++ List.replicate (x :: rest).length none } :
        NodeVector).assign pre.length x =
        { elems := [], spare := (pre ++ [x]).map some ++ List.replicate rest.length none } := by
      simp only [NodeVector.assign, List.length_nil, Nat.not_lt_zero, if_false, Nat.sub_zero,
        List.length_cons, List.replicate_succ]
      congr 1
      rw [List.set_append_right _ _ (by simp)]
      simp
    unfold assignFrom
    rw [hstep]
    have := ih (pre ++ [x])
    simp only [List.length_append, List.length_singleton, List.append_assoc,
      List.singleton_append] at this
    exact this

end ChildrenVector

/-- C17: after `children.reserve(n_child)` and the assignments `children[i] = ...`
of line 79 the vector `children` has size 0, whatever nodes the calls return:
the nodes are in the reserved storage and `children.empty()` holds.  So it does
for the node that `Build` makes by subdividing on `planesTwoInstances` with
`Dim = 2` and `c = 1`, the root of the nested tree, which in the reading of
`BuildRecursive` as filling the vector has 4 children. -/
theorem children_vector_stays_empty :
    (∀ cs : List Node, (childrenVector cs).size = 0 ∧ (childrenVector cs).empty = true ∧
      (childrenVector cs).spare = cs.map some) ∧
    (Build (pathGeom 2) 2 1 3 planesTwoInstances [] = some treeTwoInstances ∧
      treeTwoInstances.root.tree_or_info = Payload.tree (Node.mk
        [Node.mk [] [] (Payload.info (foldInfo planesTwoInstances 2 [0, 1])),
         Node.mk [] [] (Payload.info (foldInfo planesTwoInstances 2 [0, 1])),
         Node.mk [] [] (Payload.info (foldInfo planesTwoInstances 2 [0, 1])),
         Node.mk [] [] (Payload.info (foldInfo planesTwoInstances 2 [0, 1]))] [] Payload.null) ∧
      (childrenVector
        [Node.mk [] [] (Payload.info (foldInfo planesTwoInstances 2 [0, 1])),
         Node.mk [] [] (Payload.info (foldInfo planesTwoInstances 2 [0, 1])),
         Node.mk [] [] (Payload.info (foldInfo planesTwoInstances 2 [0, 1])),
         Node.mk [] [] (Payload.info (foldInfo planesTwoInstances 2 [0, 1]))]).empty = true) := by
  have hgen : ∀ cs : List Node, childrenVector cs = { elems := [], spare := cs.map some } := by
    intro cs
    have := assignFrom_spare [] cs
    simpa [childrenVector, NodeVector.reserve, NodeVector.new] using this
  refine ⟨?_, ?_, rfl, ?_⟩
  · intro cs
    rw [hgen]
    exact ⟨rfl, rfl, rfl⟩
  · simp [Build, BuildRecursive, pathGeom, planesTwoInstances, rootAbove, rootThrough,
      threshold, topLevel, collect, subAbove, subThrough, planeAt, List.range, List.range.loop,
      treeTwoInstances]
  · rw [hgen]
    rfl


/-! ## Instances of the claims about the tree and the walk -/

section Instances

theorem Build_twoInstances :
    Build (pathGeom 2) 2 1 3 planesTwoInstances [] = some treeTwoInstances := by
  simp [Build, BuildRecursive, pathGeom, planesTwoInstances, rootAbove, rootThrough,
    threshold, topLevel, collect, subAbove, subThrough, planeAt, List.range, List.range.loop,
    treeTwoInstances]

theorem runCall_twoInstances :
    runCall (pathGeom 2) planesTwoInstances 2 1 4 [] 3
      (rootCall (pathGeom 2) planesTwoInstances []) = some treeTwoInstances.root :=
  Build_runCall (pathGeom 2) 2 1 3 planesTwoInstances [] treeTwoInstances Build_twoInstances

theorem threshold_one : threshold 1 = 1 := by
  simp [threshold]

end Instances

/-- An instance of `leaf_payload_by_level`: the tree of `planesTwoInstances` with
`Dim = 2` and `c = 1`. -/
theorem leaf_payload_by_level_witness :
    0 < 4 ∧
    runCall (pathGeom 2) planesTwoInstances 2 1 4 [] 3
      (rootCall (pathGeom 2) planesTwoInstances []) = some treeTwoInstances.root ∧
    Levelled (rootCall (pathGeom 2) planesTwoInstances []).level treeTwoInstances.root ∧
    Build (pathGeom 2) 2 1 3 planesTwoInstances [] = some treeTwoInstances ∧
    Levelled (2 ^ ((pathGeom 2).Dim - 1) - 1) treeTwoInstances.root :=
  ⟨by decide, runCall_twoInstances,
    ((leaf_payload_by_level (pathGeom 2) planesTwoInstances 2 1).1 4 [] 3 _ _ (by decide)
      runCall_twoInstances).1,
    Build_twoInstances,
    ((leaf_payload_by_level (pathGeom 2) planesTwoInstances 2 1).2 3 [] _
      Build_twoInstances).1⟩

/-- An instance of `query_walk`: the walk for boundary 0 on the tree of
`planesTwoInstances`. -/
theorem query_walk_witness :
    Build (pathGeom 2) 2 1 3 planesTwoInstances [] = some treeTwoInstances ∧
    (∀ b pt, ((pathGeom 2).PointLocation b pt).1 < 2 ^ (pathGeom 2).Dim) ∧
    QueryRecursive (pathGeom 2) planesTwoInstances []
        ((pathGeom 2).GetQueryPoints (planeAt planesTwoInstances 0) []) []
        (planeAt planesTwoInstances 0) treeTwoInstances.root [] [] (topLevel (pathGeom 2).Dim) =
      lastValue (pathGeom 2) planesTwoInstances [] (planeAt planesTwoInstances 0)
        (calls (pathGeom 2) [] ((pathGeom 2).GetQueryPoints (planeAt planesTwoInstances 0) [])
          treeTwoInstances.root [] [] (topLevel (pathGeom 2).Dim)) ∧
    (calls (pathGeom 2) [] ((pathGeom 2).GetQueryPoints (planeAt planesTwoInstances 0) [])
      treeTwoInstances.root [] [] (topLevel (pathGeom 2).Dim)).countP evaluates = 1 :=
  ⟨Build_twoInstances, fun _ _ => by simp [pathGeom],
    (query_walk (pathGeom 2) 2 1 3 planesTwoInstances [] treeTwoInstances Build_twoInstances []
      (planeAt planesTwoInstances 0)).1,
    ((query_walk (pathGeom 2) 2 1 3 planesTwoInstances [] treeTwoInstances Build_twoInstances []
      (planeAt planesTwoInstances 0)).2.2.2.2.2.2 (fun _ _ => by simp [pathGeom])).1⟩

/-- C13, an instance: boundary 0 of `planesCoincident` at the first child of the
root, and the root leaf of the tree of `planesTwoInstances`. -/
theorem leaf_through_crosses_witness :
    ChildOf (pathGeom 1) planesCoincident 1 2 (rootCall (pathGeom 1) planesCoincident [])
      (childCall (pathGeom 1) planesCoincident (rootCall (pathGeom 1) planesCoincident []) 0) ∧
    0 ∈ (childCall (pathGeom 1) planesCoincident
      (rootCall (pathGeom 1) planesCoincident []) 0).through ∧
    (0 ∈ (rootCall (pathGeom 1) planesCoincident []).through ∧
      (pathGeom 1).Above (planeAt planesCoincident 0)
        (childCall (pathGeom 1) planesCoincident
          (rootCall (pathGeom 1) planesCoincident []) 0).space = false ∧
      (pathGeom 1).Intersect (planeAt planesCoincident 0)
        (childCall (pathGeom 1) planesCoincident
          (rootCall (pathGeom 1) planesCoincident []) 0).space = true) ∧
    Build (pathGeom 2) 2 1 3 planesTwoInstances [] = some treeTwoInstances ∧
    (∃ r k fuel', (r = rootCall (pathGeom 2) planesTwoInstances [] ∨
        ∃ b, Reach (pathGeom 2) planesTwoInstances 1 (2 ^ (pathGeom 2).Dim) []
            (rootCall (pathGeom 2) planesTwoInstances []) b ∧ NestedOf 1 [] b r) ∧
      InTree (pathGeom 2) planesTwoInstances 1 (2 ^ (pathGeom 2).Dim) r k ∧
      runCall (pathGeom 2) planesTwoInstances 2 1 (2 ^ (pathGeom 2).Dim) [] fuel' k =
        some treeTwoInstances.root ∧
      treeTwoInstances.root.through_planes = k.through) :=
  have hroot : (rootCall (pathGeom 1) planesCoincident []).through = [0, 1] := by
    simp [rootCall, rootThrough, pathGeom, planesCoincident, planeAt, List.range,
      List.range.loop]
  have hchild : ChildOf (pathGeom 1) planesCoincident 1 2
      (rootCall (pathGeom 1) planesCoincident [])
      (childCall (pathGeom 1) planesCoincident (rootCall (pathGeom 1) planesCoincident []) 0) :=
    ⟨by rw [hroot, threshold_one]; decide, 0, by decide, rfl⟩
  have hmem : 0 ∈ (childCall (pathGeom 1) planesCoincident
      (rootCall (pathGeom 1) planesCoincident []) 0).through := by
    simp [childCall, subThrough, pathGeom, planesCoincident, planeAt, rootCall, rootThrough,
      List.range, List.range.loop]
  ⟨hchild, hmem,
    (leaf_through_crosses (pathGeom 1) planesCoincident 1 1).1 2 _ _ _ hchild
      Relation.ReflTransGen.refl 0 hmem,
    Build_twoInstances,
    (leaf_through_crosses (pathGeom 2) planesTwoInstances 2 1).2.2.2 3 [] treeTwoInstances
      Build_twoInstances treeTwoInstances.root (Sub.refl _) rfl⟩

/-- C14, an instance: the root of the nested tree of `planesTwoInstances`, which
subdivides, and boundary 0 in the `above` vector of its first child. -/
theorem child_call_arguments_witness :
    threshold 1 < [0, 1].length ∧
    BuildRecursive (pathGeom 2) planesTwoInstances 2 1 4 [] (1 + 1) [] [] [0, 1] 1 0 =
      (childrenLoop (pathGeom 2) planesTwoInstances [] [0, 1]
        (fun b a t => BuildRecursive (pathGeom 2) planesTwoInstances 2 1 4 [] 1 b a t (1 + 1) 0)
        (List.range 4) []).map (fun cs => Node.mk cs [] Payload.null) ∧
    InTree (pathGeom 2) planesTwoInstances 1 4 ⟨[], [], [0, 1], 1, 0⟩
      (childCall (pathGeom 2) planesTwoInstances ⟨[], [], [0, 1], 1, 0⟩ 0) ∧
    0 ∈ (childCall (pathGeom 2) planesTwoInstances ⟨[], [], [0, 1], 1, 0⟩ 0).above ∧
    (0 ∈ (⟨[], [], [0, 1], 1, 0⟩ : Call (List Nat)).above ∨
      ∃ b a, InTree (pathGeom 2) planesTwoInstances 1 4 ⟨[], [], [0, 1], 1, 0⟩ b ∧
        ChildOf (pathGeom 2) planesTwoInstances 1 4 b a ∧
        InTree (pathGeom 2) planesTwoInstances 1 4 a
          (childCall (pathGeom 2) planesTwoInstances ⟨[], [], [0, 1], 1, 0⟩ 0) ∧
        0 ∈ b.through ∧ (pathGeom 2).Above (planeAt planesTwoInstances 0) a.space = true) :=
  have hlt : threshold 1 < [0, 1].length := by rw [threshold_one]; decide
  have hin : InTree (pathGeom 2) planesTwoInstances 1 4 ⟨[], [], [0, 1], 1, 0⟩
      (childCall (pathGeom 2) planesTwoInstances ⟨[], [], [0, 1], 1, 0⟩ 0) :=
    Relation.ReflTransGen.single ⟨hlt, 0, by decide, rfl⟩
  have hmem : 0 ∈ (childCall (pathGeom 2) planesTwoInstances ⟨[], [], [0, 1], 1, 0⟩ 0).above := by
    simp [childCall, subAbove, pathGeom, planesTwoInstances, planeAt]
  ⟨hlt,
    (child_call_arguments (pathGeom 2) planesTwoInstances 2 1 4 []).2.1 1 [] [] [0, 1] 1 0 hlt,
    hin, hmem,
    (child_call_arguments (pathGeom 2) planesTwoInstances 2 1 4 []).2.2 _ _ hin 0 hmem⟩

/-- C19, an instance: the call of `Build` and the first call of the walk for
boundary 0 on the tree of `planesTwoInstances`. -/
theorem no_double_counting_witness :
    Build (pathGeom 2) 2 1 3 planesTwoInstances [] = some treeTwoInstances ∧
    ((rootCall (pathGeom 2) planesTwoInstances []).above.Nodup ∧
      (rootCall (pathGeom 2) planesTwoInstances []).through.Nodup ∧
      (rootCall (pathGeom 2) planesTwoInstances []).above.Disjoint
        (rootCall (pathGeom 2) planesTwoInstances []).through) ∧
    (⟨treeTwoInstances.root, [], [], topLevel (pathGeom 2).Dim⟩ : QCall (List Nat)) ∈
      calls (pathGeom 2) [] ((pathGeom 2).GetQueryPoints (planeAt planesTwoInstances 0) [])
        treeTwoInstances.root [] [] (topLevel (pathGeom 2).Dim) ∧
    (∃ k fuel', Reach (pathGeom 2) planesTwoInstances 1 (2 ^ (pathGeom 2).Dim) []
        (rootCall (pathGeom 2) planesTwoInstances []) k ∧
      runCall (pathGeom 2) planesTwoInstances 2 1 (2 ^ (pathGeom 2).Dim) [] fuel' k =
        some treeTwoInstances.root ∧
      ([] : List Nat).Nodup ∧ ([] : List Nat).Disjoint (k.above ++ k.through) ∧
      (treeTwoInstances.root.children = [] → topLevel (pathGeom 2).Dim = 0 →
        treeTwoInstances.root =
          Node.mk [] k.through (Payload.info (foldInfo planesTwoInstances 2 k.above)) ∧
        ∀ p, p ∈ k.above → p ∉ ([] : List Nat))) :=
  have hmem : (⟨treeTwoInstances.root, [], [], topLevel (pathGeom 2).Dim⟩ : QCall (List Nat)) ∈
      calls (pathGeom 2) [] ((pathGeom 2).GetQueryPoints (planeAt planesTwoInstances 0) [])
        treeTwoInstances.root [] [] (topLevel (pathGeom 2).Dim) :=
    List.mem_of_mem_head? (by rw [calls_head]; rfl)
  ⟨Build_twoInstances,
    (no_double_counting (pathGeom 2) 2 1 3 planesTwoInstances [] treeTwoInstances
      Build_twoInstances [] (planeAt planesTwoInstances 0)).1 _ Relation.ReflTransGen.refl,
    hmem,
    (no_double_counting (pathGeom 2) 2 1 3 planesTwoInstances [] treeTwoInstances
      Build_twoInstances [] (planeAt planesTwoInstances 0)).2.2 _ hmem⟩



/-! ## The source as written: what the calls return -/

section AsWrittenLemmas

variable {G Box Point : Type} [Inhabited G]

theorem AsWritten.collect_length (l : List (Option AsWritten.Node)) (cs : List AsWritten.Node)
    (h : AsWritten.collect l = some cs) : cs.length = l.length := by
  induction l generalizing cs with
  | nil =>
    simp only [AsWritten.collect, Option.some.injEq] at h
    subst h
    rfl
  | cons x rest ih =>
    cases x with
    | none => simp [AsWritten.collect] at h
    | some y =>
      simp only [AsWritten.collect, Option.map_eq_some'] at h
      obtain ⟨xs, hxs, rfl⟩ := h
      simp [ih xs hxs]

/-- A node that `AsWritten.BuildRecursive` returns has no element in `children`
and no live `Info` behind `tree_or_info`; a leaf at level 0 points to the dead
`Info` of its `above` vector, and a node made by subdividing has `n_child`
nodes in the reserved storage and a null `tree_or_info`. -/
theorem AsWritten.BuildRecursive_returns (g : ObjectHpp G Box Point)
    (planes : List (HyperPlane G)) (m : Nat) (c : Int) (n_child : Nat) (root_space : Box)
    (fuel : Nat) (space : Box) (above through : List Nat) (depth level : Nat)
    (t : AsWritten.Node)
    (h : AsWritten.BuildRecursive g planes m c n_child root_space fuel space above through
      depth level = some t) :
    t.children = [] ∧ (∀ i, t.tree_or_info ≠ AsWritten.Pointer.info i) ∧
    (through.length ≤ threshold c → level = 0 →
      t = AsWritten.Node.mk [] [] through (AsWritten.Pointer.dead (foldInfo planes m above))) ∧
    (threshold c < through.length →
      t.tree_or_info = AsWritten.Pointer.null ∧ t.storage.length = n_child) := by
  cases fuel with
  | zero => simp [AsWritten.BuildRecursive] at h
  | succ fuel =>
    unfold AsWritten.BuildRecursive at h
    by_cases hthr : through.length ≤ threshold c
    · rw [if_pos hthr] at h
      by_cases hlevel : level = 0
      · rw [if_pos hlevel] at h
        cases h
        exact ⟨rfl, fun i hi => (by cases hi), fun _ _ => rfl, fun hlt => absurd hthr (by omega)⟩
      · rw [if_neg hlevel] at h
        split at h
        · cases h
          exact ⟨rfl, fun i hi => (by cases hi), fun _ h0 => absurd h0 hlevel,
            fun hlt => absurd hthr (by omega)⟩
        · cases h
    · rw [if_neg hthr] at h
      split at h
      · next cs hcs =>
        cases h
        refine ⟨rfl, fun i hi => (by cases hi), fun hle => absurd hle hthr, fun _ => ⟨rfl, ?_⟩⟩
        have := AsWritten.collect_length _ cs hcs
        simpa [AsWritten.Node.storage] using this
      · cases h

/-- Above level 0 a call of `AsWritten.QueryRecursive` ends without a `return`
statement, whatever the node. -/
theorem AsWritten.QueryRecursive_missing (g : ObjectHpp G Box Point)
    (planes : List (HyperPlane G)) (root_space : Box) (points : Nat → Point) (R : Box)
    (plane : HyperPlane G) (node : AsWritten.Node) (space : Box) (through : List Nat)
    (level : Nat) :
    (AsWritten.QueryRecursive g planes root_space points R plane node space through
      (level + 1)).returned = Returned.missing := by
  cases node with
  | mk cs storage tp ptr =>
    cases cs with
    | nil => cases ptr <;> simp [AsWritten.QueryRecursive, AsWritten.queryLeaf]
    | cons ch cs => simp [AsWritten.QueryRecursive]

/-- At a node without elements in `children` a call of `AsWritten.QueryRecursive`
at level 0 makes no further call, and returns a defined value only when
`tree_or_info` is the address of a live `Info`. -/
theorem AsWritten.QueryRecursive_level_zero (g : ObjectHpp G Box Point)
    (planes : List (HyperPlane G)) (root_space : Box) (points : Nat → Point) (R : Box)
    (plane : HyperPlane G) (storage : List AsWritten.Node) (tp : List Nat)
    (ptr : AsWritten.Pointer) (hptr : ∀ i, ptr ≠ AsWritten.Pointer.info i) (space : Box)
    (through : List Nat) :
    AsWritten.QueryRecursive g planes root_space points R plane
        (AsWritten.Node.mk [] storage tp ptr) space through 0 =
      { calls := [⟨AsWritten.Node.mk [] storage tp ptr, space, through, 0⟩]
        returned := Returned.value none } := by
  cases ptr with
  | info i => exact absurd rfl (hptr i)
  | null => simp [AsWritten.QueryRecursive, AsWritten.queryLeaf]
  | dead i => simp [AsWritten.QueryRecursive, AsWritten.queryLeaf]
  | node t => simp [AsWritten.QueryRecursive, AsWritten.queryLeaf]

end AsWrittenLemmas


/-! ## Claims that fail of the source as written -/

/-- C10: as the source is written, `CalProb` hands no map to its caller, for any
tree and region: its body ends at line 168 without a `return` statement.  Above
level 0 a call of `QueryRecursive` ends without a `return` statement too, so
that on the tree of `planesTwoInstances` with `Dim = 2` and `c = 1` line 166
stores no defined number under any of the keys 0, 1 and 2.  In the reading of
the header the map is `[(0, 1), (1, 0), (2, 0)]`. -/
theorem CalProb_hands_over_no_map :
    (∀ (G Box Point : Type) [Inhabited G] (g : ObjectHpp G Box Point)
      (t : AsWritten.Tree G Box) (R : Box), AsWritten.CalProb g t R = Returned.missing) ∧
    (∀ (G Box Point : Type) [Inhabited G] (g : ObjectHpp G Box Point)
      (planes : List (HyperPlane G)) (root_space : Box) (points : Nat → Point) (R : Box)
      (plane : HyperPlane G) (node : AsWritten.Node) (space : Box) (through : List Nat)
      (level : Nat),
      (AsWritten.QueryRecursive g planes root_space points R plane node space through
        (level + 1)).returned = Returned.missing) ∧
    (AsWritten.Build (pathGeom 2) 2 1 3 planesTwoInstances [] = some treeTwoInstancesAsWritten ∧
      (AsWritten.queryPlane (pathGeom 2) treeTwoInstancesAsWritten []
        (planeAt planesTwoInstances 0)).returned = Returned.missing ∧
      AsWritten.results (pathGeom 2) treeTwoInstancesAsWritten [] =
        [(0, none), (1, none), (2, none)] ∧
      AsWritten.CalProb (pathGeom 2) treeTwoInstancesAsWritten [] = Returned.missing ∧
      Build (pathGeom 2) 2 1 3 planesTwoInstances [] = some treeTwoInstances ∧
      CalProb (pathGeom 2) treeTwoInstances [] = [(0, some 1), (1, some 0), (2, some 0)]) := by
  refine ⟨fun G Box Point _ g t R => rfl, ?_, ?_, ?_, ?_, rfl, ?_, ?_⟩
  · intro G Box Point _ g planes root_space points R plane node space through level
    exact AsWritten.QueryRecursive_missing g planes root_space points R plane node space
      through level
  · simp [AsWritten.Build, AsWritten.BuildRecursive, pathGeom, planesTwoInstances, rootAbove,
      rootThrough, threshold, topLevel, AsWritten.collect, subAbove, subThrough, planeAt,
      List.range, List.range.loop, treeTwoInstancesAsWritten]
  · simp [AsWritten.queryPlane, AsWritten.QueryRecursive, AsWritten.queryLeaf,
      treeTwoInstancesAsWritten, topLevel, pathGeom]
  · simp [AsWritten.results, AsWritten.assigned, AsWritten.queryPlane,
      AsWritten.QueryRecursive, AsWritten.queryLeaf, treeTwoInstancesAsWritten, topLevel,
      pathGeom, planesTwoInstances, mapSet]
  · exact Build_twoInstances
  · simp [CalProb, treeTwoInstances, planesTwoInstances, pathGeom, queryPlane,
      QueryRecursive, queryLeaf, queryChild, evalInfo, tallyLoop, tallyStep, foldInfo, foldStep,
      Info.init, topLevel, mapSet, planeAt, sigmaAt, dmul, ddiv, probObjAt, incr, List.lookup]
    norm_num

/-- C11: as the source is written, the `Info` of a leaf at level 0 is the local
variable of lines 51-65, and `tree_or_info` holds its address when its lifetime
has ended: no node that `BuildRecursive` returns points to a live Leaf Summary,
and a leaf at level 0 points to the dead `Info` of its `above` vector.  On
`planesSingle 0` with `Dim = 1` and `c = 1` the tree is one such leaf;
`QueryRecursive` reads the dead `Info` and returns no defined value, where the
`Info` of `above = [0]` gives 1.  On `planesTwoInstances` with `Dim = 2` and
`c = 1` the root leaf, at level 1, holds the nested tree, and the four leaves
at level 0 point to a dead `Info`. -/
theorem leaf_summary_pointer_is_dead :
    (∀ (G Box Point : Type) [Inhabited G] (g : ObjectHpp G Box Point)
      (planes : List (HyperPlane G)) (m : Nat) (c : Int) (n_child : Nat) (root_space : Box)
      (fuel : Nat) (space : Box) (above through : List Nat) (depth level : Nat)
      (t : AsWritten.Node),
      AsWritten.BuildRecursive g planes m c n_child root_space fuel space above through
        depth level = some t →
      (∀ i, t.tree_or_info ≠ AsWritten.Pointer.info i) ∧
      (through.length ≤ threshold c → level = 0 →
        t = AsWritten.Node.mk [] [] through
          (AsWritten.Pointer.dead (foldInfo planes m above)))) ∧
    ((AsWritten.Build (pathGeom 1) 1 1 1 (planesSingle 0) []).map (fun t => t.root) =
        some (AsWritten.Node.mk [] [] []
          (AsWritten.Pointer.dead (foldInfo (planesSingle 0) 1 [0]))) ∧
      AsWritten.QueryRecursive (pathGeom 1) (planesSingle 0) []
          ((pathGeom 1).GetQueryPoints (planeAt (planesSingle 0) 0) []) []
          (planeAt (planesSingle 0) 0)
          (AsWritten.Node.mk [] [] [] (AsWritten.Pointer.dead (foldInfo (planesSingle 0) 1 [0])))
          [] [] (topLevel 1) =
        { calls := [⟨AsWritten.Node.mk [] [] []
            (AsWritten.Pointer.dead (foldInfo (planesSingle 0) 1 [0])), [], [], 0⟩]
          returned := Returned.value none } ∧
      evalInfo (pathGeom 1) (planesSingle 0) (foldInfo (planesSingle 0) 1 [0]) [] []
        (planeAt (planesSingle 0) 0) = some 1) ∧
    AsWritten.Build (pathGeom 2) 2 1 3 planesTwoInstances [] = some treeTwoInstancesAsWritten := by
  refine ⟨?_, ⟨?_, ?_, ?_⟩, ?_⟩
  · intro G Box Point _ g planes m c n_child root_space fuel space above through depth level t h
    have := AsWritten.BuildRecursive_returns g planes m c n_child root_space fuel space above
      through depth level t h
    exact ⟨this.2.1, this.2.2.1⟩
  · simp [AsWritten.Build, AsWritten.BuildRecursive, pathGeom, planesSingle, rootAbove,
      rootThrough, threshold, topLevel, planeAt, List.range, List.range.loop]
  · simp [AsWritten.QueryRecursive, AsWritten.queryLeaf, topLevel]
  · simp [pathGeom, planesSingle, evalInfo, tallyLoop, foldInfo, foldStep, Info.init, planeAt,
      sigmaAt, dmul, ddiv]
  · simp [AsWritten.Build, AsWritten.BuildRecursive, pathGeom, planesTwoInstances, rootAbove,
      rootThrough, threshold, topLevel, AsWritten.collect, subAbove, subThrough, planeAt,
      List.range, List.range.loop, treeTwoInstancesAsWritten]

/-- C12: as the source is written, every node that `BuildRecursive` returns has
a vector `children` without elements, so that the test of line 94 holds at
every node; at level 0 `QueryRecursive` reads the `tree_or_info` of any such
node as an `Info`, makes no further call and returns no defined value.  On the
tree of `planesTwoInstances` with `Dim = 2` and `c = 1` the walk for boundary 0
makes two calls: on the root leaf at level 1, and at level 0 on the root of
the nested tree, a node made by subdividing, with four nodes in the reserved
storage and a null `tree_or_info`, which it takes for a leaf.  No call uses
`PointLocation`, none reads a Leaf Summary, and the walk returns nothing.  In
the reading of the header the walk makes three calls, the last on a leaf at
level 0. -/
theorem walk_takes_subdivided_node_for_leaf :
    (∀ (G Box Point : Type) [Inhabited G] (g : ObjectHpp G Box Point)
      (planes : List (HyperPlane G)) (m : Nat) (c : Int) (n_child : Nat) (root_space : Box)
      (fuel : Nat) (space : Box) (above through : List Nat) (depth level : Nat)
      (t : AsWritten.Node),
      AsWritten.BuildRecursive g planes m c n_child root_space fuel space above through
        depth level = some t →
      t.children = [] ∧
      (threshold c < through.length →
        t.tree_or_info = AsWritten.Pointer.null ∧ t.storage.length = n_child) ∧
      ∀ (points : Nat → Point) (R : Box) (plane : HyperPlane G) (sp : Box) (th : List Nat),
        AsWritten.QueryRecursive g planes root_space points R plane t sp th 0 =
          { calls := [⟨t, sp, th, 0⟩], returned := Returned.value none }) ∧
    (AsWritten.Build (pathGeom 2) 2 1 3 planesTwoInstances [] = some treeTwoInstancesAsWritten ∧
      AsWritten.queryPlane (pathGeom 2) treeTwoInstancesAsWritten []
          (planeAt planesTwoInstances 0) =
        { calls := [⟨treeTwoInstancesAsWritten.root, [], [], 1⟩,
            ⟨AsWritten.Node.mk []
              [AsWritten.Node.mk [] [] []
                (AsWritten.Pointer.dead (foldInfo planesTwoInstances 2 [0, 1])),
               AsWritten.Node.mk [] [] []
                (AsWritten.Pointer.dead (foldInfo planesTwoInstances 2 [0, 1])),
               AsWritten.Node.mk [] [] []
                (AsWritten.Pointer.dead (foldInfo planesTwoInstances 2 [0, 1])),
               AsWritten.Node.mk [] [] []
                (AsWritten.Pointer.dead (foldInfo planesTwoInstances 2 [0, 1]))]
              [] AsWritten.Pointer.null, [], [2], 0⟩]
          returned := Returned.missing } ∧
      (calls (pathGeom 2) [] ((pathGeom 2).GetQueryPoints (planeAt planesTwoInstances 0) [])
          treeTwoInstances.root [] [] (topLevel 2)).map (fun q => (q.node, q.through, q.level)) =
        [(treeTwoInstances.root, [], 1),
         (Node.mk
            [Node.mk [] [] (Payload.info (foldInfo planesTwoInstances 2 [0, 1])),
             Node.mk [] [] (Payload.info (foldInfo planesTwoInstances 2 [0, 1])),
             Node.mk [] [] (Payload.info (foldInfo planesTwoInstances 2 [0, 1])),
             Node.mk [] [] (Payload.info (foldInfo planesTwoInstances 2 [0, 1]))] []
            Payload.null, [2], 0),
         (Node.mk [] [] (Payload.info (foldInfo planesTwoInstances 2 [0, 1])), [2], 0)]) := by
  refine ⟨?_, ?_, ?_, ?_⟩
  · intro G Box Point _ g planes m c n_child root_space fuel space above through depth level t h
    obtain ⟨hch, hptr, -, hsub⟩ := AsWritten.BuildRecursive_returns g planes m c n_child
      root_space fuel space above through depth level t h
    refine ⟨hch, hsub, ?_⟩
    intro points R plane sp th
    cases t with
    | mk cs storage tp ptr =>
      have hcs : cs = [] := hch
      subst hcs
      exact AsWritten.QueryRecursive_level_zero g planes root_space points R plane storage tp
        ptr hptr sp th
  · simp [AsWritten.Build, AsWritten.BuildRecursive, pathGeom, planesTwoInstances, rootAbove,
      rootThrough, threshold, topLevel, AsWritten.collect, subAbove, subThrough, planeAt,
      List.range, List.range.loop, treeTwoInstancesAsWritten]
  · simp [AsWritten.queryPlane, AsWritten.QueryRecursive, AsWritten.queryLeaf,
      treeTwoInstancesAsWritten, topLevel, pathGeom]
  · simp [calls, callsLeaf, callsChild, treeTwoInstances, topLevel, pathGeom]


end QuadTree
